import Mathlib

/-!
PE inspection module (`libyara/modules/pe.c`)

A shallow embedding of the PE module of libyara and a verification of its
specification.

Modelling conventions

* A memory block is a `List Nat`; a byte read reduces the element modulo 256.
* A pointer into a block is the byte offset from the start of the block.
* Every read is bounds checked by the model: a read outside the block yields
  `Res.oob` (undefined behaviour in C), so that "no read falls outside the
  buffer" is the statement that a function never produces `Res.oob`.
* Unbounded loops and recursion carry a budget; exhausting it yields
  `Res.nofuel`, which is distinct from every result of the C code.
* `size_t` and `uint64_t` are 64 bits wide; `DWORD` is 32 bits, `WORD` 16 bits.
* Structure layouts are those of the canonical PE definition (`yara/pe.h` is
  not part of the sources at hand).
-/

namespace PE

/-! ## Results of a computation over a bounded buffer -/

/-- Outcome of running a piece of the C code. -/
inductive Res (α : Type) where
  | ok : α → Res α
  | oob : Res α
  | nofuel : Res α
  deriving DecidableEq, Repr

/-- Sequencing of outcomes: the first failure wins. -/
def Res.bind {α β : Type} (x : Res α) (f : α → Res β) : Res β :=
  match x with
  | .ok a => f a
  | .oob => .oob
  | .nofuel => .nofuel

instance : Monad Res where
  pure := Res.ok
  bind := Res.bind

/-! ## Little-endian reads -/

/-- One byte at `off`. -/
def rd8 (B : List Nat) (off : Nat) : Res Nat :=
  match B[off]? with
  | some b => .ok (b % 256)
  | none => .oob

/-- A `WORD` at `off`. -/
def rd16 (B : List Nat) (off : Nat) : Res Nat :=
  (rd8 B off).bind fun b0 => (rd8 B (off + 1)).bind fun b1 => .ok (b0 + 256 * b1)

/-- A `DWORD` at `off`. -/
def rd32 (B : List Nat) (off : Nat) : Res Nat :=
  (rd16 B off).bind fun lo => (rd16 B (off + 2)).bind fun hi => .ok (lo + 65536 * hi)

/-- A `ULONGLONG` at `off`. -/
def rd64 (B : List Nat) (off : Nat) : Res Nat :=
  (rd32 B off).bind fun lo => (rd32 B (off + 4)).bind fun hi => .ok (lo + 4294967296 * hi)

/-- Reinterpretation of a 32-bit pattern as a C `int` / `LONG`. -/
def toInt32 (v : Nat) : Int :=
  if v % 4294967296 < 2147483648 then (v % 4294967296 : Nat) else (v % 4294967296 : Nat) - 4294967296

/-- Reinterpretation of a 64-bit pattern as a C `int64_t`. -/
def toInt64 (v : Nat) : Int :=
  if v % 18446744073709551616 < 9223372036854775808 then (v % 18446744073709551616 : Nat)
  else (v % 18446744073709551616 : Nat) - 18446744073709551616

/-! ## Constants -/

def IMAGE_DOS_SIGNATURE : Nat := 0x5A4D
def IMAGE_NT_SIGNATURE : Nat := 0x00004550
def IMAGE_FILE_MACHINE_I386 : Nat := 0x014c
def IMAGE_FILE_MACHINE_AMD64 : Nat := 0x8664
def IMAGE_FILE_DLL : Nat := 0x2000
def sizeof_IMAGE_DOS_HEADER : Nat := 64
def sizeof_Signature : Nat := 4
def sizeof_IMAGE_FILE_HEADER : Nat := 20
def sizeof_IMAGE_SECTION_HEADER : Nat := 40
def sizeof_IMAGE_IMPORT_DESCRIPTOR : Nat := 20
def sizeof_IMAGE_IMPORT_BY_NAME : Nat := 4
def sizeof_IMAGE_THUNK_DATA32 : Nat := 4
def sizeof_IMAGE_THUNK_DATA64 : Nat := 8
def sizeof_DWORD : Nat := 4
def IMAGE_ORDINAL_FLAG32 : Nat := 0x80000000
def IMAGE_ORDINAL_FLAG64 : Nat := 0x8000000000000000
def IMAGE_DIRECTORY_ENTRY_EXPORT : Nat := 0
def IMAGE_DIRECTORY_ENTRY_IMPORT : Nat := 1
def IMAGE_DIRECTORY_ENTRY_RESOURCE : Nat := 2
def MAX_PE_SECTIONS : Nat := 96
def IMAGE_SIZEOF_SHORT_NAME : Nat := 8
def RESOURCE_CALLBACK_CONTINUE : Nat := 0
def RESOURCE_CALLBACK_ABORT : Nat := 1
def RESOURCE_ITERATOR_FINISHED : Nat := 0
def RESOURCE_ITERATOR_ABORTED : Nat := 1
def SCAN_FLAGS_PROCESS_MEMORY : Nat := 2
def ERROR_SUCCESS : Nat := 0
def ERROR_INSUFICIENT_MEMORY : Nat := 1

/-- The sentinel `UNDEFINED` (`0xFFFABADAFABADAFF` read as an `int64_t`). -/
def UNDEFINED : Int := 0xFFFABADAFABADAFF - 18446744073709551616

/-! ## `pe_get_header` -/

/-- Model of `pe_get_header(buffer, buffer_length)` with
`buffer_length = buffer.length`.  The result `none` is `NULL`; `some off` is
the pointer `buffer + off`. -/
def pe_get_header (buffer : List Nat) : Res (Option Nat) :=
  if buffer.length < sizeof_IMAGE_DOS_HEADER then .ok none
  else
    (rd16 buffer 0).bind fun e_magic =>
    if e_magic ≠ IMAGE_DOS_SIGNATURE then .ok none
    else
      (rd32 buffer 60).bind fun lfanew_raw =>
      let e_lfanew : Int := toInt32 lfanew_raw
      if e_lfanew < 0 then .ok none
      else
        let headers_size := e_lfanew.toNat + sizeof_Signature + sizeof_IMAGE_FILE_HEADER
        if buffer.length < headers_size then .ok none
        else
          let pe_header := e_lfanew.toNat
          (rd16 buffer (pe_header + 20)).bind fun size_of_optional_header =>
          let headers_size := headers_size + size_of_optional_header
          (rd32 buffer pe_header).bind fun signature =>
          if signature ≠ IMAGE_NT_SIGNATURE then .ok none
          else
            (rd16 buffer (pe_header + 4)).bind fun machine =>
            if (machine = IMAGE_FILE_MACHINE_I386 ∨ machine = IMAGE_FILE_MACHINE_AMD64) ∧
                buffer.length > headers_size then .ok (some pe_header)
            else .ok none

/-! ## Data directories and the RVA mapper -/

/-- The binding record `DATA`; pointers are offsets into `data`. -/
structure DATA where
  pe_header : Nat
  pe_size : Nat
  pe_offset : Nat
  data : List Nat
  data_size : Nat
  deriving DecidableEq, Repr

/-- Model of `pe_get_directory_entry`: the address of `DataDirectory[entry]`
in the PE32+ layout when `Machine` is `0x8664`, in the PE32 layout otherwise. -/
def pe_get_directory_entry (B : List Nat) (pe_header entry : Nat) : Res Nat :=
  (rd16 B (pe_header + 4)).bind fun machine =>
  if machine = 0x8664 then .ok (pe_header + 24 + 112 + 8 * entry)
  else .ok (pe_header + 24 + 96 + 8 * entry)

/-- The `while` loop of `pe_rva_to_offset`; `n` is the number of iterations
still allowed by `i < min(NumberOfSections, MAX_PE_SECTIONS)`, `sect` the
address of the current section header. -/
def pe_rva_to_offset_loop (B : List Nat) (pe_header pe_size rva : Nat) :
    Nat → Nat → Nat → Nat → Res Nat
  | 0, _, section_rva, section_offset =>
      .ok ((section_offset + (rva + 18446744073709551616 - section_rva) % 18446744073709551616)
        % 18446744073709551616)
  | n + 1, sect, section_rva, section_offset =>
      if sect - pe_header + sizeof_IMAGE_SECTION_HEADER < pe_size then
        (rd32 B (sect + 12)).bind fun virtual_address =>
        if rva ≥ virtual_address ∧ section_rva ≤ virtual_address then
          (rd32 B (sect + 20)).bind fun pointer_to_raw_data =>
          pe_rva_to_offset_loop B pe_header pe_size rva n
            (sect + sizeof_IMAGE_SECTION_HEADER) virtual_address pointer_to_raw_data
        else
          pe_rva_to_offset_loop B pe_header pe_size rva n
            (sect + sizeof_IMAGE_SECTION_HEADER) section_rva section_offset
      else .ok 0

/-- Model of `pe_rva_to_offset(pe_header, pe_size, rva)`.  `IMAGE_FIRST_SECTION`
is `pe_header + 24 + SizeOfOptionalHeader`. -/
def pe_rva_to_offset (B : List Nat) (pe_header pe_size rva : Nat) : Res Nat :=
  (rd16 B (pe_header + 20)).bind fun size_of_optional_header =>
  (rd16 B (pe_header + 6)).bind fun number_of_sections =>
  pe_rva_to_offset_loop B pe_header pe_size rva (min number_of_sections MAX_PE_SECTIONS)
    (pe_header + 24 + size_of_optional_header) 0 0

/-! ## The resource walker -/

/-- The `(type, id, language)` cells shared by all levels of the walk,
together with the visitor's own data. -/
structure Walk (σ : Type) where
  type : Int
  id : Int
  language : Int
  cb_data : σ

/-- The `for` loop of `_pe_iterate_resources` over the `n` entries that remain,
`entry` being the address of the current one; `recurse` is the recursive call
for a subdirectory. -/
def pe_iterate_entries {σ : Type} (B : List Nat)
    (callback : Int → Int → Int → σ → Nat × σ)
    (recurse : Nat → Nat → Walk σ → Res (Nat × Walk σ))
    (rsrc_data rsrc_tree_level : Nat) : Nat → Nat → Walk σ → Res (Nat × Walk σ)
  | 0, _, w => .ok (RESOURCE_ITERATOR_FINISHED, w)
  | n + 1, entry, w =>
      (if rsrc_tree_level = 0 then
          (rd32 B entry).bind fun name => .ok { w with type := toInt32 name }
        else if rsrc_tree_level = 1 then
          (rd32 B entry).bind fun name => .ok { w with id := toInt32 name }
        else if rsrc_tree_level = 2 then
          (rd32 B entry).bind fun name => .ok { w with language := toInt32 name }
        else .ok w).bind fun w1 =>
      (rd32 B (entry + 4)).bind fun offset_to_data =>
      if offset_to_data &&& 0x80000000 ≠ 0 then
        (recurse (rsrc_data + (offset_to_data &&& 0x7FFFFFFF)) (rsrc_tree_level + 1) w1).bind
          fun r =>
          if r.1 = RESOURCE_ITERATOR_ABORTED then .ok (RESOURCE_ITERATOR_ABORTED, r.2)
          else pe_iterate_entries B callback recurse rsrc_data rsrc_tree_level n (entry + 8) r.2
      else
        let r := callback w1.type w1.id w1.language w1.cb_data
        if r.1 = RESOURCE_CALLBACK_ABORT then
          .ok (RESOURCE_ITERATOR_ABORTED, { w1 with cb_data := r.2 })
        else
          pe_iterate_entries B callback recurse rsrc_data rsrc_tree_level n (entry + 8)
            { w1 with cb_data := r.2 }

/-- Model of `_pe_iterate_resources` (named without the leading underscore,
which Lean reserves for internal names); `fuel` bounds the depth of the
recursion (the C code has no bound of its own).  `rsrc_size` is never used by
the C code and is not a parameter here. -/
def pe_iterate_resources_rec {σ : Type} (B : List Nat)
    (callback : Int → Int → Int → σ → Nat × σ) (rsrc_data : Nat) :
    Nat → Nat → Nat → Walk σ → Res (Nat × Walk σ)
  | 0, _, _, _ => .nofuel
  | fuel + 1, resource_dir, rsrc_tree_level, w =>
      (rd16 B (resource_dir + 12)).bind fun number_of_named_entries =>
      (rd16 B (resource_dir + 14)).bind fun number_of_id_entries =>
      pe_iterate_entries B callback (pe_iterate_resources_rec B callback rsrc_data fuel)
        rsrc_data rsrc_tree_level (number_of_named_entries + number_of_id_entries)
        (resource_dir + 16) w

/-- Model of `pe_iterate_resources`: the returned pair is the C return value
and the visitor's data after the walk. -/
def pe_iterate_resources {σ : Type} (fuel : Nat) (B : List Nat) (pe_header pe_size pe_offset : Nat)
    (callback : Int → Int → Int → σ → Nat × σ) (cb_data : σ) : Res (Nat × σ) :=
  (pe_get_directory_entry B pe_header IMAGE_DIRECTORY_ENTRY_RESOURCE).bind fun directory =>
  (rd32 B directory).bind fun virtual_address =>
  if virtual_address ≠ 0 then
    (pe_rva_to_offset B pe_header pe_size virtual_address).bind fun offset =>
    if offset ≠ 0 ∧ offset < pe_size then
      (rd32 B (directory + 4)).bind fun size =>
      if size < pe_size - offset then
        (pe_iterate_resources_rec B callback (pe_header - pe_offset + offset) fuel
          (pe_header - pe_offset + offset) 0 ⟨-1, -1, -1, cb_data⟩).bind fun r =>
        .ok (1, r.2.cb_data)
      else .ok (0, cb_data)
    else .ok (0, cb_data)
  else .ok (0, cb_data)

/-! ## Total views of the buffer, used to state properties -/

/-- Value of the byte at `off` (0 outside the buffer). -/
def u8 (B : List Nat) (off : Nat) : Nat := B.getD off 0 % 256

/-- Value of the `WORD` at `off`. -/
def u16 (B : List Nat) (off : Nat) : Nat := u8 B off + 256 * u8 B (off + 1)

/-- Value of the `DWORD` at `off`. -/
def u32 (B : List Nat) (off : Nat) : Nat := u16 B off + 65536 * u16 B (off + 2)

/-- Value of the `ULONGLONG` at `off`. -/
def u64 (B : List Nat) (off : Nat) : Nat := u32 B off + 4294967296 * u32 B (off + 4)

/-! ## C strings -/

/-- The bytes of a C string argument: no NUL and every element a byte. -/
def IsCStr (s : List Nat) : Prop := ∀ c ∈ s, 0 < c ∧ c < 256

instance (s : List Nat) : Decidable (IsCStr s) := by unfold IsCStr; infer_instance

/-- Model of `strncmp(B + off, s, n) == 0`, where `s` holds the bytes of the C
string argument without its terminator. -/
def strncmp (B : List Nat) (off : Nat) (s : List Nat) : Nat → Res Bool
  | 0 => .ok true
  | n + 1 =>
      (rd8 B off).bind fun c1 =>
      if c1 ≠ s.headD 0 then .ok false
      else if c1 = 0 then .ok true
      else strncmp B (off + 1) s.tail n

/-- ASCII `tolower`. -/
def tolower (c : Nat) : Nat := if 65 ≤ c ∧ c ≤ 90 then c + 32 else c

/-- Model of `strncasecmp(s, B + off, n) == 0`. -/
def strncasecmp (s : List Nat) (B : List Nat) (off : Nat) : Nat → Res Bool
  | 0 => .ok true
  | n + 1 =>
      (rd8 B off).bind fun c2 =>
      if tolower (s.headD 0) ≠ tolower c2 then .ok false
      else if c2 = 0 then .ok true
      else strncasecmp s.tail B (off + 1) n

/-! ## The host object and `pe_parse_header` -/

/-- One published element of the `sections` array. -/
structure SectionRec where
  name : List Nat
  characteristics : Int
  raw_data_size : Int
  raw_data_offset : Int
  virtual_address : Int
  virtual_size : Int
  deriving DecidableEq, Repr

/-- Modelled from the spec: the host object tree (the sink addressed by path,
whose implementation is not part of the sources at hand).  An integer field
that was never set reads `UNDEFINED`; `sections[i]` is defined exactly for the
indices that were published. -/
structure PeObject where
  machine : Int
  number_of_sections : Int
  timestamp : Int
  characteristics : Int
  entry_point : Int
  image_base : Int
  linker_version_major : Int
  linker_version_minor : Int
  os_version_major : Int
  os_version_minor : Int
  image_version_major : Int
  image_version_minor : Int
  subsystem_version_major : Int
  subsystem_version_minor : Int
  subsystem : Int
  sections : List SectionRec
  deriving DecidableEq, Repr

/-- The object before anything is published. -/
def PeObject.empty : PeObject :=
  ⟨UNDEFINED, UNDEFINED, UNDEFINED, UNDEFINED, UNDEFINED, UNDEFINED, UNDEFINED, UNDEFINED,
    UNDEFINED, UNDEFINED, UNDEFINED, UNDEFINED, UNDEFINED, UNDEFINED, UNDEFINED, []⟩

/-- Modelled from the spec: `get_string(module, "sections[%i].name", i)`, which
is `NULL` (`none`) for an index that was not published. -/
def get_section_name (obj : PeObject) (i : Nat) : Option (List Nat) :=
  (obj.sections[i]?).map SectionRec.name

/-- The macro `OptionalHeader(field)`: the field is read through the PE32+
layout when `Machine` is `0x8664` and through the PE32 layout otherwise. -/
def OptionalHeader (B : List Nat) (pe : Nat) (read32 : List Nat → Nat → Res Nat) (off32 : Nat)
    (read64 : List Nat → Nat → Res Nat) (off64 : Nat) : Res Nat :=
  (rd16 B (pe + 4)).bind fun machine =>
  if machine = 0x8664 then read64 B (pe + 24 + off64) else read32 B (pe + 24 + off32)

/-- Modelled from the spec: the closing scan `while (*s++);` of `strlcpy`
(libyara's string helper, whose source is not among the files at hand; this is
the BSD routine it ships).  `src` is what is left of the buffer from `s` on:
the scan ends at the first NUL and reads outside the buffer when there is
none. -/
def strlcpy_scan : List Nat → Res Unit
  | [] => .oob
  | b :: rest => if b % 256 = 0 then .ok () else strlcpy_scan rest

/-- Modelled from the spec: `strlcpy(dst, src, n + 1)`, returning the string
left in `dst`.  At most `n` bytes are copied, stopping after a NUL; when `n`
bytes were copied without meeting one, `dst` is terminated and the source is
scanned on to its NUL, because the routine returns `strlen(src)`. -/
def strlcpy : Nat → List Nat → Res (List Nat)
  | 0, src => (strlcpy_scan src).bind fun _ => .ok []
  | _ + 1, [] => .oob
  | n + 1, b :: rest =>
      if b % 256 = 0 then .ok []
      else (strlcpy n rest).bind fun t => .ok (b % 256 :: t)

/-- The string `strlcpy(section_name, (char*) section->Name,
IMAGE_SIZEOF_SHORT_NAME + 1)` leaves in `section_name`, for the section header
at offset `sect`. -/
def section_name (B : List Nat) (sect : Nat) : Res (List Nat) :=
  strlcpy IMAGE_SIZEOF_SHORT_NAME (B.drop sect)

/-- The section loop of `pe_parse_header`; `n` is the number of iterations
still allowed by `i < min(NumberOfSections, MAX_PE_SECTIONS)`. -/
def pe_parse_sections (B : List Nat) (pe pe_size : Nat) : Nat → Nat → Res (List SectionRec)
  | 0, _ => .ok []
  | n + 1, sect =>
      if sect - pe + sizeof_IMAGE_SECTION_HEADER ≥ pe_size then .ok []
      else
        (section_name B sect).bind fun name =>
        (rd32 B (sect + 36)).bind fun characteristics =>
        (rd32 B (sect + 16)).bind fun size_of_raw_data =>
        (rd32 B (sect + 20)).bind fun pointer_to_raw_data =>
        (rd32 B (sect + 12)).bind fun virtual_address =>
        (rd32 B (sect + 8)).bind fun virtual_size =>
        (pe_parse_sections B pe pe_size n (sect + sizeof_IMAGE_SECTION_HEADER)).bind fun rest =>
        .ok (⟨name, characteristics, size_of_raw_data, pointer_to_raw_data,
          virtual_address, virtual_size⟩ :: rest)

/-- The value `pe_parse_header` passes to `set_integer` for `entry_point`:
`base_address + OptionalHeader(AddressOfEntryPoint)` (a `size_t` sum) when
`flags & SCAN_FLAGS_PROCESS_MEMORY`, and
`pe_rva_to_offset(pe, pe_size, OptionalHeader(AddressOfEntryPoint))`
otherwise. -/
def entry_point_value (B : List Nat) (pe base_address pe_size flags : Nat) : Res Nat :=
  if flags &&& SCAN_FLAGS_PROCESS_MEMORY ≠ 0 then
    (OptionalHeader B pe rd32 16 rd32 16).bind fun address_of_entry_point =>
    .ok ((base_address + address_of_entry_point) % 18446744073709551616)
  else
    (OptionalHeader B pe rd32 16 rd32 16).bind fun address_of_entry_point =>
    pe_rva_to_offset B pe pe_size address_of_entry_point

/-- Model of `pe_parse_header(pe, base_address, pe_size, flags, pe_obj)`: the
object after all the `set_integer` / `set_string` calls. -/
def pe_parse_header (B : List Nat) (pe base_address pe_size flags : Nat) : Res PeObject :=
  (rd16 B (pe + 4)).bind fun machine =>
  (rd16 B (pe + 6)).bind fun number_of_sections =>
  (rd32 B (pe + 8)).bind fun timestamp =>
  (rd16 B (pe + 22)).bind fun characteristics =>
  (entry_point_value B pe base_address pe_size flags).bind fun entry_point =>
  (OptionalHeader B pe rd32 28 rd64 24).bind fun image_base =>
  (OptionalHeader B pe rd8 2 rd8 2).bind fun linker_major =>
  (OptionalHeader B pe rd8 3 rd8 3).bind fun linker_minor =>
  (OptionalHeader B pe rd16 40 rd16 40).bind fun os_major =>
  (OptionalHeader B pe rd16 42 rd16 42).bind fun os_minor =>
  (OptionalHeader B pe rd16 44 rd16 44).bind fun image_major =>
  (OptionalHeader B pe rd16 46 rd16 46).bind fun image_minor =>
  (OptionalHeader B pe rd16 48 rd16 48).bind fun subsystem_major =>
  (OptionalHeader B pe rd16 50 rd16 50).bind fun subsystem_minor =>
  (OptionalHeader B pe rd16 68 rd16 68).bind fun subsystem =>
  (rd16 B (pe + 20)).bind fun size_of_optional_header =>
  (pe_parse_sections B pe pe_size (min number_of_sections MAX_PE_SECTIONS)
    (pe + 24 + size_of_optional_header)).bind fun sections =>
  .ok ⟨machine, number_of_sections, timestamp, characteristics, toInt64 entry_point,
    toInt64 image_base, linker_major, linker_minor, os_major, os_minor, image_major, image_minor,
    subsystem_major, subsystem_minor, subsystem, sections⟩

/-! ## Module lifecycle -/

/-- A memory block handed over by the host; its size is `data.length`. -/
structure Block where
  base : Nat
  data : List Nat
  deriving DecidableEq, Repr

/-- The module object: the published tree and the `data` pointer (`none` is
`NULL`, no binding). -/
structure Module where
  obj : PeObject
  data : Option DATA
  deriving DecidableEq, Repr

/-- The `foreach_memory_block` loop of `module_load`.  `alloc_ok` tells whether
`yr_malloc` succeeds.  The result is the error code and the module object. -/
def module_load_blocks (alloc_ok : Bool) (flags : Nat) : List Block → Res (Nat × Module)
  | [] => .ok (ERROR_SUCCESS, ⟨PeObject.empty, none⟩)
  | block :: rest =>
      (pe_get_header block.data).bind fun header =>
      match header with
      | none => module_load_blocks alloc_ok flags rest
      | some pe_header =>
          (if flags &&& SCAN_FLAGS_PROCESS_MEMORY = 0 then .ok true
            else (rd16 block.data (pe_header + 22)).bind fun characteristics =>
              .ok (decide (characteristics &&& IMAGE_FILE_DLL = 0))).bind fun accepted =>
          if accepted then
            let pe_size := block.data.length - pe_header
            (pe_parse_header block.data pe_header block.base pe_size flags).bind fun obj =>
            if alloc_ok then
              .ok (ERROR_SUCCESS, ⟨obj, some ⟨pe_header, pe_size, pe_header, block.data,
                block.data.length⟩⟩)
            else .ok (ERROR_INSUFICIENT_MEMORY, ⟨obj, none⟩)
          else module_load_blocks alloc_ok flags rest

/-- Model of `module_load`; the publication of the integer constants
(`MACHINE_I386`, ...) does not influence any query and is left out. -/
def module_load (alloc_ok : Bool) (flags : Nat) (blocks : List Block) : Res (Nat × Module) :=
  module_load_blocks alloc_ok flags blocks

/-! ## The query functions -/

/-- The `for` loop of `section_index`: `n` iterations remain, `i` is the
current index.  `strcmp` against a `NULL` name is a read outside any buffer. -/
def section_index_loop (obj : PeObject) (name : List Nat) : Nat → Nat → Res Int
  | 0, _ => .ok UNDEFINED
  | n + 1, i =>
      match get_section_name obj i with
      | none => .oob
      | some s => if name = s then .ok (i : Int) else section_index_loop obj name n (i + 1)

/-- Model of the function `section_index(name)`. -/
def section_index (m : Module) (name : List Nat) : Res Int :=
  let n := m.obj.number_of_sections
  if n = UNDEFINED then .ok UNDEFINED
  else section_index_loop m.obj name n.toNat 0

/-- The `for` loop of `exports`: `n` iterations remain, `i` is the current
index into the name-pointer table at `names`. -/
def exports_loop (d : DATA) (function_name : List Nat) (names : Nat) : Nat → Nat → Res Int
  | 0, _ => .ok 0
  | n + 1, i =>
      (rd32 d.data (names + sizeof_DWORD * i)).bind fun name_rva =>
      (pe_rva_to_offset d.data d.pe_header d.pe_size name_rva).bind fun offset =>
      if offset = 0 ∨ offset ≥ d.data_size then .ok 0
      else
        (strncmp d.data offset function_name (d.data_size - offset)).bind fun equal =>
        if equal then .ok 1 else exports_loop d function_name names n (i + 1)

/-- Model of the function `exports(function_name)`. -/
def exports (m : Module) (function_name : List Nat) : Res Int :=
  match m.data with
  | none => .ok UNDEFINED
  | some d =>
      (pe_get_directory_entry d.data d.pe_header IMAGE_DIRECTORY_ENTRY_EXPORT).bind fun directory =>
      (rd32 d.data directory).bind fun virtual_address =>
      if virtual_address = 0 then .ok 0
      else
        (pe_rva_to_offset d.data d.pe_header d.pe_size virtual_address).bind fun offset =>
        if offset = 0 ∨ offset ≥ d.data_size then .ok 0
        else
          let exports := offset
          (rd32 d.data (exports + 32)).bind fun address_of_names =>
          (pe_rva_to_offset d.data d.pe_header d.pe_size address_of_names).bind fun offset =>
          if offset = 0 then .ok 0
          else
            (rd32 d.data (exports + 24)).bind fun number_of_names =>
            if offset + number_of_names * sizeof_DWORD > d.data_size then .ok 0
            else exports_loop d function_name offset number_of_names 0

/-- The test made on one by-name thunk in `imports` (the same code in the
PE32 and the PE32+ branch): `rva` is the thunk's `Function` field. -/
def import_by_name_matches (d : DATA) (function_name : List Nat) (rva : Nat) : Res Bool :=
  (pe_rva_to_offset d.data d.pe_header d.pe_size rva).bind fun offset =>
  if offset ≠ 0 ∧ offset ≤ (d.data_size + 18446744073709551616 - sizeof_IMAGE_IMPORT_BY_NAME)
      % 18446744073709551616 then
    if (d.data_size : Int) - ((offset : Int) + 2) ≥ (function_name.length : Int) then
      strncmp d.data (offset + 2) function_name function_name.length
    else .ok false
  else .ok false

/-- The `while` loop over `IMAGE_THUNK_DATA32` in `imports`; the result tells
whether `return_integer(1)` was reached. -/
def imports_thunks32 (d : DATA) (function_name : List Nat) : Nat → Nat → Res Bool
  | 0, _ => .nofuel
  | fuel + 1, thunks32 =>
      if thunks32 + sizeof_IMAGE_THUNK_DATA32 ≤ d.data_size then
        (rd32 d.data thunks32).bind fun ordinal =>
        if ordinal ≠ 0 then
          (if ordinal &&& IMAGE_ORDINAL_FLAG32 = 0 then
              import_by_name_matches d function_name ordinal
            else .ok false).bind fun found =>
          if found then .ok true
          else imports_thunks32 d function_name fuel (thunks32 + sizeof_IMAGE_THUNK_DATA32)
        else .ok false
      else .ok false

/-- The `while` loop over `IMAGE_THUNK_DATA64` in `imports`. -/
def imports_thunks64 (d : DATA) (function_name : List Nat) : Nat → Nat → Res Bool
  | 0, _ => .nofuel
  | fuel + 1, thunks64 =>
      if thunks64 + sizeof_IMAGE_THUNK_DATA64 ≤ d.data_size then
        (rd64 d.data thunks64).bind fun ordinal =>
        if ordinal ≠ 0 then
          (if ordinal &&& IMAGE_ORDINAL_FLAG64 = 0 then
              import_by_name_matches d function_name ordinal
            else .ok false).bind fun found =>
          if found then .ok true
          else imports_thunks64 d function_name fuel (thunks64 + sizeof_IMAGE_THUNK_DATA64)
        else .ok false
      else .ok false

/-- The body of the descriptor loop of `imports` for the descriptor at
`imp`: whether `return_integer(1)` was reached. -/
def imports_descriptor (d : DATA) (dll_name function_name : List Nat) (imp name : Nat) :
    Res Bool :=
  (pe_rva_to_offset d.data d.pe_header d.pe_size name).bind fun offset =>
  (if offset > 0 ∧ offset ≤ d.data_size then
      strncasecmp dll_name d.data offset (d.data_size - offset)
    else .ok false).bind fun dll_matches =>
  if dll_matches then
    (rd32 d.data imp).bind fun original_first_thunk =>
    (pe_rva_to_offset d.data d.pe_header d.pe_size original_first_thunk).bind fun offset =>
    if offset > 0 then
      (rd16 d.data (d.pe_header + 4)).bind fun machine =>
      if machine = 0x8664 then imports_thunks64 d function_name (d.data_size + 1) offset
      else imports_thunks32 d function_name (d.data_size + 1) offset
    else .ok false
  else .ok false

/-- The `while` loop over `IMAGE_IMPORT_DESCRIPTOR` in `imports`. -/
def imports_loop (d : DATA) (dll_name function_name : List Nat) : Nat → Nat → Res Int
  | 0, _ => .nofuel
  | fuel + 1, imp =>
      if imp + sizeof_IMAGE_IMPORT_DESCRIPTOR ≤ d.data_size then
        (rd32 d.data (imp + 12)).bind fun name =>
        if name ≠ 0 then
          (imports_descriptor d dll_name function_name imp name).bind fun found =>
          if found then .ok 1
          else imports_loop d dll_name function_name fuel (imp + sizeof_IMAGE_IMPORT_DESCRIPTOR)
        else .ok 0
      else .ok 0

/-- Model of the function `imports(dll_name, function_name)`.  The loops are
given the budget `data_size + 1`, more than the number of records that fit. -/
def imports (m : Module) (dll_name function_name : List Nat) : Res Int :=
  match m.data with
  | none => .ok UNDEFINED
  | some d =>
      (pe_get_directory_entry d.data d.pe_header IMAGE_DIRECTORY_ENTRY_IMPORT).bind fun directory =>
      (rd32 d.data directory).bind fun virtual_address =>
      if virtual_address = 0 then .ok 0
      else
        (pe_rva_to_offset d.data d.pe_header d.pe_size virtual_address).bind fun offset =>
        if offset = 0 ∨ offset + sizeof_IMAGE_IMPORT_DESCRIPTOR > d.data_size then .ok 0
        else imports_loop d dll_name function_name (d.data_size + 1) offset

/-- The visitor's data of `language`. -/
structure FIND_LANGUAGE_CB_DATA where
  language : Nat
  found : Nat
  deriving DecidableEq, Repr

/-- Model of `pe_find_language_cb`; the `int` is converted to `uint64_t` for
the comparison. -/
def pe_find_language_cb (_rsrc_type _rsrc_id rsrc_language : Int)
    (cb_data : FIND_LANGUAGE_CB_DATA) : Nat × FIND_LANGUAGE_CB_DATA :=
  if rsrc_language % 18446744073709551616 = (cb_data.language : Int) then
    (RESOURCE_CALLBACK_ABORT, { cb_data with found := 1 })
  else (RESOURCE_CALLBACK_CONTINUE, cb_data)

/-- Model of the function `language(lang)`; `fuel` is the recursion budget of
the resource walk, `lang` the `int64_t` argument. -/
def language (fuel : Nat) (m : Module) (lang : Int) : Res Int :=
  match m.data with
  | none => .ok UNDEFINED
  | some d =>
      (pe_iterate_resources fuel d.data d.pe_header d.pe_size d.pe_offset pe_find_language_cb
        ⟨(lang % 18446744073709551616).toNat, 0⟩).bind fun r =>
      if r.1 ≠ 0 then .ok (r.2.found : Int) else .ok UNDEFINED

/-! ## Construction of test images -/

/-- Little-endian bytes of a `WORD`. -/
def le16 (v : Nat) : List Nat := [v % 256, v / 256 % 256]

/-- Little-endian bytes of a `DWORD`. -/
def le32 (v : Nat) : List Nat := le16 (v % 65536) ++ le16 (v / 65536 % 65536)

/-- Little-endian bytes of a `ULONGLONG`. -/
def le64 (v : Nat) : List Nat := le32 (v % 4294967296) ++ le32 (v / 4294967296 % 4294967296)

/-- A run of `n` zero bytes. -/
def zeros (n : Nat) : List Nat := List.replicate n 0

/-- The list padded with zero bytes up to length `n`. -/
def padTo (n : Nat) (l : List Nat) : List Nat := l ++ zeros (n - l.length)

/-- The bytes of an ASCII string. -/
def ascii (s : String) : List Nat := s.data.map Char.toNat

/-- An `IMAGE_DOS_HEADER` with the given `e_lfanew`. -/
def dosHeader (e_lfanew : Nat) : List Nat := [0x4D, 0x5A] ++ zeros 58 ++ le32 e_lfanew

/-- The signature and an `IMAGE_FILE_HEADER`. -/
def fileHeader (machine number_of_sections size_of_optional_header characteristics : Nat) :
    List Nat :=
  [0x50, 0x45, 0, 0] ++ le16 machine ++ le16 number_of_sections ++ zeros 12 ++
    le16 size_of_optional_header ++ le16 characteristics

/-- The data directory array (16 entries) with the given leading entries. -/
def dataDirectories (dirs : List (Nat × Nat)) : List Nat :=
  padTo 128 (dirs.flatMap fun e => le32 e.1 ++ le32 e.2)

/-- An `IMAGE_OPTIONAL_HEADER32` (224 bytes). -/
def optionalHeader32 (address_of_entry_point : Nat) (dirs : List (Nat × Nat)) : List Nat :=
  le16 0x10b ++ zeros 14 ++ le32 address_of_entry_point ++ zeros 76 ++ dataDirectories dirs

/-- An `IMAGE_OPTIONAL_HEADER64` (240 bytes). -/
def optionalHeader64 (address_of_entry_point : Nat) (dirs : List (Nat × Nat)) : List Nat :=
  le16 0x20b ++ zeros 14 ++ le32 address_of_entry_point ++ zeros 92 ++ dataDirectories dirs

/-- An `IMAGE_SECTION_HEADER`. -/
def sectionHeader (name : List Nat) (virtual_size virtual_address size_of_raw_data
    pointer_to_raw_data characteristics : Nat) : List Nat :=
  padTo 8 name ++ le32 virtual_size ++ le32 virtual_address ++ le32 size_of_raw_data ++
    le32 pointer_to_raw_data ++ zeros 12 ++ le32 characteristics

/-- A PE32 image whose NT headers start at offset 64, with the given sections
and the given bytes placed from file offset `0x200` on. -/
def image32 (number_of_sections address_of_entry_point : Nat) (dirs : List (Nat × Nat))
    (sections : List (List Nat)) (body : List Nat) : List Nat :=
  padTo 0x200 (dosHeader 64 ++ fileHeader 0x014c number_of_sections 0xE0 0x0102 ++
    optionalHeader32 address_of_entry_point dirs ++ sections.flatten) ++ body

/-- A PE32+ image whose NT headers start at offset 64. -/
def image64 (number_of_sections address_of_entry_point : Nat) (dirs : List (Nat × Nat))
    (sections : List (List Nat)) (body : List Nat) : List Nat :=
  padTo 0x200 (dosHeader 64 ++ fileHeader 0x8664 number_of_sections 0xF0 0x0022 ++
    optionalHeader64 address_of_entry_point dirs ++ sections.flatten) ++ body

/-- The image of scenario 2 of the specification: one section `Test` with
virtual address `0x1000` mapped to file offset `0x200`, padded to `0x300`. -/
def scenarioImage : List Nat :=
  image32 1 0x1000 [] [sectionHeader (ascii "Test") 0x100 0x1000 0x100 0x200 0] (zeros 0x100)

/-! ## Vocabulary of the specification -/

/-- The field `e_lfanew` of the DOS header, as an offset. -/
def e_lfanew (B : List Nat) : Nat := (toInt32 (u32 B 60)).toNat

/-- The conditions of a valid header stated by the specification: room for the
DOS header, the magic `MZ`, a non-negative `e_lfanew`, the signature `PE\0\0`
at `e_lfanew`, a machine among I386 and AMD64, and
`e_lfanew + Signature + FileHeader + SizeOfOptionalHeader < |B|`. -/
def HeaderAccepted (B : List Nat) : Prop :=
  64 ≤ B.length ∧ u16 B 0 = 0x5A4D ∧ 0 ≤ toInt32 (u32 B 60) ∧
  u32 B (e_lfanew B) = 0x00004550 ∧
  (u16 B (e_lfanew B + 4) = 0x014c ∨ u16 B (e_lfanew B + 4) = 0x8664) ∧
  e_lfanew B + 4 + 20 + u16 B (e_lfanew B + 20) < B.length

instance (B : List Nat) : Decidable (HeaderAccepted B) := by
  unfold HeaderAccepted; infer_instance

/-- The binding that `module_load` stores for a block: the anchor returned by
`pe_get_header`, `pe_size` the bytes from the anchor to the end of the block,
`data` and `data_size` the block itself. -/
def Bound (d : DATA) : Prop :=
  pe_get_header d.data = .ok (some d.pe_header) ∧ d.pe_size = d.data.length - d.pe_header ∧
  d.pe_offset = d.pe_header ∧ d.data_size = d.data.length

instance (d : DATA) : Decidable (Bound d) := by unfold Bound; infer_instance

/-- Address of the `i`-th section header (`IMAGE_FIRST_SECTION` plus `i` headers). -/
def sectionAddr (B : List Nat) (pe i : Nat) : Nat := pe + 24 + u16 B (pe + 20) + 40 * i

/-- End offset of the `i`-th section header, measured from the NT headers. -/
def sectionEnd (B : List Nat) (pe i : Nat) : Nat := 24 + u16 B (pe + 20) + 40 * i + 40

/-- `VirtualAddress` of the `i`-th section header. -/
def sectionVA (B : List Nat) (pe i : Nat) : Nat := u32 B (sectionAddr B pe i + 12)

/-- `PointerToRawData` of the `i`-th section header. -/
def sectionRaw (B : List Nat) (pe i : Nat) : Nat := u32 B (sectionAddr B pe i + 20)

/-- The number of sections a walk may visit: `min(NumberOfSections, 96)`. -/
def sectionCap (B : List Nat) (pe : Nat) : Nat := min (u16 B (pe + 6)) MAX_PE_SECTIONS

/-- Section `s` is, among the first `k` sections with `VirtualAddress ≤ r`, the
one with the greatest `VirtualAddress`, the last in table order on ties. -/
def IsBestSection (B : List Nat) (pe k r s : Nat) : Prop :=
  s < k ∧ sectionVA B pe s ≤ r ∧
  ∀ j, j < k → sectionVA B pe j ≤ r →
    sectionVA B pe j < sectionVA B pe s ∨ (sectionVA B pe j = sectionVA B pe s ∧ j ≤ s)

/-- The value of `pe_rva_to_offset` on a binding (0 if a read fails). -/
def rva2off (d : DATA) (rva : Nat) : Nat :=
  match pe_rva_to_offset d.data d.pe_header d.pe_size rva with
  | .ok v => v
  | _ => 0

/-- Invariant of the loop of `pe_rva_to_offset`: what it has found after the first `i` sections. -/
def RvaInv (B : List Nat) (pe r i rv ro : Nat) : Prop :=
  (rv = 0 ∧ ro = 0 ∧ ∀ j, j < i → ¬ sectionVA B pe j ≤ r) ∨
  ∃ s, IsBestSection B pe i r s ∧ rv = sectionVA B pe s ∧ ro = sectionRaw B pe s

instance (B : List Nat) (pe k r s : Nat) : Decidable (IsBestSection B pe k r s) := by
  unfold IsBestSection; infer_instance

/-- Address of `DataDirectory[entry]`, in the layout selected by `Machine`. -/
def dirEntry (B : List Nat) (pe entry : Nat) : Nat :=
  if u16 B (pe + 4) = 0x8664 then pe + 24 + 112 + 8 * entry else pe + 24 + 96 + 8 * entry

/-- The NUL-terminated string stored at `off` is `s`, terminator included
inside the buffer. -/
def CStrAt (B : List Nat) (off : Nat) (s : List Nat) : Prop :=
  IsCStr s ∧ off + s.length < B.length ∧ (∀ i, i < s.length → u8 B (off + i) = s.getD i 0) ∧
  u8 B (off + s.length) = 0

instance (B : List Nat) (off : Nat) (s : List Nat) : Decidable (CStrAt B off s) := by
  unfold CStrAt; infer_instance

/-- The name-pointer table at `p` holds RVAs that map to the stored names
`names`, each a NUL-terminated string at a non-zero offset of the buffer. -/
def ExportNamesAt (d : DATA) : Nat → List (List Nat) → Prop
  | _, [] => True
  | p, nm :: rest =>
      rva2off d (u32 d.data p) ≠ 0 ∧ CStrAt d.data (rva2off d (u32 d.data p)) nm ∧
      ExportNamesAt d (p + 4) rest

/-- A well-formed export table with the names `names`: the export data
directory is inside the buffer and non-zero, it maps to an
`IMAGE_EXPORT_DIRECTORY` inside the buffer, whose `AddressOfNames` maps to a
table of `NumberOfNames = |names|` pointers inside the buffer holding `names`. -/
def ExportTable (d : DATA) (names : List (List Nat)) : Prop :=
  dirEntry d.data d.pe_header 0 + 8 ≤ d.data.length ∧
  u32 d.data (dirEntry d.data d.pe_header 0) ≠ 0 ∧
  rva2off d (u32 d.data (dirEntry d.data d.pe_header 0)) ≠ 0 ∧
  rva2off d (u32 d.data (dirEntry d.data d.pe_header 0)) + 40 ≤ d.data.length ∧
  u32 d.data (rva2off d (u32 d.data (dirEntry d.data d.pe_header 0)) + 24) = names.length ∧
  rva2off d (u32 d.data (rva2off d (u32 d.data (dirEntry d.data d.pe_header 0)) + 32)) ≠ 0 ∧
  rva2off d (u32 d.data (rva2off d (u32 d.data (dirEntry d.data d.pe_header 0)) + 32))
    + 4 * names.length ≤ d.data.length ∧
  ExportNamesAt d
    (rva2off d (u32 d.data (rva2off d (u32 d.data (dirEntry d.data d.pe_header 0)) + 32))) names

/-- The binding `module_load` creates for the block `B` anchored at `pe`. -/
def bindAt (B : List Nat) (pe : Nat) : DATA := ⟨pe, B.length - pe, pe, B, B.length⟩

/-- A PE32 image with one section (virtual address `0x1000` at file offset
`0x200`) and an export table with the two names `Alpha` and `Beta`. -/
def exportImage : List Nat :=
  image32 1 0x1000 [(0x1000, 0x40)]
    [sectionHeader (ascii ".edata") 0x100 0x1000 0x100 0x200 0]
    (zeros 24 ++ le32 2 ++ zeros 4 ++ le32 0x1028 ++ zeros 4 ++
      le32 0x1030 ++ le32 0x1038 ++ padTo 8 (ascii "Alpha") ++ padTo 8 (ascii "Beta") ++ zeros 16)

/-- The common shape of the two thunk loops of `imports`: `size` is the size of
a thunk, `read` reads one, `flag` is the ordinal flag. -/
def imports_thunks_gen (d : DATA) (function_name : List Nat) (size : Nat)
    (read : List Nat → Nat → Res Nat) (flag : Nat) : Nat → Nat → Res Bool
  | 0, _ => .nofuel
  | fuel + 1, thunks =>
      if thunks + size ≤ d.data_size then
        (read d.data thunks).bind fun ordinal =>
        if ordinal ≠ 0 then
          (if ordinal &&& flag = 0 then
              import_by_name_matches d function_name ordinal
            else .ok false).bind fun found =>
          if found then .ok true
          else imports_thunks_gen d function_name size read flag fuel (thunks + size)
        else .ok false
      else .ok false

/-- Whether the image is PE32+. -/
def is64 (d : DATA) : Bool := decide (u16 d.data (d.pe_header + 4) = 0x8664)

/-- Size of a thunk in the layout of the image. -/
def thunkSize (d : DATA) : Nat := if is64 d then 8 else 4

/-- Value of the thunk at `th` in the layout of the image. -/
def thunkVal (d : DATA) (th : Nat) : Nat := if is64 d then u64 d.data th else u32 d.data th

/-- The ordinal flag in the layout of the image (bit 63 or bit 31). -/
def ordinalFlag (d : DATA) : Nat := if is64 d then IMAGE_ORDINAL_FLAG64 else IMAGE_ORDINAL_FLAG32

/-- The thunk array at `th` holds the entries `ts` and then ends (with a zero
thunk or with the end of the buffer).  An entry `none` is an import by ordinal,
an entry `some f` an import by name whose `IMAGE_IMPORT_BY_NAME` lies inside
the buffer at a non-zero offset and holds the NUL-terminated name `f`. -/
def ThunksAt (d : DATA) : Nat → List (Option (List Nat)) → Prop
  | th, [] => th + thunkSize d ≤ d.data.length → thunkVal d th = 0
  | th, t :: ts =>
      th + thunkSize d ≤ d.data.length ∧ thunkVal d th ≠ 0 ∧
      (match t with
        | none => thunkVal d th &&& ordinalFlag d ≠ 0
        | some f =>
            thunkVal d th &&& ordinalFlag d = 0 ∧ rva2off d (thunkVal d th) ≠ 0 ∧
            rva2off d (thunkVal d th) + 4 ≤ d.data.length ∧
            CStrAt d.data (rva2off d (thunkVal d th) + 2) f) ∧
      ThunksAt d (th + thunkSize d) ts

/-- The descriptor array at `imp` holds the descriptors `descs` (DLL name and
thunk entries of each) and then ends (with a descriptor whose `Name` is 0 or
with the end of the buffer). -/
def DescsAt (d : DATA) : Nat → List (List Nat × List (Option (List Nat))) → Prop
  | imp, [] => imp + 20 ≤ d.data.length → u32 d.data (imp + 12) = 0
  | imp, e :: rest =>
      imp + 20 ≤ d.data.length ∧ u32 d.data (imp + 12) ≠ 0 ∧
      rva2off d (u32 d.data (imp + 12)) ≠ 0 ∧
      CStrAt d.data (rva2off d (u32 d.data (imp + 12))) e.1 ∧
      rva2off d (u32 d.data imp) ≠ 0 ∧
      ThunksAt d (rva2off d (u32 d.data imp)) e.2 ∧
      DescsAt d (imp + 20) rest

/-- A well-formed import table with the descriptors `descs`: the import data
directory is inside the buffer, non-zero, and maps to a non-zero offset where
the descriptor array lies. -/
def ImportTable (d : DATA) (descs : List (List Nat × List (Option (List Nat)))) : Prop :=
  dirEntry d.data d.pe_header 1 + 8 ≤ d.data.length ∧
  u32 d.data (dirEntry d.data d.pe_header 1) ≠ 0 ∧
  rva2off d (u32 d.data (dirEntry d.data d.pe_header 1)) ≠ 0 ∧
  DescsAt d (rva2off d (u32 d.data (dirEntry d.data d.pe_header 1))) descs

/-- The read of one thunk in the layout of the image. -/
def thunkRead (d : DATA) : List Nat → Nat → Res Nat := if is64 d then rd64 else rd32

/-- Decision procedure for `ThunksAt`. -/
def ThunksAt.dec (d : DATA) :
    (ts : List (Option (List Nat))) → (th : Nat) → Decidable (ThunksAt d th ts)
  | [], th => by unfold ThunksAt; infer_instance
  | none :: ts, th => by
      have := ThunksAt.dec d ts (th + thunkSize d)
      unfold ThunksAt; infer_instance
  | some f :: ts, th => by
      have := ThunksAt.dec d ts (th + thunkSize d)
      unfold ThunksAt; infer_instance

instance (d : DATA) (th : Nat) (ts : List (Option (List Nat))) : Decidable (ThunksAt d th ts) :=
  ThunksAt.dec d ts th

/-- Decision procedure for `DescsAt`. -/
def DescsAt.dec (d : DATA) :
    (descs : List (List Nat × List (Option (List Nat)))) → (imp : Nat) →
      Decidable (DescsAt d imp descs)
  | [], imp => by unfold DescsAt; infer_instance
  | e :: rest, imp => by
      have := DescsAt.dec d rest (imp + 20)
      unfold DescsAt; infer_instance

instance (d : DATA) (imp : Nat) (descs : List (List Nat × List (Option (List Nat)))) :
    Decidable (DescsAt d imp descs) :=
  DescsAt.dec d descs imp

instance (d : DATA) (descs : List (List Nat × List (Option (List Nat)))) :
    Decidable (ImportTable d descs) := by
  unfold ImportTable; infer_instance

/-- An image (PE32+ when `wide`, PE32 otherwise) with one section (virtual
address `0x1000` at file offset `0x200`) and three import descriptors:
`KERNEL32.dll` importing ordinal 5 and `ExitProcess`, `kernel32.dll` importing
`CreateFileA`, and `user32.dll` importing ordinal 7 only. -/
def importImage (wide : Bool) : List Nat :=
  let thunk : Nat → List Nat := fun v => if wide then le64 v else le32 v
  let flag : Nat := if wide then IMAGE_ORDINAL_FLAG64 else IMAGE_ORDINAL_FLAG32
  let body : List Nat :=
    (le32 0x1080 ++ zeros 8 ++ le32 0x1050 ++ zeros 4) ++
    (le32 0x10A0 ++ zeros 8 ++ le32 0x1060 ++ zeros 4) ++
    (le32 0x10B0 ++ zeros 8 ++ le32 0x1070 ++ zeros 4) ++
    zeros 20 ++
    padTo 16 (ascii "KERNEL32.dll") ++
    padTo 16 (ascii "kernel32.dll") ++
    padTo 16 (ascii "user32.dll") ++
    padTo 32 (thunk (flag + 5) ++ thunk 0x10C0 ++ thunk 0) ++
    padTo 16 (thunk 0x10D0 ++ thunk 0) ++
    padTo 16 (thunk (flag + 7) ++ thunk 0) ++
    padTo 16 (le16 0 ++ ascii "ExitProcess") ++
    padTo 16 (le16 0 ++ ascii "CreateFileA") ++
    zeros 32
  if wide then
    image64 1 0x1000 [(0, 0), (0x1000, 0x50)]
      [sectionHeader (ascii ".idata") 0x100 0x1000 0x100 0x200 0] body
  else
    image32 1 0x1000 [(0, 0), (0x1000, 0x50)]
      [sectionHeader (ascii ".idata") 0x100 0x1000 0x100 0x200 0] body

/-- The descriptors held by `importImage`. -/
def importDescs : List (List Nat × List (Option (List Nat))) :=
  [(ascii "KERNEL32.dll", [none, some (ascii "ExitProcess")]),
   (ascii "kernel32.dll", [some (ascii "CreateFileA")]),
   (ascii "user32.dll", [none])]

/-- The name held by the 8-byte `Name` field of the section header at offset
`sect`: the bytes of the field up to its first NUL, all eight of them when the
field holds none. -/
def sectionNameField (B : List Nat) (sect : Nat) : List Nat :=
  (((B.drop sect).take 8).map (· % 256)).takeWhile (· ≠ 0)

/-- A NUL byte lies inside the buffer at or after offset `off`. -/
def HasNul (B : List Nat) (off : Nat) : Prop := 0 ∈ (B.drop off).map (· % 256)

instance (B : List Nat) (off : Nat) : Decidable (HasNul B off) := by
  unfold HasNul; infer_instance

/-- Each of the first `min(NumberOfSections, 96)` section headers that ends
strictly before `pe_size` has a NUL byte inside the buffer at or after the
start of its name. -/
def SectionNamesTerminated (B : List Nat) (pe pe_size : Nat) : Prop :=
  ∀ i, i < sectionCap B pe → sectionEnd B pe i < pe_size → HasNul B (sectionAddr B pe i)

instance (B : List Nat) (pe pe_size : Nat) : Decidable (SectionNamesTerminated B pe pe_size) := by
  unfold SectionNamesTerminated; infer_instance

/-- The record of the `i`-th section header: the name held by its `Name` field
and its characteristics, raw data size, raw data offset, virtual address and
virtual size. -/
def sectionRecord (B : List Nat) (pe i : Nat) : SectionRec :=
  ⟨sectionNameField B (sectionAddr B pe i), u32 B (sectionAddr B pe i + 36),
    u32 B (sectionAddr B pe i + 16), u32 B (sectionAddr B pe i + 20),
    u32 B (sectionAddr B pe i + 12), u32 B (sectionAddr B pe i + 8)⟩

/-- The object `pe_parse_header` publishes for the block `B` anchored at `pe`
(the empty object if a read fails). -/
def parsed (B : List Nat) (pe base flags : Nat) : PeObject :=
  match pe_parse_header B pe base (B.length - pe) flags with
  | .ok obj => obj
  | _ => PeObject.empty

/-- A PE32 image with two sections that are both named `.text`. -/
def dupImage : List Nat :=
  image32 2 0x1000 []
    [sectionHeader (ascii ".text") 0x100 0x1000 0x100 0x200 0,
     sectionHeader (ascii ".text") 0x100 0x2000 0x100 0x300 0] (zeros 0x200)

/-! ## Resource trees -/

/-- The walk the specification describes over the leaves in order: call the
visitor on each leaf, go on after `Continue`, stop at the first `Abort`.  The
result is `Aborted` or `Finished` and the visitor's data after the last call. -/
def visitLeaves {σ : Type} (callback : Int → Int → Int → σ → Nat × σ) :
    List (Int × Int × Int) → σ → Nat × σ
  | [], s => (RESOURCE_ITERATOR_FINISHED, s)
  | leaf :: rest, s =>
      let r := callback leaf.1 leaf.2.1 leaf.2.2 s
      if r.1 = RESOURCE_CALLBACK_ABORT then (RESOURCE_ITERATOR_ABORTED, r.2)
      else visitLeaves callback rest r.2

/-- A directory header at `dir` announcing `n` entries, inside the buffer. -/
def DirHeaderAt (B : List Nat) (dir n : Nat) : Prop :=
  dir + 16 ≤ B.length ∧ u16 B (dir + 12) + u16 B (dir + 14) = n

instance (B : List Nat) (dir n : Nat) : Decidable (DirHeaderAt B dir n) := by
  unfold DirHeaderAt; infer_instance

/-- The entries from address `e` on are leaves with the `Name` values `langs`. -/
def LangEntriesAt (B : List Nat) : Nat → List Nat → Prop
  | _, [] => True
  | e, l :: ls =>
      e + 8 ≤ B.length ∧ u32 B e = l ∧ u32 B (e + 4) &&& 0x80000000 = 0 ∧
      LangEntriesAt B (e + 8) ls

/-- The entries from address `e` on are subdirectories with the `Name` values
and language directories `ids`; sub-offsets are relative to `base`. -/
def IdEntriesAt (B : List Nat) (base : Nat) : Nat → List (Nat × List Nat) → Prop
  | _, [] => True
  | e, i :: rest =>
      e + 8 ≤ B.length ∧ u32 B e = i.1 ∧ u32 B (e + 4) &&& 0x80000000 ≠ 0 ∧
      DirHeaderAt B (base + (u32 B (e + 4) &&& 0x7FFFFFFF)) i.2.length ∧
      LangEntriesAt B (base + (u32 B (e + 4) &&& 0x7FFFFFFF) + 16) i.2 ∧
      IdEntriesAt B base (e + 8) rest

/-- The entries from address `e` on are subdirectories with the `Name` values
and id directories `types`. -/
def TypeEntriesAt (B : List Nat) (base : Nat) :
    Nat → List (Nat × List (Nat × List Nat)) → Prop
  | _, [] => True
  | e, t :: rest =>
      e + 8 ≤ B.length ∧ u32 B e = t.1 ∧ u32 B (e + 4) &&& 0x80000000 ≠ 0 ∧
      DirHeaderAt B (base + (u32 B (e + 4) &&& 0x7FFFFFFF)) t.2.length ∧
      IdEntriesAt B base (base + (u32 B (e + 4) &&& 0x7FFFFFFF) + 16) t.2 ∧
      TypeEntriesAt B base (e + 8) rest

/-- A well-formed three-level resource tree at `base`: the root directory
lists the types, each type a directory of ids, each id a directory of
languages whose entries are leaves. -/
def ResourceTreeAt (B : List Nat) (base : Nat) (tree : List (Nat × List (Nat × List Nat))) :
    Prop :=
  DirHeaderAt B base tree.length ∧ TypeEntriesAt B base (base + 16) tree

/-- The leaves below an id directory, in table order. -/
def langLeaves (t i : Int) (langs : List Nat) : List (Int × Int × Int) :=
  langs.map fun l => (t, i, toInt32 l)

/-- The leaves below a type directory, in depth-first table order. -/
def idLeaves (t : Int) : List (Nat × List Nat) → List (Int × Int × Int)
  | [] => []
  | i :: rest => langLeaves t (toInt32 i.1) i.2 ++ idLeaves t rest

/-- The leaves of a tree with their `(type, id, language)` tuples, in
depth-first table order. -/
def treeLeaves : List (Nat × List (Nat × List Nat)) → List (Int × Int × Int)
  | [] => []
  | t :: rest => idLeaves (toInt32 t.1) t.2 ++ treeLeaves rest

/-- The resource data directory of the binding is inside the buffer, non-zero,
and maps to a non-zero offset inside the image with its declared size fitting
in the rest of the image; at that offset lies the well-formed tree `tree`. -/
def ResourceDirAt (d : DATA) (tree : List (Nat × List (Nat × List Nat))) : Prop :=
  dirEntry d.data d.pe_header 2 + 8 ≤ d.data.length ∧
  u32 d.data (dirEntry d.data d.pe_header 2) ≠ 0 ∧
  rva2off d (u32 d.data (dirEntry d.data d.pe_header 2)) ≠ 0 ∧
  rva2off d (u32 d.data (dirEntry d.data d.pe_header 2)) < d.pe_size ∧
  u32 d.data (dirEntry d.data d.pe_header 2 + 4) <
    d.pe_size - rva2off d (u32 d.data (dirEntry d.data d.pe_header 2)) ∧
  ResourceTreeAt d.data (rva2off d (u32 d.data (dirEntry d.data d.pe_header 2))) tree

/-- A PE32 image with one section (virtual address `0x1000` at file offset
`0x200`) holding a resource tree with type 16, id 1 and the two languages
`0x409` and `0x40C`. -/
def resourceImage : List Nat :=
  image32 1 0x1000 [(0, 0), (0, 0), (0x1000, 0x80)]
    [sectionHeader (ascii ".rsrc") 0x100 0x1000 0x100 0x200 0]
    ((zeros 14 ++ le16 1 ++ le32 16 ++ le32 0x80000018) ++
     (zeros 14 ++ le16 1 ++ le32 1 ++ le32 0x80000030) ++
     (zeros 14 ++ le16 2 ++ le32 0x409 ++ le32 0x50 ++ le32 0x40C ++ le32 0x60) ++
     zeros 0xB0)

/-- The resource tree held by `resourceImage`. -/
def resourceTree : List (Nat × List (Nat × List Nat)) := [(16, [(1, [0x409, 0x40C])])]

/-- Decision procedure for `LangEntriesAt`. -/
def LangEntriesAt.dec (B : List Nat) : (ls : List Nat) → (e : Nat) → Decidable (LangEntriesAt B e ls)
  | [], e => by unfold LangEntriesAt; infer_instance
  | l :: ls, e => by
      have := LangEntriesAt.dec B ls (e + 8)
      unfold LangEntriesAt; infer_instance

instance (B : List Nat) (e : Nat) (ls : List Nat) : Decidable (LangEntriesAt B e ls) :=
  LangEntriesAt.dec B ls e

/-- Decision procedure for `IdEntriesAt`. -/
def IdEntriesAt.dec (B : List Nat) (base : Nat) :
    (ids : List (Nat × List Nat)) → (e : Nat) → Decidable (IdEntriesAt B base e ids)
  | [], e => by unfold IdEntriesAt; infer_instance
  | i :: ids, e => by
      have := IdEntriesAt.dec B base ids (e + 8)
      unfold IdEntriesAt; infer_instance

instance (B : List Nat) (base e : Nat) (ids : List (Nat × List Nat)) :
    Decidable (IdEntriesAt B base e ids) :=
  IdEntriesAt.dec B base ids e

/-- Decision procedure for `TypeEntriesAt`. -/
def TypeEntriesAt.dec (B : List Nat) (base : Nat) :
    (tree : List (Nat × List (Nat × List Nat))) → (e : Nat) →
      Decidable (TypeEntriesAt B base e tree)
  | [], e => by unfold TypeEntriesAt; infer_instance
  | t :: tree, e => by
      have := TypeEntriesAt.dec B base tree (e + 8)
      unfold TypeEntriesAt; infer_instance

instance (B : List Nat) (base e : Nat) (tree : List (Nat × List (Nat × List Nat))) :
    Decidable (TypeEntriesAt B base e tree) :=
  TypeEntriesAt.dec B base tree e

instance (B : List Nat) (base : Nat) (tree : List (Nat × List (Nat × List Nat))) :
    Decidable (ResourceTreeAt B base tree) := by
  unfold ResourceTreeAt; infer_instance

instance (d : DATA) (tree : List (Nat × List (Nat × List Nat))) :
    Decidable (ResourceDirAt d tree) := by
  unfold ResourceDirAt; infer_instance

/-- The resource data directory of the binding is inside the buffer, non-zero,
and maps to a non-zero offset inside the image at which lies the well-formed
tree `tree`; nothing is asked of the declared size of the directory. -/
def ResourceTreeInRange (d : DATA) (tree : List (Nat × List (Nat × List Nat))) : Prop :=
  dirEntry d.data d.pe_header 2 + 8 ≤ d.data.length ∧
  u32 d.data (dirEntry d.data d.pe_header 2) ≠ 0 ∧
  rva2off d (u32 d.data (dirEntry d.data d.pe_header 2)) ≠ 0 ∧
  rva2off d (u32 d.data (dirEntry d.data d.pe_header 2)) < d.pe_size ∧
  ResourceTreeAt d.data (rva2off d (u32 d.data (dirEntry d.data d.pe_header 2))) tree

instance (d : DATA) (tree : List (Nat × List (Nat × List Nat))) :
    Decidable (ResourceTreeInRange d tree) := by
  unfold ResourceTreeInRange; infer_instance

/-- The image `resourceImage` with the declared size of its resource data
directory raised from `0x80` to `0x100`: the tree is the same and lies inside
the buffer, from offset `0x200` of the `0x300` bytes. -/
def largeResourceImage : List Nat :=
  image32 1 0x1000 [(0, 0), (0, 0), (0x1000, 0x100)]
    [sectionHeader (ascii ".rsrc") 0x100 0x1000 0x100 0x200 0]
    ((zeros 14 ++ le16 1 ++ le32 16 ++ le32 0x80000018) ++
     (zeros 14 ++ le16 1 ++ le32 1 ++ le32 0x80000030) ++
     (zeros 14 ++ le16 2 ++ le32 0x409 ++ le32 0x50 ++ le32 0x40C ++ le32 0x60) ++
     zeros 0xB0)

/-- The field `AddressOfEntryPoint`, read through the PE32+ layout when
`Machine` is `0x8664` and through the PE32 layout otherwise (it is at offset 16
of the optional header in both). -/
def addressOfEntryPoint (B : List Nat) (pe : Nat) : Nat :=
  if u16 B (pe + 4) = 0x8664 then u32 B (pe + 24 + 16) else u32 B (pe + 24 + 16)

/-- A PE32 image that announces one section and ends exactly where the header
of that section ends. -/
def tightImage : List Nat :=
  dosHeader 64 ++ fileHeader 0x014c 1 0xE0 0x0102 ++ optionalHeader32 0 [] ++
    sectionHeader (ascii ".text") 0x100 0x1000 0x100 0x200 0

/-- File offset of the `i`-th export name of a binding whose name-pointer
table is at `names`. -/
def exportNameOff (d : DATA) (names i : Nat) : Nat := rva2off d (u32 d.data (names + 4 * i))

/-- A PE32 image like `exportImage` whose first export name RVA (`0x5000`)
maps past the end of the buffer. -/
def badExportImage : List Nat :=
  image32 1 0x1000 [(0x1000, 0x40)]
    [sectionHeader (ascii ".edata") 0x100 0x1000 0x100 0x200 0]
    (zeros 24 ++ le32 2 ++ zeros 4 ++ le32 0x1028 ++ zeros 4 ++
      le32 0x5000 ++ le32 0x1038 ++ padTo 8 (ascii "Alpha") ++ padTo 8 (ascii "Beta") ++ zeros 16)

/-- The DOS and file headers of an image with an empty optional header that
announces 97 sections. -/
def manySectionsHeader : List Nat := dosHeader 64 ++ fileHeader 0x014c 97 0 0x0102

/-- A PE32 image with an empty optional header that announces 97 sections;
the buffer holds the (zero-filled) headers of the first 96 of them, followed by
eight more bytes. -/
def manySectionsImage : List Nat := manySectionsHeader ++ zeros (96 * 40 + 8)

/-- The DLL-name test `imports` makes on the descriptor at `imp`. -/
def dllNameTest (d : DATA) (dll : List Nat) (imp : Nat) : Res Bool :=
  if rva2off d (u32 d.data (imp + 12)) > 0 ∧ rva2off d (u32 d.data (imp + 12)) ≤ d.data_size then
    strncasecmp dll d.data (rva2off d (u32 d.data (imp + 12)))
      (d.data_size - rva2off d (u32 d.data (imp + 12)))
  else .ok false

/-- Address of the `k`-th import descriptor of the binding. -/
def descAddr (d : DATA) (k : Nat) : Nat :=
  rva2off d (u32 d.data (dirEntry d.data d.pe_header 1)) + 20 * k

/-- The import descriptor array has an entry of index `k`: the descriptors
`0..k` lie inside the buffer and none of them is the terminator. -/
def IsDescriptor (d : DATA) (k : Nat) : Prop :=
  ∀ i, i ≤ k → descAddr d i + 20 ≤ d.data.length ∧ u32 d.data (descAddr d i + 12) ≠ 0

/-- Address of the `j`-th thunk of the `k`-th import descriptor. -/
def thunkAddr (d : DATA) (k j : Nat) : Nat :=
  rva2off d (u32 d.data (descAddr d k)) + thunkSize d * j

/-- The thunk array of descriptor `k` has an entry of index `j`: the thunks
`0..j` lie inside the buffer and none of them is the terminator. -/
def IsThunk (d : DATA) (k j : Nat) : Prop :=
  ∀ i, i ≤ j → thunkAddr d k i + thunkSize d ≤ d.data.length ∧
    thunkVal d (thunkAddr d k i) ≠ 0

/-- Every thunk of every import descriptor whose DLL name matches `dll` has
the ordinal flag set. -/
def OrdinalOnly (d : DATA) (dll : List Nat) : Prop :=
  ∀ k, IsDescriptor d k → dllNameTest d dll (descAddr d k) = .ok true →
    ∀ j, IsThunk d k j → thunkVal d (thunkAddr d k j) &&& ordinalFlag d ≠ 0

/-- The block passes header detection with the anchor `pe` and is not skipped:
it is not the case that the scan is a process-memory scan and the file
header's characteristics have the DLL bit. -/
def Qualifies (flags : Nat) (b : Block) (pe : Nat) : Prop :=
  pe_get_header b.data = .ok (some pe) ∧
  ¬ (flags &&& SCAN_FLAGS_PROCESS_MEMORY ≠ 0 ∧ u16 b.data (pe + 22) &&& IMAGE_FILE_DLL ≠ 0)

instance (flags : Nat) (b : Block) (pe : Nat) : Decidable (Qualifies flags b pe) := by
  unfold Qualifies; infer_instance

/-- A PE32 image with one section (virtual address `0x1000` at file offset
`0x200`) whose resource root directory has a single entry, a subdirectory at
sub-offset 0: the root directory itself. -/
def cyclicResourceImage : List Nat :=
  image32 1 0x1000 [(0, 0), (0, 0), (0x1000, 0x80)]
    [sectionHeader (ascii ".rsrc") 0x100 0x1000 0x100 0x200 0]
    (zeros 14 ++ le16 1 ++ le32 16 ++ le32 0x80000000 ++ zeros 0xE8)

/-- A PE32 image with one section (virtual address `0x1000` at file offset
`0x200`, buffer of `0x300` bytes) whose export data directory has the RVA
`0x10F8`, which maps to file offset `0x2F8`, eight bytes before the end. -/
def truncatedExportImage : List Nat :=
  image32 1 0x1000 [(0x10F8, 0x40)]
    [sectionHeader (ascii ".edata") 0x100 0x1000 0x100 0x200 0] (zeros 0x100)

/-- A PE32 image of 160 bytes without sections whose optional header is
declared 70 bytes long: every field `pe_parse_header` reads is inside the
buffer, the data directories are not. -/
def shortOptImage : List Nat := dosHeader 64 ++ fileHeader 0x014c 0 70 0x0102 ++ zeros 72

/-- A block of 89 bytes that passes `pe_get_header`: the DOS header, the
signature and the file header, declaring an empty optional header and no
section, and one more byte. -/
def shortHeaderBlock : List Nat := dosHeader 64 ++ fileHeader 0x014c 0 0 0x0102 ++ [0]

/-- A PE32 image with one section (virtual address `0x1000` at file offset
`0x200`, buffer of `0x300` bytes) and a single import descriptor whose `Name`
RVA `0x1100` maps to offset `0x300`, the end of the buffer; its only thunk
(at `0x240`) imports the function `F` by name (hint and name at `0x260`). -/
def endNameImportImage : List Nat :=
  image32 1 0x1000 [(0, 0), (0x1000, 0x28)]
    [sectionHeader (ascii ".idata") 0x100 0x1000 0x100 0x200 0]
    ((le32 0x1040 ++ zeros 8 ++ le32 0x1100 ++ zeros 4) ++ zeros 20 ++ zeros 24 ++
      padTo 32 (le32 0x1060 ++ le32 0) ++ padTo 160 (le16 0 ++ ascii "F"))

/-! # Lemmas and theorems -/

/-! ## Basic facts about reads -/

@[simp] theorem Res.ok_bind {α β : Type} (a : α) (f : α → Res β) : (Res.ok a).bind f = f a := rfl

@[simp] theorem Res.oob_bind {α β : Type} (f : α → Res β) : (Res.oob : Res α).bind f = .oob := rfl

@[simp] theorem Res.nofuel_bind {α β : Type} (f : α → Res β) :
    (Res.nofuel : Res α).bind f = .nofuel := rfl

theorem Res.bind_eq_ok {α β : Type} {x : Res α} {f : α → Res β} {b : β} :
    x.bind f = .ok b ↔ ∃ a, x = .ok a ∧ f a = .ok b := by
  cases x <;> simp [Res.bind]

theorem u8_lt (B : List Nat) (off : Nat) : u8 B off < 256 := Nat.mod_lt _ (by decide)

theorem u16_lt (B : List Nat) (off : Nat) : u16 B off < 65536 := by
  have h0 := u8_lt B off
  have h1 := u8_lt B (off + 1)
  unfold u16; omega

theorem u32_lt (B : List Nat) (off : Nat) : u32 B off < 4294967296 := by
  have h0 := u16_lt B off
  have h1 := u16_lt B (off + 2)
  unfold u32; omega

theorem u64_lt (B : List Nat) (off : Nat) : u64 B off < 18446744073709551616 := by
  have h0 := u32_lt B off
  have h1 := u32_lt B (off + 4)
  unfold u64; omega

theorem rd8_eq (B : List Nat) (off : Nat) :
    rd8 B off = if off < B.length then .ok (u8 B off) else .oob := by
  unfold rd8 u8
  by_cases h : off < B.length
  · simp [h, List.getD, List.getElem?_eq_getElem h]
  · simp [h, List.getElem?_eq_none (Nat.le_of_not_lt h)]

theorem rd16_eq (B : List Nat) (off : Nat) :
    rd16 B off = if off + 2 ≤ B.length then .ok (u16 B off) else .oob := by
  unfold rd16 u16
  rw [rd8_eq, rd8_eq]
  by_cases h : off + 2 ≤ B.length
  · have h1 : off < B.length := by omega
    have h2 : off + 1 < B.length := by omega
    simp [h, h1, h2]
  · by_cases h1 : off < B.length
    · have h2 : ¬ off + 1 < B.length := by omega
      simp [h, h1, h2]
    · simp [h, h1]

theorem rd32_eq (B : List Nat) (off : Nat) :
    rd32 B off = if off + 4 ≤ B.length then .ok (u32 B off) else .oob := by
  unfold rd32 u32
  rw [rd16_eq, rd16_eq]
  by_cases h : off + 4 ≤ B.length
  · have h1 : off + 2 ≤ B.length := by omega
    have h2 : off + 2 + 2 ≤ B.length := by omega
    simp [h, h1, h2]
  · by_cases h1 : off + 2 ≤ B.length
    · have h2 : ¬ off + 2 + 2 ≤ B.length := by omega
      simp [h, h1, h2]
    · simp [h, h1]

theorem rd64_eq (B : List Nat) (off : Nat) :
    rd64 B off = if off + 8 ≤ B.length then .ok (u64 B off) else .oob := by
  unfold rd64 u64
  rw [rd32_eq, rd32_eq]
  by_cases h : off + 8 ≤ B.length
  · have h1 : off + 4 ≤ B.length := by omega
    have h2 : off + 4 + 4 ≤ B.length := by omega
    simp [h, h1, h2]
  · by_cases h1 : off + 4 ≤ B.length
    · have h2 : ¬ off + 4 + 4 ≤ B.length := by omega
      simp [h, h1, h2]
    · simp [h, h1]

/-! ## `pe_get_header` -/

theorem pe_get_header_eq (B : List Nat) :
    pe_get_header B = if HeaderAccepted B then .ok (some (e_lfanew B)) else .ok none := by
  unfold pe_get_header HeaderAccepted e_lfanew
  simp only [sizeof_IMAGE_DOS_HEADER, IMAGE_DOS_SIGNATURE, IMAGE_NT_SIGNATURE,
    IMAGE_FILE_MACHINE_I386, IMAGE_FILE_MACHINE_AMD64, sizeof_Signature, sizeof_IMAGE_FILE_HEADER]
  by_cases h64 : B.length < 64
  · have : ¬ 64 ≤ B.length := by omega
    simp [h64, this]
  · have h64' : 64 ≤ B.length := by omega
    rw [if_neg h64, rd16_eq, if_pos (by omega), Res.ok_bind]
    by_cases hmz : u16 B 0 = 0x5A4D
    · rw [if_neg (by simpa using hmz), rd32_eq, if_pos (by omega), Res.ok_bind]
      by_cases hneg : toInt32 (u32 B 60) < 0
      · have : ¬ 0 ≤ toInt32 (u32 B 60) := by omega
        simp [hneg, this]
      · have hnn : 0 ≤ toInt32 (u32 B 60) := by omega
        simp only [hneg, if_false]
        by_cases hfit : B.length < (toInt32 (u32 B 60)).toNat + 4 + 20
        · have : ¬ (toInt32 (u32 B 60)).toNat + 4 + 20 + u16 B ((toInt32 (u32 B 60)).toNat + 20)
              < B.length := by omega
          simp [hfit, this]
        · rw [if_neg hfit, rd16_eq, if_pos (by omega), Res.ok_bind, rd32_eq, if_pos (by omega),
            Res.ok_bind]
          by_cases hsig : u32 B (toInt32 (u32 B 60)).toNat = 0x00004550
          · rw [if_neg (by simpa using hsig), rd16_eq, if_pos (by omega), Res.ok_bind]
            by_cases hm : (u16 B ((toInt32 (u32 B 60)).toNat + 4) = 0x014c ∨
                u16 B ((toInt32 (u32 B 60)).toNat + 4) = 0x8664) ∧
                B.length > (toInt32 (u32 B 60)).toNat + 4 + 20 +
                  u16 B ((toInt32 (u32 B 60)).toNat + 20)
            · rw [if_pos hm, if_pos ⟨h64', hmz, hnn, hsig, hm.1, hm.2⟩]
            · rw [if_neg hm, if_neg]
              rintro ⟨-, -, -, -, h5, h6⟩
              exact hm ⟨h5, h6⟩
          · rw [if_pos (by simpa using hsig), if_neg]
            rintro ⟨-, -, -, h4, -⟩
            exact hsig h4
    · rw [if_pos (by simpa using hmz), if_neg]
      rintro ⟨-, h2, -⟩
      exact hmz h2

/-- C1: `pe_get_header` never reads outside the buffer and always returns; it
returns an anchor exactly when the buffer holds at least the 64 bytes of a DOS
header, the magic is `MZ`, `e_lfanew` is non-negative, the signature at
`e_lfanew` is `PE\0\0`, the machine is I386 or AMD64 and
`e_lfanew + 4 + 20 + SizeOfOptionalHeader < |B|`; the anchor is at `e_lfanew`. -/
theorem C1_pe_get_header_contract (B : List Nat) :
    (∃ r, pe_get_header B = .ok r) ∧
    ((∃ p, pe_get_header B = .ok (some p)) ↔ HeaderAccepted B) ∧
    (∀ p, pe_get_header B = .ok (some p) → p = e_lfanew B) := by
  rw [pe_get_header_eq]
  by_cases h : HeaderAccepted B
  · simp [h]
  · simp [h]

/-! ## `pe_rva_to_offset` -/

theorem rvaInv_step (B : List Nat) (pe r i rv ro : Nat) (h : RvaInv B pe r i rv ro) :
    RvaInv B pe r (i + 1)
      (if r ≥ sectionVA B pe i ∧ rv ≤ sectionVA B pe i then sectionVA B pe i else rv)
      (if r ≥ sectionVA B pe i ∧ rv ≤ sectionVA B pe i then sectionRaw B pe i else ro) := by
  by_cases hc : r ≥ sectionVA B pe i ∧ rv ≤ sectionVA B pe i
  · rw [if_pos hc, if_pos hc]
    right
    refine ⟨i, ⟨by omega, hc.1, ?_⟩, rfl, rfl⟩
    intro j hj hjr
    rcases Nat.lt_succ_iff_lt_or_eq.mp hj with hlt | heq
    · rcases h with ⟨-, -, hnone⟩ | ⟨s, ⟨-, -, hbest⟩, hrv, -⟩
      · exact absurd hjr (hnone j hlt)
      · rcases hbest j hlt hjr with h1 | ⟨h1, -⟩
        · rcases Nat.lt_or_ge (sectionVA B pe j) (sectionVA B pe i) with h2 | h2
          · exact Or.inl h2
          · exact Or.inr ⟨by omega, by omega⟩
        · rcases Nat.lt_or_ge (sectionVA B pe j) (sectionVA B pe i) with h2 | h2
          · exact Or.inl h2
          · exact Or.inr ⟨by omega, by omega⟩
    · subst heq
      exact Or.inr ⟨rfl, le_refl _⟩
  · rw [if_neg hc, if_neg hc]
    rcases h with ⟨h0, h1, hnone⟩ | ⟨s, ⟨hs, hsr, hbest⟩, hrv, hro⟩
    · left
      refine ⟨h0, h1, ?_⟩
      intro j hj hjr
      rcases Nat.lt_succ_iff_lt_or_eq.mp hj with hlt | heq
      · exact hnone j hlt hjr
      · subst heq
        exact hc ⟨hjr, by omega⟩
    · right
      refine ⟨s, ⟨by omega, hsr, ?_⟩, hrv, hro⟩
      intro j hj hjr
      rcases Nat.lt_succ_iff_lt_or_eq.mp hj with hlt | heq
      · exact hbest j hlt hjr
      · subst heq
        left
        by_contra hge
        exact hc ⟨hjr, by omega⟩

theorem pe_rva_to_offset_loop_fits (B : List Nat) (pe pe_size r k : Nat)
    (hin : pe + pe_size ≤ B.length)
    (hfit : ∀ i, i < k → sectionEnd B pe i < pe_size) :
    ∀ n i rv ro, i + n = k → RvaInv B pe r i rv ro →
      ∃ rv2 ro2, RvaInv B pe r k rv2 ro2 ∧
        pe_rva_to_offset_loop B pe pe_size r n (sectionAddr B pe i) rv ro =
          .ok ((ro2 + (r + 18446744073709551616 - rv2) % 18446744073709551616)
            % 18446744073709551616) := by
  intro n
  induction n with
  | zero =>
    intro i rv ro hi hinv
    have : i = k := by omega
    subst this
    exact ⟨rv, ro, hinv, rfl⟩
  | succ n ih =>
    intro i rv ro hi hinv
    have hf := hfit i (by omega)
    unfold sectionEnd at hf
    have haddr : sectionAddr B pe i - pe + sizeof_IMAGE_SECTION_HEADER < pe_size := by
      unfold sectionAddr sizeof_IMAGE_SECTION_HEADER; omega
    have hnext : sectionAddr B pe i + sizeof_IMAGE_SECTION_HEADER = sectionAddr B pe (i + 1) := by
      unfold sectionAddr sizeof_IMAGE_SECTION_HEADER; omega
    have hb : sectionAddr B pe i + 40 < B.length := by
      unfold sectionAddr; omega
    have hstep := rvaInv_step B pe r i rv ro hinv
    unfold pe_rva_to_offset_loop
    rw [if_pos haddr, rd32_eq, if_pos (by omega), Res.ok_bind, hnext]
    by_cases hc : r ≥ sectionVA B pe i ∧ rv ≤ sectionVA B pe i
    · rw [if_pos hc, if_pos hc] at hstep
      have hc2 : r ≥ u32 B (sectionAddr B pe i + 12) ∧ rv ≤ u32 B (sectionAddr B pe i + 12) := hc
      rw [if_pos hc2, rd32_eq, if_pos (by omega), Res.ok_bind]
      exact ih (i + 1) _ _ (by omega) hstep
    · rw [if_neg hc, if_neg hc] at hstep
      have hc2 : ¬ (r ≥ u32 B (sectionAddr B pe i + 12) ∧ rv ≤ u32 B (sectionAddr B pe i + 12)) :=
        hc
      rw [if_neg hc2]
      exact ih (i + 1) _ _ (by omega) hstep

theorem isBestSection_unique (B : List Nat) (pe k r s t : Nat)
    (hs : IsBestSection B pe k r s) (ht : IsBestSection B pe k r t) : s = t := by
  obtain ⟨hs1, hs2, hs3⟩ := hs
  obtain ⟨ht1, ht2, ht3⟩ := ht
  have h1 := hs3 t ht1 ht2
  have h2 := ht3 s hs1 hs2
  omega

theorem pe_rva_to_offset_unfold (B : List Nat) (pe pe_size r : Nat) (hin : pe + 24 ≤ B.length) :
    pe_rva_to_offset B pe pe_size r =
      pe_rva_to_offset_loop B pe pe_size r (sectionCap B pe) (sectionAddr B pe 0) 0 0 := by
  unfold pe_rva_to_offset sectionCap sectionAddr
  rw [rd16_eq, if_pos (by omega), Res.ok_bind, rd16_eq, if_pos (by omega), Res.ok_bind]
  rfl

/-- C2: when each of the first `k = min(NumberOfSections, 96)` section headers
lies strictly inside the image, `pe_rva_to_offset` returns (as a `uint64_t`)
`PointerToRawData(s) + (r - VirtualAddress(s))` for the section `s` that has the
greatest `VirtualAddress` among the first `k` sections with `VirtualAddress ≤ r`
(last in table order on ties), and `r` itself when there is no such section; the
sum does not wrap for any `r < 2^64 - 2^32`.  Only the first `k` sections
enter the result. -/
theorem C2_pe_rva_to_offset_best_section (B : List Nat) (pe pe_size r : Nat)
    (hin : pe + pe_size ≤ B.length) (hhdr : pe + 24 ≤ B.length)
    (hr : r < 18446744073709551616)
    (hfit : ∀ i, i < sectionCap B pe → sectionEnd B pe i < pe_size) :
    (∀ s, IsBestSection B pe (sectionCap B pe) r s →
      pe_rva_to_offset B pe pe_size r =
        .ok ((sectionRaw B pe s + (r - sectionVA B pe s)) % 18446744073709551616) ∧
      (r < 18446744073709551616 - 4294967296 →
        pe_rva_to_offset B pe pe_size r = .ok (sectionRaw B pe s + (r - sectionVA B pe s)))) ∧
    ((∀ j, j < sectionCap B pe → ¬ sectionVA B pe j ≤ r) →
      pe_rva_to_offset B pe pe_size r = .ok r) := by
  obtain ⟨rv, ro, hinv, hres⟩ := pe_rva_to_offset_loop_fits B pe pe_size r (sectionCap B pe) hin hfit
    (sectionCap B pe) 0 0 0 (by omega) (Or.inl ⟨rfl, rfl, fun j hj => absurd hj (by omega)⟩)
  rw [pe_rva_to_offset_unfold B pe pe_size r hhdr, hres]
  constructor
  · intro s hs
    rcases hinv with ⟨-, -, hnone⟩ | ⟨t, ht, hrv, hro⟩
    · exact absurd hs.2.1 (hnone s hs.1)
    · have hst := isBestSection_unique B pe _ r s t hs ht
      subst hst
      subst hrv hro
      have hle := hs.2.1
      have hraw : sectionRaw B pe s < 4294967296 := u32_lt _ _
      have e1 : (r + 18446744073709551616 - sectionVA B pe s) % 18446744073709551616
          = r - sectionVA B pe s := by omega
      rw [e1]
      refine ⟨rfl, fun hsmall => ?_⟩
      rw [Nat.mod_eq_of_lt (by omega)]
  · intro hnone
    rcases hinv with ⟨h0, h1, -⟩ | ⟨t, ht, -, -⟩
    · subst h0 h1
      have : (0 + (r + 18446744073709551616 - 0) % 18446744073709551616) % 18446744073709551616
          = r := by omega
      rw [this]
    · exact absurd ht.2.1 (hnone t ht.1)

set_option maxRecDepth 100000 in
/-- Witness for C2 on the image of scenario 2: RVA `0x1000` maps to file
offset `0x200` through the only section. -/
theorem C2_witness :
    pe_rva_to_offset scenarioImage 64 704 0x1000 =
      .ok ((sectionRaw scenarioImage 64 0 + (0x1000 - sectionVA scenarioImage 64 0))
        % 18446744073709551616) ∧
    sectionRaw scenarioImage 64 0 + (0x1000 - sectionVA scenarioImage 64 0) = 0x200 :=
  ⟨((C2_pe_rva_to_offset_best_section scenarioImage 64 704 0x1000 (by decide) (by decide)
    (by decide) (by decide)).1 0 (by decide)).1, by decide⟩

/-! ## Facts about a binding -/

theorem Bound.accepted {d : DATA} (hb : Bound d) :
    HeaderAccepted d.data ∧ d.pe_header = e_lfanew d.data := by
  have h := hb.1
  rw [pe_get_header_eq] at h
  by_cases ha : HeaderAccepted d.data
  · rw [if_pos ha] at h
    injection h with h
    injection h with h
    exact ⟨ha, h.symm⟩
  · rw [if_neg ha] at h
    injection h with h
    exact absurd h (by simp)

theorem Bound.headers_fit {d : DATA} (hb : Bound d) :
    d.pe_header + 24 + u16 d.data (d.pe_header + 20) < d.data.length := by
  obtain ⟨ha, he⟩ := hb.accepted
  have := ha.2.2.2.2.2
  rw [← he] at this
  omega

theorem Bound.size_eq {d : DATA} (hb : Bound d) : d.pe_header + d.pe_size = d.data.length := by
  have h1 := hb.headers_fit
  have h2 := hb.2.1
  omega

theorem Bound.machine {d : DATA} (hb : Bound d) :
    u16 d.data (d.pe_header + 4) = 0x014c ∨ u16 d.data (d.pe_header + 4) = 0x8664 := by
  obtain ⟨ha, he⟩ := hb.accepted
  have := ha.2.2.2.2.1
  rw [← he] at this
  exact this

theorem pe_rva_to_offset_loop_ok (B : List Nat) (pe pe_size r : Nat)
    (hin : pe + pe_size ≤ B.length) :
    ∀ n sect rv ro, pe ≤ sect → ∃ v, pe_rva_to_offset_loop B pe pe_size r n sect rv ro = .ok v := by
  intro n
  induction n with
  | zero => intro sect rv ro _; exact ⟨_, rfl⟩
  | succ n ih =>
    intro sect rv ro hle
    unfold pe_rva_to_offset_loop
    by_cases hg : sect - pe + sizeof_IMAGE_SECTION_HEADER < pe_size
    · have hb : sect + 40 < B.length := by
        unfold sizeof_IMAGE_SECTION_HEADER at hg; omega
      rw [if_pos hg, rd32_eq, if_pos (by omega), Res.ok_bind]
      by_cases hc : r ≥ u32 B (sect + 12) ∧ rv ≤ u32 B (sect + 12)
      · rw [if_pos hc, rd32_eq, if_pos (by omega), Res.ok_bind]
        exact ih _ _ _ (by omega)
      · rw [if_neg hc]
        exact ih _ _ _ (by omega)
    · rw [if_neg hg]
      exact ⟨0, rfl⟩

theorem pe_rva_to_offset_ok {d : DATA} (hb : Bound d) (rva : Nat) :
    pe_rva_to_offset d.data d.pe_header d.pe_size rva = .ok (rva2off d rva) := by
  have hf := hb.headers_fit
  have hs := hb.size_eq
  obtain ⟨v, hv⟩ := pe_rva_to_offset_loop_ok d.data d.pe_header d.pe_size rva (by omega)
    (sectionCap d.data d.pe_header) (sectionAddr d.data d.pe_header 0) 0 0
    (by unfold sectionAddr; omega)
  have hu := pe_rva_to_offset_unfold d.data d.pe_header d.pe_size rva (by omega)
  unfold rva2off
  rw [hu, hv]

theorem pe_get_directory_entry_ok {d : DATA} (hb : Bound d) (entry : Nat) :
    pe_get_directory_entry d.data d.pe_header entry = .ok (dirEntry d.data d.pe_header entry) := by
  have hf := hb.headers_fit
  unfold pe_get_directory_entry dirEntry
  rw [rd16_eq, if_pos (by omega), Res.ok_bind]
  by_cases h : u16 d.data (d.pe_header + 4) = 0x8664
  · rw [if_pos h, if_pos h]
  · rw [if_neg h, if_neg h]

/-! ## String comparison -/

theorem CStrAt.tail {B : List Nat} {off a : Nat} {s : List Nat} (h : CStrAt B off (a :: s)) :
    CStrAt B (off + 1) s := by
  obtain ⟨h1, h2, h3, h4⟩ := h
  refine ⟨fun c hc => h1 c (List.mem_cons_of_mem _ hc), ?_, ?_, ?_⟩
  · simp only [List.length_cons] at h2; omega
  · intro i hi
    have := h3 (i + 1) (by simp only [List.length_cons]; omega)
    simp only [List.getD_cons_succ] at this
    rw [← this]
    congr 1
    omega
  · simp only [List.length_cons] at h4
    rw [← h4]
    congr 1
    omega

theorem CStrAt.head {B : List Nat} {off a : Nat} {s : List Nat} (h : CStrAt B off (a :: s)) :
    u8 B off = a ∧ 0 < a ∧ off < B.length := by
  obtain ⟨h1, h2, h3, -⟩ := h
  have := h3 0 (by simp)
  simp at this
  exact ⟨this, (h1 a (List.mem_cons_self _ _)).1, by omega⟩

theorem strncmp_cstr (B : List Nat) :
    ∀ (s : List Nat) (off : Nat) (q : List Nat) (n : Nat), CStrAt B off s → IsCStr q →
      s.length < n → strncmp B off q n = .ok (decide (s = q)) := by
  intro s
  induction s with
  | nil =>
    intro off q n hs hq hn
    obtain ⟨-, h2, -, h4⟩ := hs
    simp only [List.length_nil, Nat.add_zero] at h2 h4
    obtain ⟨n, rfl⟩ : ∃ m, n = m + 1 := ⟨n - 1, by simp at hn; omega⟩
    unfold strncmp
    rw [rd8_eq, if_pos h2, Res.ok_bind, h4]
    cases q with
    | nil => simp
    | cons c q =>
      have := (hq c (List.mem_cons_self _ _)).1
      have hne : (0 : Nat) ≠ c := by omega
      simp [hne]
  | cons a s ih =>
    intro off q n hs hq hn
    obtain ⟨ha, hpos, hlt⟩ := hs.head
    obtain ⟨n, rfl⟩ : ∃ m, n = m + 1 := ⟨n - 1, by simp at hn; omega⟩
    unfold strncmp
    rw [rd8_eq, if_pos hlt, Res.ok_bind, ha]
    cases q with
    | nil =>
      have hne : a ≠ 0 := by omega
      simp [hne]
    | cons c q =>
      by_cases hac : a = c
      · subst hac
        have hne : a ≠ 0 := by omega
        have hq2 : IsCStr q := fun x hx => hq x (List.mem_cons_of_mem _ hx)
        have := ih (off + 1) q n hs.tail hq2 (by simp at hn; omega)
        simp [hne, this]
      · simp [hac]

/-! ## `exports` -/

theorem exports_loop_names {d : DATA} (hb : Bound d) (q : List Nat) (hq : IsCStr q) (noff : Nat) :
    ∀ (names : List (List Nat)) (i : Nat), noff + 4 * (i + names.length) ≤ d.data.length →
      ExportNamesAt d (noff + 4 * i) names →
      exports_loop d q noff names.length i = .ok (if q ∈ names then 1 else 0) := by
  intro names
  induction names with
  | nil => intro i _ _; simp [exports_loop]
  | cons nm rest ih =>
    intro i hlen hn
    obtain ⟨h0, hstr, hrest⟩ := hn
    have hds : d.data_size = d.data.length := hb.2.2.2
    simp only [List.length_cons] at hlen
    have hlt := hstr.2.1
    simp only [List.length_cons]
    unfold exports_loop
    simp only [sizeof_DWORD]
    rw [rd32_eq, if_pos (by omega), Res.ok_bind, pe_rva_to_offset_ok hb, Res.ok_bind]
    rw [if_neg (by rw [hds]; omega)]
    rw [strncmp_cstr d.data nm _ q _ hstr hq (by rw [hds]; omega), Res.ok_bind]
    by_cases he : nm = q
    · subst he
      simp
    · have hne : ¬ q = nm := fun h => he h.symm
      have hrest2 : ExportNamesAt d (noff + 4 * (i + 1)) rest := by
        have : noff + 4 * (i + 1) = noff + 4 * i + 4 := by omega
        rw [this]; exact hrest
      rw [ih (i + 1) (by omega) hrest2]
      simp [he, hne]

/-- C3: on a bound image with a well-formed export table holding the names
`names`, `exports(n)` is 1 when `n` is one of the names and 0 when it is not;
the match is exact. -/
theorem C3_exports_exact (obj : PeObject) (d : DATA) (names : List (List Nat)) (n : List Nat)
    (hb : Bound d) (ht : ExportTable d names) (hn : IsCStr n) :
    exports ⟨obj, some d⟩ n = .ok (if n ∈ names then 1 else 0) := by
  obtain ⟨h1, h2, h3, h4, h5, h6, h7, h8⟩ := ht
  have hds : d.data_size = d.data.length := hb.2.2.2
  unfold exports
  simp only [IMAGE_DIRECTORY_ENTRY_EXPORT, sizeof_DWORD]
  rw [pe_get_directory_entry_ok hb, Res.ok_bind, rd32_eq, if_pos (by omega), Res.ok_bind,
    if_neg h2, pe_rva_to_offset_ok hb, Res.ok_bind, if_neg (by rw [hds]; omega)]
  rw [rd32_eq, if_pos (by omega), Res.ok_bind, pe_rva_to_offset_ok hb, Res.ok_bind, if_neg h6,
    rd32_eq, if_pos (by omega), Res.ok_bind, h5, if_neg (by rw [hds]; omega)]
  exact exports_loop_names hb n hn _ names 0 (by omega) (by simpa using h8)

set_option maxRecDepth 100000 in
/-- Witness for C3: the export table of `exportImage` holds `Alpha` and `Beta`;
`Beta` is exported. -/
theorem C3_witness :
    exports ⟨PeObject.empty, some (bindAt exportImage 64)⟩ (ascii "Beta") = .ok 1 :=
  (C3_exports_exact PeObject.empty (bindAt exportImage 64) [ascii "Alpha", ascii "Beta"]
    (ascii "Beta") (by decide)
    ⟨by decide, by decide, by decide, by decide, by decide, by decide, by decide,
      by decide, by decide, by decide, by decide, trivial⟩ (by decide)).trans (by decide)

theorem strncmp_ok (B : List Nat) (q : List Nat) :
    ∀ (n off : Nat), off + n ≤ B.length → ∃ b, strncmp B off q n = .ok b := by
  intro n
  induction n generalizing q with
  | zero => intro off _; exact ⟨true, rfl⟩
  | succ n ih =>
    intro off h
    unfold strncmp
    rw [rd8_eq, if_pos (by omega), Res.ok_bind]
    by_cases h1 : u8 B off ≠ q.headD 0
    · rw [if_pos h1]; exact ⟨_, rfl⟩
    · rw [if_neg h1]
      by_cases h2 : u8 B off = 0
      · rw [if_pos h2]; exact ⟨_, rfl⟩
      · rw [if_neg h2]; exact ih q.tail (off + 1) (by omega)

theorem strncmp_prefix (B : List Nat) :
    ∀ (q g : List Nat) (off : Nat), CStrAt B off g → q <+: g →
      strncmp B off q q.length = .ok true := by
  intro q
  induction q with
  | nil => intro g off _ _; rfl
  | cons c q ih =>
    intro g off hg hp
    cases g with
    | nil => simp at hp
    | cons a g =>
      rw [List.cons_prefix_cons] at hp
      obtain ⟨hca, hp⟩ := hp
      subst hca
      obtain ⟨ha, hpos, hlt⟩ := hg.head
      simp only [List.length_cons]
      unfold strncmp
      rw [rd8_eq, if_pos hlt, Res.ok_bind, ha]
      have hne : c ≠ 0 := by omega
      simp only [List.headD_cons, ne_eq, not_true_eq_false, if_false, hne, List.tail_cons]
      exact ih g (off + 1) hg.tail hp

theorem tolower_eq_zero (c : Nat) : tolower c = 0 ↔ c = 0 := by
  unfold tolower
  split <;> omega

theorem strncasecmp_cstr (B : List Nat) :
    ∀ (s : List Nat) (off : Nat) (q : List Nat) (n : Nat), CStrAt B off s → IsCStr q →
      s.length < n →
      strncasecmp q B off n = .ok (decide (q.map tolower = s.map tolower)) := by
  intro s
  induction s with
  | nil =>
    intro off q n hs hq hn
    obtain ⟨-, h2, -, h4⟩ := hs
    simp only [List.length_nil, Nat.add_zero] at h2 h4
    obtain ⟨n, rfl⟩ : ∃ m, n = m + 1 := ⟨n - 1, by simp at hn; omega⟩
    unfold strncasecmp
    rw [rd8_eq, if_pos h2, Res.ok_bind, h4]
    cases q with
    | nil => simp [tolower]
    | cons c q =>
      have := (hq c (List.mem_cons_self _ _)).1
      have hne : tolower c ≠ tolower 0 := by
        have h0 : tolower 0 = 0 := by simp [tolower]
        rw [h0]
        intro h
        have := (tolower_eq_zero c).mp h
        omega
      simp [hne]
  | cons a s ih =>
    intro off q n hs hq hn
    obtain ⟨ha, hpos, hlt⟩ := hs.head
    obtain ⟨n, rfl⟩ : ∃ m, n = m + 1 := ⟨n - 1, by simp at hn; omega⟩
    unfold strncasecmp
    rw [rd8_eq, if_pos hlt, Res.ok_bind, ha]
    cases q with
    | nil =>
      have hne : tolower 0 ≠ tolower a := by
        have h0 : tolower 0 = 0 := by simp [tolower]
        rw [h0]
        intro h
        have := (tolower_eq_zero a).mp h.symm
        omega
      simp [hne]
    | cons c q =>
      by_cases hac : tolower c = tolower a
      · have hne : a ≠ 0 := by omega
        have hq2 : IsCStr q := fun x hx => hq x (List.mem_cons_of_mem _ hx)
        have := ih (off + 1) q n hs.tail hq2 (by simp at hn; omega)
        simp [hne, this, hac]
      · simp [hac]

theorem strncasecmp_ok (B : List Nat) :
    ∀ (n off : Nat) (q : List Nat), off + n ≤ B.length → ∃ b, strncasecmp q B off n = .ok b := by
  intro n
  induction n with
  | zero => intro off q _; exact ⟨true, rfl⟩
  | succ n ih =>
    intro off q h
    unfold strncasecmp
    rw [rd8_eq, if_pos (by omega), Res.ok_bind]
    by_cases h1 : tolower (q.headD 0) ≠ tolower (u8 B off)
    · rw [if_pos h1]; exact ⟨_, rfl⟩
    · rw [if_neg h1]
      by_cases h2 : u8 B off = 0
      · rw [if_pos h2]; exact ⟨_, rfl⟩
      · rw [if_neg h2]; exact ih (off + 1) q.tail (by omega)

/-! ## `imports` -/

theorem imports_thunks32_eq_gen (d : DATA) (f : List Nat) :
    ∀ fuel th, imports_thunks32 d f fuel th =
      imports_thunks_gen d f sizeof_IMAGE_THUNK_DATA32 rd32 IMAGE_ORDINAL_FLAG32 fuel th := by
  intro fuel
  induction fuel with
  | zero => intro th; rfl
  | succ n ih =>
    intro th
    unfold imports_thunks32 imports_thunks_gen
    simp only [ih]

theorem imports_thunks64_eq_gen (d : DATA) (f : List Nat) :
    ∀ fuel th, imports_thunks64 d f fuel th =
      imports_thunks_gen d f sizeof_IMAGE_THUNK_DATA64 rd64 IMAGE_ORDINAL_FLAG64 fuel th := by
  intro fuel
  induction fuel with
  | zero => intro th; rfl
  | succ n ih =>
    intro th
    unfold imports_thunks64 imports_thunks_gen
    simp only [ih]

theorem thunks_by_machine (d : DATA) (f : List Nat) (fuel th : Nat) :
    (if u16 d.data (d.pe_header + 4) = 0x8664 then imports_thunks64 d f fuel th
      else imports_thunks32 d f fuel th) =
      imports_thunks_gen d f (thunkSize d) (thunkRead d) (ordinalFlag d) fuel th := by
  unfold thunkSize thunkRead ordinalFlag is64
  by_cases h : u16 d.data (d.pe_header + 4) = 0x8664
  · simp only [h, if_true, decide_True]
    exact imports_thunks64_eq_gen d f fuel th
  · simp only [h, if_false, decide_False]
    exact imports_thunks32_eq_gen d f fuel th

theorem thunkRead_eq (d : DATA) (th : Nat) :
    thunkRead d d.data th =
      if th + thunkSize d ≤ d.data.length then .ok (thunkVal d th) else .oob := by
  unfold thunkRead thunkSize thunkVal
  by_cases h : is64 d = true
  · simp only [h, if_true]; exact rd64_eq _ _
  · simp only [h, if_false]; exact rd32_eq _ _

theorem thunkSize_pos (d : DATA) : 0 < thunkSize d := by
  unfold thunkSize; split <;> omega

theorem import_by_name_matches_ok {d : DATA} (hb : Bound d) (f : List Nat) (rva : Nat) :
    ∃ b, import_by_name_matches d f rva = .ok b := by
  have hds : d.data_size = d.data.length := hb.2.2.2
  unfold import_by_name_matches
  rw [pe_rva_to_offset_ok hb, Res.ok_bind]
  split
  · split
    · rename_i h
      rw [hds] at h
      exact strncmp_ok d.data f f.length _ (by omega)
    · exact ⟨_, rfl⟩
  · exact ⟨_, rfl⟩

theorem import_by_name_matches_found {d : DATA} (hb : Bound d)
    (hsz : d.data.length < 18446744073709551616) (q g : List Nat) (rva : Nat)
    (h0 : rva2off d rva ≠ 0) (h4 : rva2off d rva + 4 ≤ d.data.length)
    (hg : CStrAt d.data (rva2off d rva + 2) g) (hp : q <+: g) :
    import_by_name_matches d q rva = .ok true := by
  have hds : d.data_size = d.data.length := hb.2.2.2
  have hlen := hp.length_le
  have hlt := hg.2.1
  unfold import_by_name_matches
  simp only [sizeof_IMAGE_IMPORT_BY_NAME]
  rw [pe_rva_to_offset_ok hb, Res.ok_bind, hds]
  rw [if_pos ⟨h0, by omega⟩, if_pos (by omega)]
  exact strncmp_prefix d.data q g _ hg hp

theorem imports_thunks_gen_ok {d : DATA} (hb : Bound d) (f : List Nat) :
    ∀ fuel th, d.data.length < th + thunkSize d * fuel → fuel ≠ 0 →
      ∃ b, imports_thunks_gen d f (thunkSize d) (thunkRead d) (ordinalFlag d) fuel th = .ok b := by
  have hds : d.data_size = d.data.length := hb.2.2.2
  have hpos := thunkSize_pos d
  intro fuel
  induction fuel with
  | zero => intro th _ h; exact absurd rfl h
  | succ n ih =>
    intro th hfuel _
    unfold imports_thunks_gen
    rw [hds]
    by_cases hg : th + thunkSize d ≤ d.data.length
    · rw [if_pos hg, thunkRead_eq, if_pos hg, Res.ok_bind]
      by_cases hz : thunkVal d th ≠ 0
      · rw [if_pos hz]
        have hn : n ≠ 0 := by
          intro h0
          subst h0
          omega
        have hrec := ih (th + thunkSize d) (by rw [Nat.mul_succ] at hfuel; omega) hn
        by_cases hflag : thunkVal d th &&& ordinalFlag d = 0
        · rw [if_pos hflag]
          obtain ⟨b, hbm⟩ := import_by_name_matches_ok hb f (thunkVal d th)
          rw [hbm, Res.ok_bind]
          cases b
          · simpa using hrec
          · exact ⟨true, by simp⟩
        · rw [if_neg hflag, Res.ok_bind]
          simpa using hrec
      · rw [if_neg hz]; exact ⟨_, rfl⟩
    · rw [if_neg hg]; exact ⟨_, rfl⟩

theorem imports_thunks_gen_found {d : DATA} (hb : Bound d)
    (hsz : d.data.length < 18446744073709551616) (q g : List Nat) (hp : q <+: g) :
    ∀ (ts : List (Option (List Nat))) (fuel th : Nat), ThunksAt d th ts → some g ∈ ts →
      d.data.length < th + thunkSize d * fuel →
      imports_thunks_gen d q (thunkSize d) (thunkRead d) (ordinalFlag d) fuel th = .ok true := by
  have hds : d.data_size = d.data.length := hb.2.2.2
  intro ts
  induction ts with
  | nil => intro fuel th _ hm; simp at hm
  | cons t ts ih =>
    intro fuel th hT hm hfuel
    obtain ⟨hin, hnz, hentry, hrest⟩ := hT
    cases fuel with
    | zero => omega
    | succ n =>
      unfold imports_thunks_gen
      rw [hds, if_pos hin, thunkRead_eq, if_pos hin, Res.ok_bind, if_pos hnz]
      have hfuel2 : d.data.length < th + thunkSize d + thunkSize d * n := by
        rw [Nat.mul_succ] at hfuel; omega
      rcases List.mem_cons.mp hm with hhead | htail
      · subst hhead
        obtain ⟨hflag, h0, h4, hstr⟩ := hentry
        rw [if_pos hflag, import_by_name_matches_found hb hsz q g _ h0 h4 hstr hp, Res.ok_bind]
        simp
      · have hrec := ih n (th + thunkSize d) hrest htail hfuel2
        by_cases hflag : thunkVal d th &&& ordinalFlag d = 0
        · rw [if_pos hflag]
          obtain ⟨b, hbm⟩ := import_by_name_matches_ok hb q (thunkVal d th)
          rw [hbm, Res.ok_bind]
          cases b
          · simpa using hrec
          · simp
        · rw [if_neg hflag, Res.ok_bind]
          simpa using hrec

theorem imports_descriptor_ok {d : DATA} (hb : Bound d) (dll f : List Nat) (imp name : Nat)
    (hin : imp + 20 ≤ d.data.length) :
    ∃ b, imports_descriptor d dll f imp name = .ok b := by
  have hds : d.data_size = d.data.length := hb.2.2.2
  have hf := hb.headers_fit
  unfold imports_descriptor
  rw [pe_rva_to_offset_ok hb, Res.ok_bind, hds]
  have hcmp : ∃ b, (if rva2off d name > 0 ∧ rva2off d name ≤ d.data.length then
      strncasecmp dll d.data (rva2off d name) (d.data.length - rva2off d name)
      else .ok false) = .ok b := by
    split
    · rename_i h
      exact strncasecmp_ok d.data _ _ dll (by omega)
    · exact ⟨_, rfl⟩
  obtain ⟨b, hbm⟩ := hcmp
  rw [hbm, Res.ok_bind]
  cases b
  · exact ⟨false, by simp⟩
  · simp only [if_true]
    rw [rd32_eq, if_pos (by omega), Res.ok_bind, pe_rva_to_offset_ok hb, Res.ok_bind]
    split
    · rw [rd16_eq, if_pos (by omega), Res.ok_bind, thunks_by_machine]
      have hpos := thunkSize_pos d
      exact imports_thunks_gen_ok hb f _ _
        (by
          have : d.data.length + 1 ≤ thunkSize d * (d.data.length + 1) :=
            Nat.le_mul_of_pos_left _ hpos
          omega) (by omega)
    · exact ⟨_, rfl⟩

theorem imports_descriptor_wf {d : DATA} (hb : Bound d) (dll f : List Nat) (hdll : IsCStr dll)
    (imp : Nat) (e : List Nat × List (Option (List Nat)))
    (hin : imp + 20 ≤ d.data.length)
    (h0 : rva2off d (u32 d.data (imp + 12)) ≠ 0)
    (hstr : CStrAt d.data (rva2off d (u32 d.data (imp + 12))) e.1)
    (ht0 : rva2off d (u32 d.data imp) ≠ 0) :
    imports_descriptor d dll f imp (u32 d.data (imp + 12)) =
      if dll.map tolower = e.1.map tolower then
        imports_thunks_gen d f (thunkSize d) (thunkRead d) (ordinalFlag d) (d.data.length + 1)
          (rva2off d (u32 d.data imp))
      else .ok false := by
  have hds : d.data_size = d.data.length := hb.2.2.2
  have hf := hb.headers_fit
  have hlt := hstr.2.1
  unfold imports_descriptor
  rw [pe_rva_to_offset_ok hb, Res.ok_bind, hds, if_pos ⟨by omega, by omega⟩,
    strncasecmp_cstr d.data e.1 _ dll _ hstr hdll (by omega), Res.ok_bind]
  by_cases hm : dll.map tolower = e.1.map tolower
  · rw [if_pos hm]
    simp only [hm, decide_True, if_true]
    rw [rd32_eq, if_pos (by omega), Res.ok_bind, pe_rva_to_offset_ok hb, Res.ok_bind,
      if_pos (by omega), rd16_eq, if_pos (by omega), Res.ok_bind, thunks_by_machine]
  · rw [if_neg hm]
    simp [hm]

theorem imports_loop_found {d : DATA} (hb : Bound d)
    (hsz : d.data.length < 18446744073709551616) (dll q g : List Nat) (hdll : IsCStr dll)
    (hp : q <+: g) :
    ∀ (descs : List (List Nat × List (Option (List Nat)))) (fuel imp : Nat),
      DescsAt d imp descs →
      (∃ e, e ∈ descs ∧ dll.map tolower = e.1.map tolower ∧ some g ∈ e.2) →
      d.data.length < imp + 20 * fuel →
      imports_loop d dll q fuel imp = .ok 1 := by
  have hds : d.data_size = d.data.length := hb.2.2.2
  intro descs
  induction descs with
  | nil => intro fuel imp _ ⟨e, he, _⟩; simp at he
  | cons e0 rest ih =>
    intro fuel imp hD hex hfuel
    obtain ⟨hin, hnz, h0, hstr, ht0, hth, hrest⟩ := hD
    cases fuel with
    | zero => omega
    | succ n =>
      unfold imports_loop
      simp only [sizeof_IMAGE_IMPORT_DESCRIPTOR]
      rw [hds, if_pos hin, rd32_eq, if_pos (by omega), Res.ok_bind, if_pos hnz,
        imports_descriptor_wf hb dll q hdll imp e0 hin h0 hstr ht0]
      have hgen_fuel : d.data.length <
          rva2off d (u32 d.data imp) + thunkSize d * (d.data.length + 1) := by
        have : d.data.length + 1 ≤ thunkSize d * (d.data.length + 1) :=
          Nat.le_mul_of_pos_left _ (thunkSize_pos d)
        omega
      obtain ⟨e, he, hm, hg⟩ := hex
      rcases List.mem_cons.mp he with hhead | htail
      · subst hhead
        rw [if_pos hm, imports_thunks_gen_found hb hsz q g hp e.2 _ _ hth hg hgen_fuel,
          Res.ok_bind]
        simp
      · have hrec := ih n (imp + 20) hrest ⟨e, htail, hm, hg⟩ (by omega)
        by_cases hm0 : dll.map tolower = e0.1.map tolower
        · rw [if_pos hm0]
          obtain ⟨b, hbm⟩ := imports_thunks_gen_ok hb q _ _ hgen_fuel (by omega)
          rw [hbm, Res.ok_bind]
          cases b
          · simpa using hrec
          · simp
        · rw [if_neg hm0, Res.ok_bind]
          simpa using hrec

theorem imports_loop_no_dll {d : DATA} (hb : Bound d) (dll f : List Nat) (hdll : IsCStr dll) :
    ∀ (descs : List (List Nat × List (Option (List Nat)))) (fuel imp : Nat),
      DescsAt d imp descs →
      (∀ e, e ∈ descs → dll.map tolower ≠ e.1.map tolower) →
      d.data.length < imp + 20 * fuel → fuel ≠ 0 →
      imports_loop d dll f fuel imp = .ok 0 := by
  have hds : d.data_size = d.data.length := hb.2.2.2
  intro descs
  induction descs with
  | nil =>
    intro fuel imp hD _ _ hne
    obtain ⟨n, rfl⟩ : ∃ m, fuel = m + 1 := ⟨fuel - 1, by omega⟩
    unfold imports_loop
    simp only [sizeof_IMAGE_IMPORT_DESCRIPTOR]
    rw [hds]
    by_cases hin : imp + 20 ≤ d.data.length
    · rw [if_pos hin, rd32_eq, if_pos (by omega), Res.ok_bind, hD hin]
      simp
    · rw [if_neg hin]
  | cons e0 rest ih =>
    intro fuel imp hD hall hfuel hne
    obtain ⟨hin, hnz, h0, hstr, ht0, hth, hrest⟩ := hD
    obtain ⟨n, rfl⟩ : ∃ m, fuel = m + 1 := ⟨fuel - 1, by omega⟩
    unfold imports_loop
    simp only [sizeof_IMAGE_IMPORT_DESCRIPTOR]
    rw [hds, if_pos hin, rd32_eq, if_pos (by omega), Res.ok_bind, if_pos hnz,
      imports_descriptor_wf hb dll f hdll imp e0 hin h0 hstr ht0,
      if_neg (hall e0 (List.mem_cons_self _ _)), Res.ok_bind]
    have hn : n ≠ 0 := by
      intro h; subst h; omega
    have := ih n (imp + 20) hrest (fun e he => hall e (List.mem_cons_of_mem _ he)) (by omega) hn
    simpa using this

/-- C4: on a bound image (PE32 or PE32+) with a well-formed import table,
`imports(d, f)` is 1 when some descriptor's DLL name equals `d` ignoring ASCII
case and one of its by-name thunks names `f`; and it is 0 for every function
name when no descriptor's DLL name equals `d` ignoring ASCII case. -/
theorem C4_imports_by_name (obj : PeObject) (d : DATA)
    (descs : List (List Nat × List (Option (List Nat)))) (dll f : List Nat)
    (hb : Bound d) (hsz : d.data.length < 18446744073709551616) (ht : ImportTable d descs)
    (hdll : IsCStr dll) :
    ((∃ e, e ∈ descs ∧ dll.map tolower = e.1.map tolower ∧ some f ∈ e.2) →
      imports ⟨obj, some d⟩ dll f = .ok 1) ∧
    ((∀ e, e ∈ descs → dll.map tolower ≠ e.1.map tolower) →
      ∀ f2, imports ⟨obj, some d⟩ dll f2 = .ok 0) := by
  obtain ⟨h1, h2, h3, h4⟩ := ht
  have hds : d.data_size = d.data.length := hb.2.2.2
  have hunf : ∀ f2, imports ⟨obj, some d⟩ dll f2 =
      if rva2off d (u32 d.data (dirEntry d.data d.pe_header 1)) + 20 > d.data.length then .ok 0
      else imports_loop d dll f2 (d.data.length + 1)
        (rva2off d (u32 d.data (dirEntry d.data d.pe_header 1))) := by
    intro f2
    unfold imports
    simp only [IMAGE_DIRECTORY_ENTRY_IMPORT, sizeof_IMAGE_IMPORT_DESCRIPTOR]
    rw [pe_get_directory_entry_ok hb, Res.ok_bind, rd32_eq, if_pos (by omega), Res.ok_bind,
      if_neg h2, pe_rva_to_offset_ok hb, Res.ok_bind, hds]
    by_cases hgt : rva2off d (u32 d.data (dirEntry d.data d.pe_header 1)) + 20 > d.data.length
    · rw [if_pos (Or.inr hgt), if_pos hgt]
    · rw [if_neg (by rintro (h | h); exact h3 h; exact hgt h), if_neg hgt]
  constructor
  · intro hex
    rw [hunf f]
    have hne : descs ≠ [] := by
      obtain ⟨e, he, _⟩ := hex
      exact List.ne_nil_of_mem he
    cases descs with
    | nil => exact absurd rfl hne
    | cons e0 rest =>
      have hin := h4.1
      rw [if_neg (by omega)]
      exact imports_loop_found hb hsz dll f f hdll (List.prefix_refl f) _ _ _ h4 hex (by omega)
  · intro hall f2
    rw [hunf f2]
    split
    · rfl
    · exact imports_loop_no_dll hb dll f2 hdll descs _ _ h4 hall (by omega) (by omega)

set_option maxRecDepth 100000 in
/-- Witness for C4 on the PE32 import image: `CreateFileA` is found under
`KERNEL32.DLL` whatever the case of the DLL name, and nothing under
`advapi32.dll`. -/
theorem C4_witness :
    imports ⟨PeObject.empty, some (bindAt (importImage false) 64)⟩ (ascii "KERNEL32.DLL")
      (ascii "CreateFileA") = .ok 1 ∧
    imports ⟨PeObject.empty, some (bindAt (importImage false) 64)⟩ (ascii "advapi32.dll")
      (ascii "CreateFileA") = .ok 0 :=
  ⟨(C4_imports_by_name PeObject.empty (bindAt (importImage false) 64) importDescs
      (ascii "KERNEL32.DLL") (ascii "CreateFileA") (by decide) (by decide) (by decide)
      (by decide)).1 ⟨(ascii "kernel32.dll", [some (ascii "CreateFileA")]), by decide, by decide,
        by decide⟩,
   (C4_imports_by_name PeObject.empty (bindAt (importImage false) 64) importDescs
      (ascii "advapi32.dll") (ascii "CreateFileA") (by decide) (by decide) (by decide)
      (by decide)).2 (by decide) (ascii "CreateFileA")⟩

theorem rd8_ok_val {B : List Nat} {off v : Nat} (h : rd8 B off = .ok v) :
    v = u8 B off ∧ off + 1 ≤ B.length := by
  rw [rd8_eq] at h
  split at h
  · injection h with h; exact ⟨h.symm, by omega⟩
  · exact absurd h (by simp)

theorem rd16_ok_val {B : List Nat} {off v : Nat} (h : rd16 B off = .ok v) :
    v = u16 B off ∧ off + 2 ≤ B.length := by
  rw [rd16_eq] at h
  split at h
  · injection h with h; exact ⟨h.symm, by omega⟩
  · exact absurd h (by simp)

theorem rd32_ok_val {B : List Nat} {off v : Nat} (h : rd32 B off = .ok v) :
    v = u32 B off ∧ off + 4 ≤ B.length := by
  rw [rd32_eq] at h
  split at h
  · injection h with h; exact ⟨h.symm, by omega⟩
  · exact absurd h (by simp)

theorem rd64_ok_val {B : List Nat} {off v : Nat} (h : rd64 B off = .ok v) :
    v = u64 B off ∧ off + 8 ≤ B.length := by
  rw [rd64_eq] at h
  split at h
  · injection h with h; exact ⟨h.symm, by omega⟩
  · exact absurd h (by simp)

theorem strlcpy_scan_ok :
    ∀ l : List Nat, 0 ∈ l.map (· % 256) → strlcpy_scan l = .ok () := by
  intro l
  induction l with
  | nil => intro h; simp at h
  | cons b rest ih =>
    intro h
    unfold strlcpy_scan
    by_cases hb : b % 256 = 0
    · rw [if_pos hb]
    · rw [if_neg hb]
      apply ih
      simp only [List.map_cons, List.mem_cons] at h
      rcases h with h | h
      · exact absurd h.symm hb
      · exact h

theorem strlcpy_ok :
    ∀ (n : Nat) (l : List Nat), 0 ∈ l.map (· % 256) → ∃ nm, strlcpy n l = .ok nm := by
  intro n
  induction n with
  | zero =>
    intro l h
    unfold strlcpy
    rw [strlcpy_scan_ok l h]
    exact ⟨_, rfl⟩
  | succ n ih =>
    intro l h
    cases l with
    | nil => simp at h
    | cons b rest =>
      unfold strlcpy
      by_cases hb : b % 256 = 0
      · rw [if_pos hb]; exact ⟨_, rfl⟩
      · rw [if_neg hb]
        simp only [List.map_cons, List.mem_cons] at h
        have hrest : 0 ∈ rest.map (· % 256) := by
          rcases h with h | h
          · exact absurd h.symm hb
          · exact h
        obtain ⟨t, ht⟩ := ih rest hrest
        rw [ht]
        exact ⟨_, rfl⟩

theorem strlcpy_val :
    ∀ (n : Nat) (l nm : List Nat), strlcpy n l = .ok nm →
      nm = ((l.take n).map (· % 256)).takeWhile (· ≠ 0) := by
  intro n
  induction n with
  | zero =>
    intro l nm h
    unfold strlcpy at h
    simp only [Res.bind_eq_ok] at h
    obtain ⟨_, -, h⟩ := h
    injection h with h
    subst h
    simp
  | succ n ih =>
    intro l nm h
    cases l with
    | nil =>
      unfold strlcpy at h
      exact absurd h (by simp)
    | cons b rest =>
      unfold strlcpy at h
      by_cases hb : b % 256 = 0
      · rw [if_pos hb] at h
        injection h with h
        subst h
        simp [List.takeWhile, hb]
      · rw [if_neg hb] at h
        simp only [Res.bind_eq_ok] at h
        obtain ⟨t, ht, h⟩ := h
        injection h with h
        subst h
        rw [ih rest t ht]
        simp [List.takeWhile, hb]

theorem section_name_val {B : List Nat} {sect : Nat} {nm : List Nat}
    (h : section_name B sect = .ok nm) : nm = sectionNameField B sect := by
  unfold section_name IMAGE_SIZEOF_SHORT_NAME at h
  unfold sectionNameField
  exact strlcpy_val 8 _ nm h

theorem section_name_ok {B : List Nat} {sect : Nat} (h : HasNul B sect) :
    ∃ nm, section_name B sect = .ok nm := by
  unfold section_name
  exact strlcpy_ok _ _ h

theorem pe_parse_sections_inv (B : List Nat) (pe pe_size : Nat) :
    ∀ (n i : Nat) (secs : List SectionRec),
      pe_parse_sections B pe pe_size n (sectionAddr B pe i) = .ok secs →
      secs.length ≤ n ∧
      (∀ j, j < secs.length → sectionEnd B pe (i + j) < pe_size ∧
        secs[j]? = some (sectionRecord B pe (i + j))) ∧
      (secs.length < n → sectionEnd B pe (i + secs.length) ≥ pe_size) := by
  intro n
  induction n with
  | zero =>
    intro i secs h
    unfold pe_parse_sections at h
    injection h with h
    subst h
    simp
  | succ n ih =>
    intro i secs h
    unfold pe_parse_sections at h
    have haddr : sectionAddr B pe i - pe + sizeof_IMAGE_SECTION_HEADER = sectionEnd B pe i := by
      unfold sectionAddr sectionEnd sizeof_IMAGE_SECTION_HEADER; omega
    have hnext : sectionAddr B pe i + sizeof_IMAGE_SECTION_HEADER = sectionAddr B pe (i + 1) := by
      unfold sectionAddr sizeof_IMAGE_SECTION_HEADER; omega
    rw [haddr, hnext] at h
    by_cases hg : sectionEnd B pe i ≥ pe_size
    · rw [if_pos hg] at h
      injection h with h
      subst h
      simp
      exact hg
    · rw [if_neg hg] at h
      simp only [Res.bind_eq_ok] at h
      obtain ⟨nm, hnm, c, hc, rs, hrs, rp, hrp, va, hva, vs, hvs, rest, hrest, hsecs⟩ := h
      injection hsecs with hsecs
      subst hsecs
      obtain ⟨ih1, ih2, ih3⟩ := ih (i + 1) rest hrest
      refine ⟨by simp; omega, ?_, ?_⟩
      · intro j hj
        cases j with
        | zero =>
          refine ⟨by simpa using hg, ?_⟩
          simp only [List.getElem?_cons_zero, Nat.add_zero, sectionRecord]
          rw [section_name_val hnm, (rd32_ok_val hc).1, (rd32_ok_val hrs).1,
            (rd32_ok_val hrp).1, (rd32_ok_val hva).1, (rd32_ok_val hvs).1]
        | succ j =>
          have := ih2 j (by simpa using hj)
          simp only [List.getElem?_cons_succ]
          have e : i + (j + 1) = i + 1 + j := by omega
          rw [e]
          exact this
      · intro hlt
        have := ih3 (by simpa using hlt)
        simp only [List.length_cons]
        have e : i + (rest.length + 1) = i + 1 + rest.length := by omega
        rw [e]
        exact this

theorem OptionalHeader_ok_val {B : List Nat} {pe off v : Nat}
    (h : OptionalHeader B pe rd32 off rd32 off = .ok v) :
    v = u32 B (pe + 24 + off) ∧ pe + 24 + off + 4 ≤ B.length := by
  unfold OptionalHeader at h
  simp only [Res.bind_eq_ok] at h
  obtain ⟨m, -, h⟩ := h
  split at h <;> exact rd32_ok_val h

theorem pe_parse_header_inv {B : List Nat} {pe base pe_size flags : Nat} {obj : PeObject}
    (h : pe_parse_header B pe base pe_size flags = .ok obj) :
    obj.machine = (u16 B (pe + 4) : Int) ∧
    obj.number_of_sections = (u16 B (pe + 6) : Int) ∧
    pe + 24 ≤ B.length ∧
    pe_parse_sections B pe pe_size (sectionCap B pe) (sectionAddr B pe 0) = .ok obj.sections ∧
    pe + 24 + 16 + 4 ≤ B.length ∧
    ((flags &&& SCAN_FLAGS_PROCESS_MEMORY ≠ 0 ∧
        obj.entry_point = toInt64 ((base + u32 B (pe + 24 + 16)) % 18446744073709551616)) ∨
      (flags &&& SCAN_FLAGS_PROCESS_MEMORY = 0 ∧
        ∃ off, pe_rva_to_offset B pe pe_size (u32 B (pe + 24 + 16)) = .ok off ∧
          obj.entry_point = toInt64 off)) ∧
    ∃ ep, entry_point_value B pe base pe_size flags = .ok ep ∧ obj.entry_point = toInt64 ep := by
  unfold pe_parse_header at h
  simp only [Res.bind_eq_ok] at h
  obtain ⟨machine, hm, nos, hn, ts, hts, ch, hch, ep, hep, ib, hib, v1, h1, v2, h2, v3, h3, v4, h4,
    v5, h5, v6, h6, v7, h7, v8, h8, v9, h9, soh, hsoh, secs, hsecs, hobj⟩ := h
  injection hobj with hobj
  subst hobj
  obtain ⟨hmv, -⟩ := rd16_ok_val hm
  obtain ⟨hnv, -⟩ := rd16_ok_val hn
  obtain ⟨hsv, hsb⟩ := rd16_ok_val hsoh
  obtain ⟨-, hcb⟩ := rd16_ok_val hch
  subst hmv hnv hsv
  have hsec : pe_parse_sections B pe pe_size (sectionCap B pe) (sectionAddr B pe 0) = .ok secs := by
    unfold sectionCap sectionAddr
    exact hsecs
  have hep0 := hep
  unfold entry_point_value at hep
  refine ⟨rfl, rfl, by omega, hsec, ?_, ?_, ⟨ep, hep0, rfl⟩⟩
  · split at hep
    · simp only [Res.bind_eq_ok] at hep
      obtain ⟨aep, haep, -⟩ := hep
      exact (OptionalHeader_ok_val haep).2
    · simp only [Res.bind_eq_ok] at hep
      obtain ⟨aep, haep, -⟩ := hep
      exact (OptionalHeader_ok_val haep).2
  · by_cases hf : flags &&& SCAN_FLAGS_PROCESS_MEMORY ≠ 0
    · rw [if_pos hf] at hep
      simp only [Res.bind_eq_ok] at hep
      obtain ⟨aep, haep, he⟩ := hep
      injection he with he
      subst he
      rw [(OptionalHeader_ok_val haep).1]
      exact Or.inl ⟨hf, rfl⟩
    · rw [if_neg hf] at hep
      simp only [Res.bind_eq_ok] at hep
      obtain ⟨aep, haep, he⟩ := hep
      rw [(OptionalHeader_ok_val haep).1] at he
      exact Or.inr ⟨by simpa using hf, ep, he, rfl⟩

theorem UNDEFINED_neg : UNDEFINED < 0 := by decide

theorem section_index_loop_first (obj : PeObject) (n : List Nat) :
    ∀ (cnt i i0 : Nat), i ≤ i0 → i0 < i + cnt → get_section_name obj i0 = some n →
      ∃ j, i ≤ j ∧ j ≤ i0 ∧ section_index_loop obj n cnt i = .ok (j : Int) ∧
        get_section_name obj j = some n ∧
        ∀ k, i ≤ k → k < j → get_section_name obj k ≠ some n := by
  intro cnt
  induction cnt with
  | zero => intro i i0 h1 h2 _; omega
  | succ cnt ih =>
    intro i i0 h1 h2 h0
    have hlen : i0 < obj.sections.length := by
      unfold get_section_name at h0
      by_contra hge
      rw [List.getElem?_eq_none (by omega)] at h0
      simp at h0
    have hi : i < obj.sections.length := by omega
    have hsome : get_section_name obj i = some (obj.sections[i]).name := by
      unfold get_section_name
      rw [List.getElem?_eq_getElem hi]
      rfl
    unfold section_index_loop
    rw [hsome]
    by_cases hn : n = (obj.sections[i]).name
    · refine ⟨i, le_refl _, h1, by simp [hn], by rw [hsome, hn], fun k hk1 hk2 => by omega⟩
    · have hne : i ≠ i0 := by
        intro h
        subst h
        rw [hsome] at h0
        injection h0 with h0
        exact hn h0.symm
      obtain ⟨j, hj1, hj2, hj3, hj4, hj5⟩ := ih (i + 1) i0 (by omega) (by omega) h0
      refine ⟨j, by omega, hj2, by simp [hn, hj3], hj4, ?_⟩
      intro k hk1 hk2
      by_cases hki : k = i
      · subst hki
        rw [hsome]
        intro h
        injection h with h
        exact hn h.symm
      · exact hj5 k (by omega) hk2

/-- C5 (as amended): on the object published by `pe_parse_header`, for every
published section `i` with name `n`, `section_index(n)` returns the smallest
index whose published name is `n`; this is `i` itself exactly when no earlier
section has the same name. -/
theorem C5_section_index_first_match (B : List Nat) (pe base pe_size flags : Nat)
    (obj : PeObject) (data : Option DATA) (i : Nat) (n : List Nat)
    (hparse : pe_parse_header B pe base pe_size flags = .ok obj)
    (hi : get_section_name obj i = some n) :
    ∃ j, j ≤ i ∧ section_index ⟨obj, data⟩ n = .ok (j : Int) ∧
      get_section_name obj j = some n ∧
      (∀ k, k < j → get_section_name obj k ≠ some n) ∧
      (j = i ↔ ∀ k, k < i → get_section_name obj k ≠ some n) := by
  obtain ⟨-, hnos, -, hsecs, -, -⟩ := pe_parse_header_inv hparse
  obtain ⟨hlen, -, -⟩ := pe_parse_sections_inv B pe pe_size _ 0 _ hsecs
  have hlt : i < obj.sections.length := by
    unfold get_section_name at hi
    by_contra hge
    rw [List.getElem?_eq_none (by omega)] at hi
    simp at hi
  have hcap : sectionCap B pe ≤ u16 B (pe + 6) := by
    unfold sectionCap; exact Nat.min_le_left _ _
  obtain ⟨j, -, hj2, hj3, hj4, hj5⟩ :=
    section_index_loop_first obj n (u16 B (pe + 6)) 0 i (Nat.zero_le _) (by omega) hi
  refine ⟨j, hj2, ?_, hj4, fun k hk => hj5 k (Nat.zero_le _) hk, ?_⟩
  · unfold section_index
    simp only [hnos]
    have hu := UNDEFINED_neg
    rw [if_neg (by omega)]
    simpa using hj3
  · constructor
    · intro h k hk
      subst h
      exact hj5 k (Nat.zero_le _) hk
    · intro h
      by_contra hne
      exact h j (by omega) hj4

set_option maxRecDepth 100000 in
/-- Witness for C5: in the image with two sections named `.text`, the name of
section 1 is found at an index not after 1. -/
theorem C5_witness :
    ∃ j : Nat, j ≤ 1 ∧ section_index ⟨parsed dupImage 64 0 0, none⟩ (ascii ".text") = .ok (j : Int) ∧
      get_section_name (parsed dupImage 64 0 0) j = some (ascii ".text") ∧
      (∀ k, k < j → get_section_name (parsed dupImage 64 0 0) k ≠ some (ascii ".text")) ∧
      (j = 1 ↔ ∀ k, k < 1 → get_section_name (parsed dupImage 64 0 0) k ≠ some (ascii ".text")) :=
  C5_section_index_first_match dupImage 64 0 (dupImage.length - 64) 0 (parsed dupImage 64 0 0) none
    1 (ascii ".text") (by decide) (by decide)

set_option maxRecDepth 100000 in
/-- Counterexample to C5 as stated: after loading the image whose two sections
are both named `.text`, section 1 has the published name `.text`, yet
`section_index(".text")` is 0, not 1. -/
theorem C5_counterexample :
    (module_load true 0 [⟨0, dupImage⟩]).bind
      (fun r => .ok (r.1, get_section_name r.2.obj 1, section_index r.2 (ascii ".text"))) =
      .ok (ERROR_SUCCESS, some (ascii ".text"), .ok 0) ∧
    (.ok 0 : Res Int) ≠ .ok 1 := by
  constructor
  · decide
  · decide

/-! ## The resource walk -/

theorem visitLeaves_append {σ : Type} (cb : Int → Int → Int → σ → Nat × σ) :
    ∀ (l1 l2 : List (Int × Int × Int)) (s : σ),
      visitLeaves cb (l1 ++ l2) s =
        if (visitLeaves cb l1 s).1 = RESOURCE_ITERATOR_ABORTED then visitLeaves cb l1 s
        else visitLeaves cb l2 (visitLeaves cb l1 s).2 := by
  intro l1
  induction l1 with
  | nil => intro l2 s; simp [visitLeaves, RESOURCE_ITERATOR_FINISHED, RESOURCE_ITERATOR_ABORTED]
  | cons a l1 ih =>
    intro l2 s
    simp only [List.cons_append, visitLeaves]
    by_cases h : (cb a.1 a.2.1 a.2.2 s).1 = RESOURCE_CALLBACK_ABORT
    · simp [h]
    · simp only [h, if_false]
      exact ih l2 _

theorem lang_loop {σ : Type} (B : List Nat) (cb : Int → Int → Int → σ → Nat × σ)
    (recurse : Nat → Nat → Walk σ → Res (Nat × Walk σ)) (base : Nat) :
    ∀ (ls : List Nat) (e : Nat) (w : Walk σ), LangEntriesAt B e ls →
      ∃ w2, pe_iterate_entries B cb recurse base 2 ls.length e w =
          .ok ((visitLeaves cb (langLeaves w.type w.id ls) w.cb_data).1, w2) ∧
        w2.cb_data = (visitLeaves cb (langLeaves w.type w.id ls) w.cb_data).2 ∧
        w2.type = w.type ∧ w2.id = w.id := by
  intro ls
  induction ls with
  | nil =>
    intro e w _
    exact ⟨w, rfl, rfl, rfl, rfl⟩
  | cons l ls ih =>
    intro e w h
    obtain ⟨hin, hname, hleaf, hrest⟩ := h
    simp only [List.length_cons, langLeaves, List.map_cons, visitLeaves]
    unfold pe_iterate_entries
    simp only [show (2 : Nat) ≠ 0 by decide, show (2 : Nat) ≠ 1 by decide, if_false, if_true]
    rw [rd32_eq, if_pos (by omega), Res.ok_bind, Res.ok_bind, rd32_eq, if_pos (by omega),
      Res.ok_bind, hname]
    rw [if_neg (by simpa using hleaf)]
    simp only
    by_cases hab : (cb w.type w.id (toInt32 l) w.cb_data).1 = RESOURCE_CALLBACK_ABORT
    · rw [if_pos hab, if_pos hab]
      exact ⟨_, rfl, rfl, rfl, rfl⟩
    · rw [if_neg hab, if_neg hab]
      obtain ⟨w2, h1, h2, h3, h4⟩ := ih (e + 8)
        { type := w.type, id := w.id, language := toInt32 l,
          cb_data := (cb w.type w.id (toInt32 l) w.cb_data).2 } hrest
      exact ⟨w2, h1, h2, h3, h4⟩

theorem lang_dir {σ : Type} (B : List Nat) (cb : Int → Int → Int → σ → Nat × σ)
    (base fuel dir : Nat) (ls : List Nat) (w : Walk σ)
    (hh : DirHeaderAt B dir ls.length) (he : LangEntriesAt B (dir + 16) ls) :
    ∃ w2, pe_iterate_resources_rec B cb base (fuel + 1) dir 2 w =
        .ok ((visitLeaves cb (langLeaves w.type w.id ls) w.cb_data).1, w2) ∧
      w2.cb_data = (visitLeaves cb (langLeaves w.type w.id ls) w.cb_data).2 ∧
      w2.type = w.type ∧ w2.id = w.id := by
  obtain ⟨hin, hn⟩ := hh
  unfold pe_iterate_resources_rec
  rw [rd16_eq, if_pos (by omega), Res.ok_bind, rd16_eq, if_pos (by omega), Res.ok_bind, hn]
  exact lang_loop B cb _ base ls (dir + 16) w he

theorem id_loop {σ : Type} (B : List Nat) (cb : Int → Int → Int → σ → Nat × σ)
    (base fuel : Nat) :
    ∀ (ids : List (Nat × List Nat)) (e : Nat) (w : Walk σ), IdEntriesAt B base e ids →
      ∃ w2, pe_iterate_entries B cb (pe_iterate_resources_rec B cb base (fuel + 1)) base 1
          ids.length e w =
          .ok ((visitLeaves cb (idLeaves w.type ids) w.cb_data).1, w2) ∧
        w2.cb_data = (visitLeaves cb (idLeaves w.type ids) w.cb_data).2 ∧
        w2.type = w.type := by
  intro ids
  induction ids with
  | nil =>
    intro e w _
    exact ⟨w, rfl, rfl, rfl⟩
  | cons i ids ih =>
    intro e w h
    obtain ⟨hin, hname, hsub, hhdr, hlangs, hrest⟩ := h
    simp only [List.length_cons, idLeaves]
    rw [visitLeaves_append]
    unfold pe_iterate_entries
    simp only [show (1 : Nat) ≠ 0 by decide, if_false, if_true]
    rw [rd32_eq, if_pos (by omega), Res.ok_bind, Res.ok_bind, rd32_eq, if_pos (by omega),
      Res.ok_bind, hname, if_pos hsub]
    obtain ⟨w1, h1, h2, h3, h4⟩ := lang_dir B cb base fuel _ i.2
      { type := w.type, id := toInt32 i.1, language := w.language, cb_data := w.cb_data }
      hhdr hlangs
    simp only at h1 h2 h3 h4
    rw [h1, Res.ok_bind]
    simp only
    by_cases hab : (visitLeaves cb (langLeaves w.type (toInt32 i.1) i.2) w.cb_data).1
        = RESOURCE_ITERATOR_ABORTED
    · rw [if_pos hab, if_pos hab]
      exact ⟨w1, by rw [hab], h2, h3⟩
    · rw [if_neg hab, if_neg hab]
      obtain ⟨w2, g1, g2, g3⟩ := ih (e + 8) w1 hrest
      rw [h2, h3] at g1 g2
      exact ⟨w2, g1, g2, by rw [g3, h3]⟩

theorem id_dir {σ : Type} (B : List Nat) (cb : Int → Int → Int → σ → Nat × σ)
    (base fuel dir : Nat) (ids : List (Nat × List Nat)) (w : Walk σ)
    (hh : DirHeaderAt B dir ids.length) (he : IdEntriesAt B base (dir + 16) ids) :
    ∃ w2, pe_iterate_resources_rec B cb base (fuel + 2) dir 1 w =
        .ok ((visitLeaves cb (idLeaves w.type ids) w.cb_data).1, w2) ∧
      w2.cb_data = (visitLeaves cb (idLeaves w.type ids) w.cb_data).2 ∧
      w2.type = w.type := by
  obtain ⟨hin, hn⟩ := hh
  unfold pe_iterate_resources_rec
  rw [rd16_eq, if_pos (by omega), Res.ok_bind, rd16_eq, if_pos (by omega), Res.ok_bind, hn]
  exact id_loop B cb base fuel ids (dir + 16) w he

theorem type_loop {σ : Type} (B : List Nat) (cb : Int → Int → Int → σ → Nat × σ)
    (base fuel : Nat) :
    ∀ (tree : List (Nat × List (Nat × List Nat))) (e : Nat) (w : Walk σ),
      TypeEntriesAt B base e tree →
      ∃ w2, pe_iterate_entries B cb (pe_iterate_resources_rec B cb base (fuel + 2)) base 0
          tree.length e w =
          .ok ((visitLeaves cb (treeLeaves tree) w.cb_data).1, w2) ∧
        w2.cb_data = (visitLeaves cb (treeLeaves tree) w.cb_data).2 := by
  intro tree
  induction tree with
  | nil =>
    intro e w _
    exact ⟨w, rfl, rfl⟩
  | cons t tree ih =>
    intro e w h
    obtain ⟨hin, hname, hsub, hhdr, hids, hrest⟩ := h
    simp only [List.length_cons, treeLeaves]
    rw [visitLeaves_append]
    unfold pe_iterate_entries
    simp only [if_true]
    rw [rd32_eq, if_pos (by omega), Res.ok_bind, Res.ok_bind, rd32_eq, if_pos (by omega),
      Res.ok_bind, hname, if_pos hsub]
    obtain ⟨w1, h1, h2, h3⟩ := id_dir B cb base fuel _ t.2
      { type := toInt32 t.1, id := w.id, language := w.language, cb_data := w.cb_data }
      hhdr hids
    simp only at h1 h2 h3
    rw [h1, Res.ok_bind]
    simp only
    by_cases hab : (visitLeaves cb (idLeaves (toInt32 t.1) t.2) w.cb_data).1
        = RESOURCE_ITERATOR_ABORTED
    · rw [if_pos hab, if_pos hab]
      exact ⟨w1, by rw [hab], h2⟩
    · rw [if_neg hab, if_neg hab]
      obtain ⟨w2, g1, g2⟩ := ih (e + 8) w1 hrest
      rw [h2] at g1 g2
      exact ⟨w2, g1, g2⟩

theorem tree_walk {σ : Type} (B : List Nat) (cb : Int → Int → Int → σ → Nat × σ)
    (base fuel : Nat) (tree : List (Nat × List (Nat × List Nat))) (w : Walk σ)
    (hfuel : 3 ≤ fuel) (ht : ResourceTreeAt B base tree) :
    ∃ w2, pe_iterate_resources_rec B cb base fuel base 0 w =
        .ok ((visitLeaves cb (treeLeaves tree) w.cb_data).1, w2) ∧
      w2.cb_data = (visitLeaves cb (treeLeaves tree) w.cb_data).2 := by
  obtain ⟨⟨hin, hn⟩, he⟩ := ht
  obtain ⟨f, rfl⟩ : ∃ f, fuel = f + 3 := ⟨fuel - 3, by omega⟩
  unfold pe_iterate_resources_rec
  rw [rd16_eq, if_pos (by omega), Res.ok_bind, rd16_eq, if_pos (by omega), Res.ok_bind, hn]
  exact type_loop B cb base f tree (base + 16) w he


theorem toInt32_range (v : Nat) : -2147483648 ≤ toInt32 v ∧ toInt32 v < 2147483648 := by
  unfold toInt32
  have := Nat.mod_lt v (show 4294967296 > 0 by decide)
  split <;> omega

theorem mem_langLeaves {t i : Int} {ls : List Nat} {leaf : Int × Int × Int}
    (h : leaf ∈ langLeaves t i ls) : ∃ l, leaf.2.2 = toInt32 l := by
  unfold langLeaves at h
  obtain ⟨l, -, hl⟩ := List.mem_map.mp h
  exact ⟨l, by rw [← hl]⟩

theorem mem_idLeaves {t : Int} : ∀ {ids : List (Nat × List Nat)} {leaf : Int × Int × Int},
    leaf ∈ idLeaves t ids → ∃ l, leaf.2.2 = toInt32 l := by
  intro ids
  induction ids with
  | nil => intro leaf h; simp [idLeaves] at h
  | cons i ids ih =>
    intro leaf h
    simp only [idLeaves, List.mem_append] at h
    rcases h with h | h
    · exact mem_langLeaves h
    · exact ih h

theorem mem_treeLeaves : ∀ {tree : List (Nat × List (Nat × List Nat))} {leaf : Int × Int × Int},
    leaf ∈ treeLeaves tree → ∃ l, leaf.2.2 = toInt32 l := by
  intro tree
  induction tree with
  | nil => intro leaf h; simp [treeLeaves] at h
  | cons t tree ih =>
    intro leaf h
    simp only [treeLeaves, List.mem_append] at h
    rcases h with h | h
    · exact mem_idLeaves h
    · exact ih h

theorem find_language_visit (ln : Nat) :
    ∀ (leaves : List (Int × Int × Int)) (f0 : Nat),
      ((∃ leaf, leaf ∈ leaves ∧ leaf.2.2 % 18446744073709551616 = (ln : Int)) →
        (visitLeaves pe_find_language_cb leaves ⟨ln, f0⟩).2.found = 1) ∧
      ((¬ ∃ leaf, leaf ∈ leaves ∧ leaf.2.2 % 18446744073709551616 = (ln : Int)) →
        (visitLeaves pe_find_language_cb leaves ⟨ln, f0⟩).2.found = f0) := by
  intro leaves
  induction leaves with
  | nil =>
    intro f0
    constructor
    · rintro ⟨leaf, h, -⟩; simp at h
    · intro _; rfl
  | cons a leaves ih =>
    intro f0
    by_cases ha : a.2.2 % 18446744073709551616 = (ln : Int)
    · have hv : visitLeaves pe_find_language_cb (a :: leaves) ⟨ln, f0⟩ =
          (RESOURCE_ITERATOR_ABORTED, ⟨ln, 1⟩) := by
        simp [visitLeaves, pe_find_language_cb, ha]
      rw [hv]
      constructor
      · intro _; rfl
      · intro hn; exact absurd ⟨a, List.mem_cons_self _ _, ha⟩ hn
    · have hv : visitLeaves pe_find_language_cb (a :: leaves) ⟨ln, f0⟩ =
          visitLeaves pe_find_language_cb leaves ⟨ln, f0⟩ := by
        simp [visitLeaves, pe_find_language_cb, ha, RESOURCE_CALLBACK_CONTINUE,
          RESOURCE_CALLBACK_ABORT]
      rw [hv]
      obtain ⟨ih1, ih2⟩ := ih f0
      constructor
      · rintro ⟨leaf, hmem, hl⟩
        rcases List.mem_cons.mp hmem with h | h
        · subst h; exact absurd hl ha
        · exact ih1 ⟨leaf, h, hl⟩
      · intro hn
        exact ih2 (fun ⟨leaf, hmem, hl⟩ => hn ⟨leaf, List.mem_cons_of_mem _ hmem, hl⟩)

theorem language_walk (fuel : Nat) (obj : PeObject) (d : DATA)
    (tree : List (Nat × List (Nat × List Nat))) (lang : Int)
    (hb : Bound d) (hfuel : 3 ≤ fuel) (hr : ResourceDirAt d tree) :
    language fuel ⟨obj, some d⟩ lang =
      .ok (((visitLeaves pe_find_language_cb (treeLeaves tree)
        ⟨(lang % 18446744073709551616).toNat, 0⟩).2.found : Nat) : Int) := by
  obtain ⟨h1, h2, h3, h4, h5, h6⟩ := hr
  have hpo : d.pe_header - d.pe_offset +
      rva2off d (u32 d.data (dirEntry d.data d.pe_header 2)) =
      rva2off d (u32 d.data (dirEntry d.data d.pe_header 2)) := by
    have := hb.2.2.1
    omega
  unfold language pe_iterate_resources
  simp only [IMAGE_DIRECTORY_ENTRY_RESOURCE]
  rw [pe_get_directory_entry_ok hb, Res.ok_bind, rd32_eq, if_pos (by omega), Res.ok_bind,
    if_pos h2, pe_rva_to_offset_ok hb, Res.ok_bind, if_pos ⟨h3, h4⟩, rd32_eq,
    if_pos (by omega), Res.ok_bind, if_pos h5, hpo]
  obtain ⟨w2, hw, hcb⟩ := tree_walk d.data pe_find_language_cb _ fuel tree
    ⟨-1, -1, -1, ⟨(lang % 18446744073709551616).toNat, 0⟩⟩ hfuel h6
  rw [hw, Res.ok_bind, Res.ok_bind, hcb]
  simp

/-- C19: on a well-formed three-level resource tree and for every visitor
(with any data of its own), `_pe_iterate_resources` behaves as the walk over the
leaves in depth-first table order: the visitor is called on each leaf with the
`(type, id, language)` of the entries on its path, the walk goes on to the next
leaf after `Continue`, stops at the first `Abort`, and returns `Aborted` exactly
in that case and `Finished` otherwise. -/
theorem C19_walk_visits_leaves_in_order {σ : Type} (B : List Nat)
    (callback : Int → Int → Int → σ → Nat × σ) (base fuel : Nat)
    (tree : List (Nat × List (Nat × List Nat))) (w : Walk σ)
    (hfuel : 3 ≤ fuel) (ht : ResourceTreeAt B base tree) :
    ∃ w2, pe_iterate_resources_rec B callback base fuel base 0 w =
        .ok ((visitLeaves callback (treeLeaves tree) w.cb_data).1, w2) ∧
      w2.cb_data = (visitLeaves callback (treeLeaves tree) w.cb_data).2 :=
  tree_walk B callback base fuel tree w hfuel ht

set_option maxRecDepth 100000 in
/-- Witness for C19: the walk over the tree of `resourceImage` with the
language visitor looking for `0x40C`. -/
theorem C19_witness :
    ∃ w2, pe_iterate_resources_rec resourceImage pe_find_language_cb 0x200 3 0x200 0
        ⟨-1, -1, -1, ⟨0x40C, 0⟩⟩ =
        .ok ((visitLeaves pe_find_language_cb (treeLeaves resourceTree) ⟨0x40C, 0⟩).1, w2) ∧
      w2.cb_data = (visitLeaves pe_find_language_cb (treeLeaves resourceTree) ⟨0x40C, 0⟩).2 :=
  C19_walk_visits_leaves_in_order resourceImage pe_find_language_cb 0x200 3 resourceTree
    ⟨-1, -1, -1, ⟨0x40C, 0⟩⟩ (by decide) (by decide)

/-! ## `pe_parse_header` -/

theorem pe_parse_sections_ok (B : List Nat) (pe pe_size : Nat) (hin : pe + pe_size ≤ B.length) :
    ∀ n i, (∀ j, i ≤ j → j < i + n → sectionEnd B pe j < pe_size →
        HasNul B (sectionAddr B pe j)) →
      ∃ secs, pe_parse_sections B pe pe_size n (sectionAddr B pe i) = .ok secs := by
  intro n
  induction n with
  | zero => intro i _; exact ⟨_, rfl⟩
  | succ n ih =>
    intro i hnul
    unfold pe_parse_sections
    have haddr : sectionAddr B pe i - pe + sizeof_IMAGE_SECTION_HEADER = sectionEnd B pe i := by
      unfold sectionAddr sectionEnd sizeof_IMAGE_SECTION_HEADER; omega
    have hnext : sectionAddr B pe i + sizeof_IMAGE_SECTION_HEADER = sectionAddr B pe (i + 1) := by
      unfold sectionAddr sizeof_IMAGE_SECTION_HEADER; omega
    rw [haddr, hnext]
    by_cases hg : sectionEnd B pe i ≥ pe_size
    · rw [if_pos hg]; exact ⟨_, rfl⟩
    · rw [if_neg hg]
      have hb : sectionAddr B pe i + 40 < B.length := by
        unfold sectionAddr; unfold sectionEnd at hg; omega
      obtain ⟨nm, hnm⟩ := section_name_ok (hnul i (Nat.le_refl _) (by omega) (by omega))
      rw [hnm, Res.ok_bind]
      rw [rd32_eq, if_pos (by omega), Res.ok_bind, rd32_eq, if_pos (by omega), Res.ok_bind,
        rd32_eq, if_pos (by omega), Res.ok_bind, rd32_eq, if_pos (by omega), Res.ok_bind,
        rd32_eq, if_pos (by omega), Res.ok_bind]
      obtain ⟨rest, hrest⟩ := ih (i + 1) (fun j h1 h2 h3 => hnul j (by omega) (by omega) h3)
      rw [hrest, Res.ok_bind]
      exact ⟨_, rfl⟩

theorem OptionalHeader_ok (B : List Nat) (pe o32 o64 : Nat)
    (r32 r64 : List Nat → Nat → Res Nat) (h6 : pe + 6 ≤ B.length)
    (h32 : ∃ v, r32 B (pe + 24 + o32) = .ok v) (h64 : ∃ v, r64 B (pe + 24 + o64) = .ok v) :
    ∃ v, OptionalHeader B pe r32 o32 r64 o64 = .ok v := by
  unfold OptionalHeader
  rw [rd16_eq, if_pos (by omega), Res.ok_bind]
  split
  · exact h64
  · exact h32

theorem rd8_ok {B : List Nat} {off : Nat} (h : off + 1 ≤ B.length) : ∃ v, rd8 B off = .ok v := by
  rw [rd8_eq, if_pos (by omega)]; exact ⟨_, rfl⟩

theorem rd16_ok {B : List Nat} {off : Nat} (h : off + 2 ≤ B.length) : ∃ v, rd16 B off = .ok v := by
  rw [rd16_eq, if_pos h]; exact ⟨_, rfl⟩

theorem rd32_ok {B : List Nat} {off : Nat} (h : off + 4 ≤ B.length) : ∃ v, rd32 B off = .ok v := by
  rw [rd32_eq, if_pos h]; exact ⟨_, rfl⟩

theorem rd64_ok {B : List Nat} {off : Nat} (h : off + 8 ≤ B.length) : ∃ v, rd64 B off = .ok v := by
  rw [rd64_eq, if_pos h]; exact ⟨_, rfl⟩

theorem entry_point_value_eq (B : List Nat) (pe base pe_size flags : Nat)
    (h : pe + 24 + 16 + 4 ≤ B.length) :
    entry_point_value B pe base pe_size flags =
      if flags &&& SCAN_FLAGS_PROCESS_MEMORY ≠ 0 then
        .ok ((base + u32 B (pe + 24 + 16)) % 18446744073709551616)
      else pe_rva_to_offset B pe pe_size (u32 B (pe + 24 + 16)) := by
  have hoh : OptionalHeader B pe rd32 16 rd32 16 = .ok (u32 B (pe + 24 + 16)) := by
    unfold OptionalHeader
    rw [rd16_eq, if_pos (by omega), Res.ok_bind, ite_self, rd32_eq, if_pos h]
  unfold entry_point_value
  rw [hoh]
  rfl

theorem entry_point_value_ok (B : List Nat) (pe base pe_size flags : Nat)
    (h : pe + 24 + 16 + 4 ≤ B.length) (hin : pe + pe_size ≤ B.length) :
    ∃ ep, entry_point_value B pe base pe_size flags = .ok ep := by
  rw [entry_point_value_eq B pe base pe_size flags h]
  split
  · exact ⟨_, rfl⟩
  · rw [pe_rva_to_offset_unfold B pe pe_size _ (by omega)]
    exact pe_rva_to_offset_loop_ok B pe pe_size _ hin _ _ _ _ (by unfold sectionAddr; omega)

theorem pe_parse_header_ok (B : List Nat) (pe base pe_size flags : Nat)
    (hfix : pe + 24 + 70 ≤ B.length) (hin : pe + pe_size ≤ B.length)
    (hnames : SectionNamesTerminated B pe pe_size) :
    ∃ obj, pe_parse_header B pe base pe_size flags = .ok obj := by
  unfold pe_parse_header
  rw [rd16_eq, if_pos (by omega), Res.ok_bind, rd16_eq, if_pos (by omega), Res.ok_bind,
    rd32_eq, if_pos (by omega), Res.ok_bind, rd16_eq, if_pos (by omega), Res.ok_bind]
  obtain ⟨ep, hepv⟩ := entry_point_value_ok B pe base pe_size flags (by omega) hin
  rw [hepv, Res.ok_bind]
  obtain ⟨v, hv⟩ := OptionalHeader_ok B pe 28 24 rd32 rd64 (by omega)
    (rd32_ok (by omega)) (rd64_ok (by omega))
  rw [hv, Res.ok_bind]
  obtain ⟨v, hv⟩ := OptionalHeader_ok B pe 2 2 rd8 rd8 (by omega)
    (rd8_ok (by omega)) (rd8_ok (by omega))
  rw [hv, Res.ok_bind]
  obtain ⟨v, hv⟩ := OptionalHeader_ok B pe 3 3 rd8 rd8 (by omega)
    (rd8_ok (by omega)) (rd8_ok (by omega))
  rw [hv, Res.ok_bind]
  obtain ⟨v, hv⟩ := OptionalHeader_ok B pe 40 40 rd16 rd16 (by omega)
    (rd16_ok (by omega)) (rd16_ok (by omega))
  rw [hv, Res.ok_bind]
  obtain ⟨v, hv⟩ := OptionalHeader_ok B pe 42 42 rd16 rd16 (by omega)
    (rd16_ok (by omega)) (rd16_ok (by omega))
  rw [hv, Res.ok_bind]
  obtain ⟨v, hv⟩ := OptionalHeader_ok B pe 44 44 rd16 rd16 (by omega)
    (rd16_ok (by omega)) (rd16_ok (by omega))
  rw [hv, Res.ok_bind]
  obtain ⟨v, hv⟩ := OptionalHeader_ok B pe 46 46 rd16 rd16 (by omega)
    (rd16_ok (by omega)) (rd16_ok (by omega))
  rw [hv, Res.ok_bind]
  obtain ⟨v, hv⟩ := OptionalHeader_ok B pe 48 48 rd16 rd16 (by omega)
    (rd16_ok (by omega)) (rd16_ok (by omega))
  rw [hv, Res.ok_bind]
  obtain ⟨v, hv⟩ := OptionalHeader_ok B pe 50 50 rd16 rd16 (by omega)
    (rd16_ok (by omega)) (rd16_ok (by omega))
  rw [hv, Res.ok_bind]
  obtain ⟨v, hv⟩ := OptionalHeader_ok B pe 68 68 rd16 rd16 (by omega)
    (rd16_ok (by omega)) (rd16_ok (by omega))
  rw [hv, Res.ok_bind]
  rw [rd16_eq, if_pos (by omega), Res.ok_bind]
  obtain ⟨secs, hsecs⟩ := pe_parse_sections_ok B pe pe_size hin (sectionCap B pe) 0
    (fun j _ h2 h3 => hnames j (by omega) h3)
  have hsecs2 : pe_parse_sections B pe pe_size (min (u16 B (pe + 6)) MAX_PE_SECTIONS)
      (pe + 24 + u16 B (pe + 20)) = .ok secs := hsecs
  rw [hsecs2, Res.ok_bind]
  exact ⟨_, rfl⟩

theorem header_accepted_bounds {B : List Nat} {pe : Nat}
    (h : pe_get_header B = .ok (some pe)) :
    pe + 24 + u16 B (pe + 20) < B.length := by
  exact Bound.headers_fit (d := bindAt B pe) ⟨h, rfl, rfl, rfl⟩

/-- C7 (as amended): for every accepted image on which `pe_parse_header` runs
to its end without reading outside the buffer, the number of section records
published is the largest `k` not above `min(NumberOfSections, 96)` such that
each of the first `k` section headers ends strictly before `pe_size`; so at
most 96 records are published, and record `i` carries the name,
characteristics, virtual address, virtual size, raw data offset and raw data
size of the `i`-th header.  The parse runs to its end whenever the header
fields it reads are inside the buffer and every section header that ends
strictly before `pe_size` has a NUL byte inside the buffer at or after the
start of its name. -/
theorem C7_published_sections (B : List Nat) (pe base flags : Nat)
    (hacc : pe_get_header B = .ok (some pe)) :
    (pe + 24 + 70 ≤ B.length → SectionNamesTerminated B pe (B.length - pe) →
      ∃ obj, pe_parse_header B pe base (B.length - pe) flags = .ok obj) ∧
    ∀ obj, pe_parse_header B pe base (B.length - pe) flags = .ok obj →
      obj.sections.length ≤ sectionCap B pe ∧ obj.sections.length ≤ 96 ∧
      (∀ i, i < obj.sections.length → sectionEnd B pe i < B.length - pe) ∧
      (∀ k, k ≤ sectionCap B pe → (∀ i, i < k → sectionEnd B pe i < B.length - pe) →
        k ≤ obj.sections.length) ∧
      (∀ i, i < obj.sections.length → obj.sections[i]? = some (sectionRecord B pe i)) := by
  have hb := header_accepted_bounds hacc
  constructor
  · intro hfix hnames
    exact pe_parse_header_ok B pe base _ flags hfix (by omega) hnames
  · intro obj hparse
    obtain ⟨-, -, -, hsecs, -, -⟩ := pe_parse_header_inv hparse
    obtain ⟨h1, h2, h3⟩ := pe_parse_sections_inv B pe _ _ 0 _ hsecs
    have hcap : sectionCap B pe ≤ 96 := by
      unfold sectionCap MAX_PE_SECTIONS; exact Nat.min_le_right _ _
    refine ⟨h1, by omega, ?_, ?_, ?_⟩
    · intro i hi
      have := (h2 i hi).1
      simpa using this
    · intro k hk hall
      by_contra hlt
      have hl : obj.sections.length < k := by omega
      have := h3 (by omega)
      have := hall _ hl
      simp only [Nat.zero_add] at *
      omega
    · intro i hi
      have := (h2 i hi).2
      simpa using this

set_option maxRecDepth 100000 in
/-- Witness for C7 on the image of scenario 2: the parse runs to its end and
publishes the record of the single section `Test`. -/
theorem C7_witness :
    (∃ obj, pe_parse_header scenarioImage 64 0 (scenarioImage.length - 64) 0 = .ok obj) ∧
    (parsed scenarioImage 64 0 0).sections.length ≤ sectionCap scenarioImage 64 ∧
    (parsed scenarioImage 64 0 0).sections.length ≤ 96 ∧
    (∀ i, i < (parsed scenarioImage 64 0 0).sections.length →
      sectionEnd scenarioImage 64 i < scenarioImage.length - 64) ∧
    (∀ k, k ≤ sectionCap scenarioImage 64 →
      (∀ i, i < k → sectionEnd scenarioImage 64 i < scenarioImage.length - 64) →
      k ≤ (parsed scenarioImage 64 0 0).sections.length) ∧
    (∀ i, i < (parsed scenarioImage 64 0 0).sections.length →
      (parsed scenarioImage 64 0 0).sections[i]? = some (sectionRecord scenarioImage 64 i)) :=
  ⟨(C7_published_sections scenarioImage 64 0 0 (by decide)).1 (by decide) (by decide),
   (C7_published_sections scenarioImage 64 0 0 (by decide)).2 (parsed scenarioImage 64 0 0)
    (by decide)⟩

set_option maxRecDepth 100000 in
/-- Counterexample to C7 as stated: `tightImage` is accepted and announces one
section whose header ends exactly at `pe_size`, so it does not extend past
`pe_size`; yet no section record is published. -/
theorem C7_counterexample :
    pe_get_header tightImage = .ok (some 64) ∧
    sectionCap tightImage 64 = 1 ∧
    ¬ (sectionEnd tightImage 64 0 > tightImage.length - 64) ∧
    (module_load true 0 [⟨0, tightImage⟩]).bind
      (fun r => .ok (r.1, r.2.obj.sections.length)) = .ok (ERROR_SUCCESS, 0) := by
  refine ⟨by decide, by decide, by decide, by decide⟩

theorem pe_rva_to_offset_loop_lt (B : List Nat) (pe pe_size r : Nat) (hr : r < 4294967296) :
    ∀ n sect rv ro v, ro < 4294967296 → rv ≤ r →
      pe_rva_to_offset_loop B pe pe_size r n sect rv ro = .ok v → v < 8589934592 := by
  intro n
  induction n with
  | zero =>
    intro sect rv ro v hro hrv h
    unfold pe_rva_to_offset_loop at h
    injection h with h
    omega
  | succ n ih =>
    intro sect rv ro v hro hrv h
    unfold pe_rva_to_offset_loop at h
    split at h
    · simp only [Res.bind_eq_ok] at h
      obtain ⟨va, hva, h⟩ := h
      split at h
      · rename_i hc
        simp only [Res.bind_eq_ok] at h
        obtain ⟨ptr, hptr, h⟩ := h
        have := (rd32_ok_val hptr).1
        have hlt := u32_lt B (sect + 20)
        exact ih _ _ _ v (by omega) hc.1 h
      · exact ih _ _ _ v hro hrv h
    · injection h with h
      omega

theorem pe_rva_to_offset_lt {B : List Nat} {pe pe_size r v : Nat} (hr : r < 4294967296)
    (h : pe_rva_to_offset B pe pe_size r = .ok v) : v < 8589934592 := by
  unfold pe_rva_to_offset at h
  simp only [Res.bind_eq_ok] at h
  obtain ⟨soh, -, nos, -, h⟩ := h
  exact pe_rva_to_offset_loop_lt B pe pe_size r hr _ _ _ _ v (by omega) (by omega) h

theorem toInt64_small (v : Nat) (h : v < 9223372036854775808) : toInt64 v = (v : Int) := by
  unfold toInt64
  have : v % 18446744073709551616 = v := Nat.mod_eq_of_lt (by omega)
  rw [this, if_pos h]

theorem Res.bind_ne_nofuel {α β : Type} {x : Res α} {f : α → Res β}
    (hx : x ≠ .nofuel) (hf : ∀ a, x = .ok a → f a ≠ .nofuel) : x.bind f ≠ .nofuel := by
  cases x with
  | ok a => exact hf a rfl
  | oob => simp [Res.bind]
  | nofuel => exact absurd rfl hx

theorem rd8_ne_nofuel (B : List Nat) (off : Nat) : rd8 B off ≠ .nofuel := by
  rw [rd8_eq]; split <;> simp

theorem rd16_ne_nofuel (B : List Nat) (off : Nat) : rd16 B off ≠ .nofuel := by
  rw [rd16_eq]; split <;> simp

theorem rd32_ne_nofuel (B : List Nat) (off : Nat) : rd32 B off ≠ .nofuel := by
  rw [rd32_eq]; split <;> simp

theorem rd64_ne_nofuel (B : List Nat) (off : Nat) : rd64 B off ≠ .nofuel := by
  rw [rd64_eq]; split <;> simp

theorem pe_rva_to_offset_loop_ne_nofuel (B : List Nat) (pe pe_size r : Nat) :
    ∀ n sect rv ro, pe_rva_to_offset_loop B pe pe_size r n sect rv ro ≠ .nofuel := by
  intro n
  induction n with
  | zero => intro sect rv ro; simp [pe_rva_to_offset_loop]
  | succ n ih =>
    intro sect rv ro
    unfold pe_rva_to_offset_loop
    split
    · refine Res.bind_ne_nofuel (rd32_ne_nofuel _ _) (fun va _ => ?_)
      split
      · exact Res.bind_ne_nofuel (rd32_ne_nofuel _ _) (fun ptr _ => ih _ _ _)
      · exact ih _ _ _
    · simp

theorem pe_rva_to_offset_ne_nofuel (B : List Nat) (pe pe_size r : Nat) :
    pe_rva_to_offset B pe pe_size r ≠ .nofuel := by
  unfold pe_rva_to_offset
  exact Res.bind_ne_nofuel (rd16_ne_nofuel _ _) (fun _ _ =>
    Res.bind_ne_nofuel (rd16_ne_nofuel _ _) (fun _ _ =>
      pe_rva_to_offset_loop_ne_nofuel _ _ _ _ _ _ _ _))

theorem strncmp_ne_nofuel (B : List Nat) :
    ∀ n off q, strncmp B off q n ≠ .nofuel := by
  intro n
  induction n with
  | zero => intro off q; simp [strncmp]
  | succ n ih =>
    intro off q
    unfold strncmp
    refine Res.bind_ne_nofuel (rd8_ne_nofuel _ _) (fun c _ => ?_)
    split
    · simp
    · split
      · simp
      · exact ih _ _

theorem strncasecmp_ne_nofuel (B : List Nat) :
    ∀ n off q, strncasecmp q B off n ≠ .nofuel := by
  intro n
  induction n with
  | zero => intro off q; simp [strncasecmp]
  | succ n ih =>
    intro off q
    unfold strncasecmp
    refine Res.bind_ne_nofuel (rd8_ne_nofuel _ _) (fun c _ => ?_)
    split
    · simp
    · split
      · simp
      · exact ih _ _

theorem pe_get_directory_entry_ne_nofuel (B : List Nat) (pe entry : Nat) :
    pe_get_directory_entry B pe entry ≠ .nofuel := by
  unfold pe_get_directory_entry
  refine Res.bind_ne_nofuel (rd16_ne_nofuel _ _) (fun _ _ => ?_)
  split <;> simp

theorem exports_loop_ne_nofuel (d : DATA) (f : List Nat) (names : Nat) :
    ∀ n i, exports_loop d f names n i ≠ .nofuel := by
  intro n
  induction n with
  | zero => intro i; simp [exports_loop]
  | succ n ih =>
    intro i
    unfold exports_loop
    refine Res.bind_ne_nofuel (rd32_ne_nofuel _ _) (fun _ _ =>
      Res.bind_ne_nofuel (pe_rva_to_offset_ne_nofuel _ _ _ _) (fun _ _ => ?_))
    split
    · simp
    · refine Res.bind_ne_nofuel (strncmp_ne_nofuel _ _ _ _) (fun b _ => ?_)
      split
      · simp
      · exact ih _

theorem exports_ne_nofuel (m : Module) (f : List Nat) : exports m f ≠ .nofuel := by
  unfold exports
  split
  · simp
  · refine Res.bind_ne_nofuel (pe_get_directory_entry_ne_nofuel _ _ _) (fun _ _ =>
      Res.bind_ne_nofuel (rd32_ne_nofuel _ _) (fun _ _ => ?_))
    split
    · simp
    · refine Res.bind_ne_nofuel (pe_rva_to_offset_ne_nofuel _ _ _ _) (fun _ _ => ?_)
      split
      · simp
      · refine Res.bind_ne_nofuel (rd32_ne_nofuel _ _) (fun _ _ =>
          Res.bind_ne_nofuel (pe_rva_to_offset_ne_nofuel _ _ _ _) (fun _ _ => ?_))
        split
        · simp
        · refine Res.bind_ne_nofuel (rd32_ne_nofuel _ _) (fun _ _ => ?_)
          split
          · simp
          · exact exports_loop_ne_nofuel _ _ _ _ _

theorem import_by_name_matches_ne_nofuel (d : DATA) (f : List Nat) (rva : Nat) :
    import_by_name_matches d f rva ≠ .nofuel := by
  unfold import_by_name_matches
  refine Res.bind_ne_nofuel (pe_rva_to_offset_ne_nofuel _ _ _ _) (fun _ _ => ?_)
  split
  · split
    · exact strncmp_ne_nofuel _ _ _ _
    · simp
  · simp

theorem imports_thunks_gen_ne_nofuel (d : DATA) (f : List Nat) (size : Nat)
    (read : List Nat → Nat → Res Nat) (flag : Nat)
    (hread : ∀ th, read d.data th ≠ .nofuel) :
    ∀ fuel th, d.data_size < th + size * fuel → fuel ≠ 0 →
      imports_thunks_gen d f size read flag fuel th ≠ .nofuel := by
  intro fuel
  induction fuel with
  | zero => intro th _ h; exact absurd rfl h
  | succ n ih =>
    intro th hfuel _
    unfold imports_thunks_gen
    split
    · rename_i hg
      refine Res.bind_ne_nofuel (hread _) (fun ordinal _ => ?_)
      split
      · have hn : n ≠ 0 := by
          intro h0; subst h0; omega
        have hrec := ih (th + size) (by rw [Nat.mul_succ] at hfuel; omega) hn
        refine Res.bind_ne_nofuel ?_ (fun found _ => ?_)
        · split
          · exact import_by_name_matches_ne_nofuel _ _ _
          · simp
        · split
          · simp
          · exact hrec
      · simp
    · simp

theorem imports_descriptor_ne_nofuel (d : DATA) (dll f : List Nat) (imp name : Nat) :
    imports_descriptor d dll f imp name ≠ .nofuel := by
  unfold imports_descriptor
  refine Res.bind_ne_nofuel (pe_rva_to_offset_ne_nofuel _ _ _ _) (fun _ _ =>
    Res.bind_ne_nofuel ?_ (fun b _ => ?_))
  · split
    · exact strncasecmp_ne_nofuel _ _ _ _
    · simp
  · split
    · refine Res.bind_ne_nofuel (rd32_ne_nofuel _ _) (fun _ _ =>
        Res.bind_ne_nofuel (pe_rva_to_offset_ne_nofuel _ _ _ _) (fun off _ => ?_))
      split
      · refine Res.bind_ne_nofuel (rd16_ne_nofuel _ _) (fun _ _ => ?_)
        split
        · rw [imports_thunks64_eq_gen]
          exact imports_thunks_gen_ne_nofuel d f _ rd64 _
            (fun th => rd64_ne_nofuel _ _) _ _
            (by unfold sizeof_IMAGE_THUNK_DATA64; omega) (by omega)
        · rw [imports_thunks32_eq_gen]
          exact imports_thunks_gen_ne_nofuel d f _ rd32 _
            (fun th => rd32_ne_nofuel _ _) _ _
            (by unfold sizeof_IMAGE_THUNK_DATA32; omega) (by omega)
      · simp
    · simp

theorem imports_loop_ne_nofuel (d : DATA) (dll f : List Nat) :
    ∀ fuel imp, d.data_size < imp + 20 * fuel → fuel ≠ 0 →
      imports_loop d dll f fuel imp ≠ .nofuel := by
  intro fuel
  induction fuel with
  | zero => intro imp _ h; exact absurd rfl h
  | succ n ih =>
    intro imp hfuel _
    unfold imports_loop
    simp only [sizeof_IMAGE_IMPORT_DESCRIPTOR]
    split
    · rename_i hg
      refine Res.bind_ne_nofuel (rd32_ne_nofuel _ _) (fun name _ => ?_)
      split
      · refine Res.bind_ne_nofuel (imports_descriptor_ne_nofuel _ _ _ _ _) (fun found _ => ?_)
        split
        · simp
        · have hn : n ≠ 0 := by
            intro h0; subst h0; omega
          exact ih (imp + 20) (by omega) hn
      · simp
    · simp

theorem imports_ne_nofuel (m : Module) (dll f : List Nat) : imports m dll f ≠ .nofuel := by
  unfold imports
  split
  · simp
  · refine Res.bind_ne_nofuel (pe_get_directory_entry_ne_nofuel _ _ _) (fun _ _ =>
      Res.bind_ne_nofuel (rd32_ne_nofuel _ _) (fun _ _ => ?_))
    split
    · simp
    · refine Res.bind_ne_nofuel (pe_rva_to_offset_ne_nofuel _ _ _ _) (fun off _ => ?_)
      split
      · simp
      · exact imports_loop_ne_nofuel _ _ _ _ _ (by omega) (by omega)
theorem exports_loop_values (d : DATA) (f : List Nat) (names : Nat) :
    ∀ n i v, exports_loop d f names n i = .ok v → v = 0 ∨ v = 1 := by
  intro n
  induction n with
  | zero =>
    intro i v h
    unfold exports_loop at h
    injection h with h
    exact Or.inl h.symm
  | succ n ih =>
    intro i v h
    unfold exports_loop at h
    simp only [Res.bind_eq_ok] at h
    obtain ⟨rva, -, off, -, h⟩ := h
    split at h
    · injection h with h; exact Or.inl h.symm
    · simp only [Res.bind_eq_ok] at h
      obtain ⟨b, -, h⟩ := h
      split at h
      · injection h with h; exact Or.inr h.symm
      · exact ih _ _ h

theorem exports_values (obj : PeObject) (d : DATA) (f : List Nat) (v : Int)
    (h : exports ⟨obj, some d⟩ f = .ok v) : v = 0 ∨ v = 1 := by
  unfold exports at h
  simp only [Res.bind_eq_ok] at h
  obtain ⟨dir, -, va, -, h⟩ := h
  split at h
  · injection h with h; exact Or.inl h.symm
  · simp only [Res.bind_eq_ok] at h
    obtain ⟨off, -, h⟩ := h
    split at h
    · injection h with h; exact Or.inl h.symm
    · simp only [Res.bind_eq_ok] at h
      obtain ⟨aon, -, noff, -, h⟩ := h
      split at h
      · injection h with h; exact Or.inl h.symm
      · simp only [Res.bind_eq_ok] at h
        obtain ⟨non, -, h⟩ := h
        split at h
        · injection h with h; exact Or.inl h.symm
        · exact exports_loop_values _ _ _ _ _ _ h

theorem imports_loop_values (d : DATA) (dll f : List Nat) :
    ∀ fuel imp v, imports_loop d dll f fuel imp = .ok v → v = 0 ∨ v = 1 := by
  intro fuel
  induction fuel with
  | zero =>
    intro imp v h
    unfold imports_loop at h
    exact absurd h (by simp)
  | succ n ih =>
    intro imp v h
    unfold imports_loop at h
    split at h
    · simp only [Res.bind_eq_ok] at h
      obtain ⟨name, -, h⟩ := h
      split at h
      · simp only [Res.bind_eq_ok] at h
        obtain ⟨b, -, h⟩ := h
        split at h
        · injection h with h; exact Or.inr h.symm
        · exact ih _ _ h
      · injection h with h; exact Or.inl h.symm
    · injection h with h; exact Or.inl h.symm

theorem imports_values (obj : PeObject) (d : DATA) (dll f : List Nat) (v : Int)
    (h : imports ⟨obj, some d⟩ dll f = .ok v) : v = 0 ∨ v = 1 := by
  unfold imports at h
  simp only [Res.bind_eq_ok] at h
  obtain ⟨dir, -, va, -, h⟩ := h
  split at h
  · injection h with h; exact Or.inl h.symm
  · simp only [Res.bind_eq_ok] at h
    obtain ⟨off, -, h⟩ := h
    split at h
    · injection h with h; exact Or.inl h.symm
    · exact imports_loop_values _ _ _ _ _ _ h

theorem res_trichotomy {x : Res Int} (hn : x ≠ .nofuel) (hv : ∀ v, x = .ok v → v = 0 ∨ v = 1) :
    x = .ok 0 ∨ x = .ok 1 ∨ x = .oob := by
  cases x with
  | ok v =>
    rcases hv v rfl with h | h
    · subst h; exact Or.inl rfl
    · subst h; exact Or.inr (Or.inl rfl)
  | oob => exact Or.inr (Or.inr rfl)
  | nofuel => exact absurd rfl hn

theorem module_load_blocks_unbound (alloc_ok : Bool) (flags : Nat) :
    ∀ (blocks : List Block) (m : Module),
      module_load_blocks alloc_ok flags blocks = .ok (ERROR_SUCCESS, m) → m.data = none →
      m.obj = PeObject.empty := by
  intro blocks
  induction blocks with
  | nil =>
    intro m h _
    unfold module_load_blocks at h
    injection h with h
    injection h with _ h
    rw [← h]
  | cons b rest ih =>
    intro m h hnone
    unfold module_load_blocks at h
    simp only [Res.bind_eq_ok] at h
    obtain ⟨hdr, -, h⟩ := h
    cases hdr with
    | none => exact ih m h hnone
    | some pe =>
      simp only [Res.bind_eq_ok] at h
      obtain ⟨acc, -, h⟩ := h
      cases acc with
      | false => exact ih m (by simpa using h) hnone
      | true =>
        simp only [if_true, Res.bind_eq_ok] at h
        obtain ⟨obj, -, h⟩ := h
        cases alloc_ok with
        | true =>
          simp only [if_true] at h
          injection h with h
          injection h with _ h
          rw [← h] at hnone
          simp at hnone
        | false =>
          simp only [Bool.false_eq_true, if_false] at h
          injection h with h
          injection h with h _
          exact absurd h (by decide)

theorem queries_undefined_iff_unbound (alloc_ok : Bool) (flags : Nat) (blocks : List Block)
    (m : Module) (n dll f s : List Nat) (fuel : Nat) (L : Int)
    (hload : module_load alloc_ok flags blocks = .ok (ERROR_SUCCESS, m)) :
    (exports m n = .ok UNDEFINED ↔ m.data = none) ∧
    (imports m dll f = .ok UNDEFINED ↔ m.data = none) ∧
    (m.data ≠ none →
      (exports m n = .ok 0 ∨ exports m n = .ok 1 ∨ exports m n = .oob) ∧
      (imports m dll f = .ok 0 ∨ imports m dll f = .ok 1 ∨ imports m dll f = .oob)) ∧
    (m.data = none →
      language fuel m L = .ok UNDEFINED ∧ section_index m s = .ok UNDEFINED) := by
  obtain ⟨obj, data⟩ := m
  have hu : UNDEFINED ≠ 0 ∧ UNDEFINED ≠ 1 := by decide
  cases data with
  | none =>
    have hobj := module_load_blocks_unbound alloc_ok flags blocks ⟨obj, none⟩ hload rfl
    simp only at hobj
    subst hobj
    refine ⟨by simp [exports], by simp [imports], by simp, fun _ => ⟨by simp [language], ?_⟩⟩
    simp [section_index, PeObject.empty]
  | some d =>
    refine ⟨?_, ?_, fun _ => ⟨?_, ?_⟩, by simp⟩
    · constructor
      · intro h
        rcases exports_values obj d n _ h with h0 | h1
        · exact absurd h0 hu.1
        · exact absurd h1 hu.2
      · intro h; simp at h
    · constructor
      · intro h
        rcases imports_values obj d dll f _ h with h0 | h1
        · exact absurd h0 hu.1
        · exact absurd h1 hu.2
      · intro h; simp at h
    · exact res_trichotomy (exports_ne_nofuel _ _) (exports_values obj d n)
    · exact res_trichotomy (imports_ne_nofuel _ _ _) (imports_values obj d dll f)

set_option maxRecDepth 100000 in
/-- The failing input of C9: loading `shortOptImage` succeeds and binds it, yet
`exports` and `imports` return neither 0 nor 1: each reads its data directory
entry (at offsets 184 and 192) outside the 160 bytes of the buffer. -/
theorem C9_failing_input :
    shortOptImage.length = 160 ∧
    (module_load true 0 [⟨0, shortOptImage⟩]).bind
      (fun r => .ok (r.1, r.2.data.isSome)) = .ok (ERROR_SUCCESS, true) ∧
    dirEntry shortOptImage 64 0 = 184 ∧ dirEntry shortOptImage 64 1 = 192 ∧
    (module_load true 0 [⟨0, shortOptImage⟩]).bind
      (fun r => exports r.2 (ascii "f")) = .oob ∧
    (module_load true 0 [⟨0, shortOptImage⟩]).bind
      (fun r => imports r.2 (ascii "d") (ascii "f")) = .oob := by
  refine ⟨by decide, by decide, by decide, by decide, by decide, by decide⟩

theorem exports_loop_bad_name {d : DATA} (hb : Bound d) (n : List Nat) (names cnt j : Nat)
    (htab : names + 4 * cnt ≤ d.data.length) (hj : j < cnt)
    (hbad : exportNameOff d names j = 0 ∨ exportNameOff d names j ≥ d.data_size)
    (hbefore : ∀ i, i < j →
      ¬ (exportNameOff d names i = 0 ∨ exportNameOff d names i ≥ d.data_size) →
      strncmp d.data (exportNameOff d names i) n (d.data_size - exportNameOff d names i)
        ≠ .ok true) :
    ∀ c i, i + c = cnt → i ≤ j → exports_loop d n names c i = .ok 0 := by
  have hds : d.data_size = d.data.length := hb.2.2.2
  intro c
  induction c with
  | zero => intro i h1 h2; omega
  | succ c ih =>
    intro i h1 h2
    unfold exports_loop
    simp only [sizeof_DWORD]
    rw [rd32_eq, if_pos (by omega), Res.ok_bind, pe_rva_to_offset_ok hb, Res.ok_bind]
    have hoff : rva2off d (u32 d.data (names + 4 * i)) = exportNameOff d names i := rfl
    rw [hoff]
    by_cases hbi : exportNameOff d names i = 0 ∨ exportNameOff d names i ≥ d.data_size
    · rw [if_pos hbi]
    · rw [if_neg hbi]
      have hij : i < j := by
        rcases Nat.lt_or_ge i j with h | h
        · exact h
        · have : i = j := by omega
          subst this
          exact absurd hbad hbi
      obtain ⟨b, hbm⟩ := strncmp_ok d.data n (d.data_size - exportNameOff d names i)
        (exportNameOff d names i) (by rw [hds] at hbi ⊢; omega)
      have hne := hbefore i hij hbi
      rw [hbm] at hne ⊢
      cases b with
      | true => exact absurd rfl hne
      | false =>
        rw [Res.ok_bind]
        simpa using ih (i + 1) (by omega) (by omega)

/-- C10: on a bound image whose export data directory entry is inside the
buffer, `exports` returns 0 for every name when the directory's
`VirtualAddress` is 0; when that RVA maps to offset 0 or to an offset
`≥ data_size`; when (the export directory fields read being inside the buffer)
`AddressOfNames` maps to offset 0 or the `NumberOfNames * 4` byte table would
extend past `data_size`; and when a name RVA reached before any matching name
maps to offset 0 or to an offset `≥ data_size`. -/
theorem C10_exports_zero_on_failure (obj : PeObject) (d : DATA) (n : List Nat) (hb : Bound d)
    (hdir : dirEntry d.data d.pe_header 0 + 8 ≤ d.data.length) :
    (u32 d.data (dirEntry d.data d.pe_header 0) = 0 → exports ⟨obj, some d⟩ n = .ok 0) ∧
    (rva2off d (u32 d.data (dirEntry d.data d.pe_header 0)) = 0 ∨
      rva2off d (u32 d.data (dirEntry d.data d.pe_header 0)) ≥ d.data_size →
      exports ⟨obj, some d⟩ n = .ok 0) ∧
    (rva2off d (u32 d.data (dirEntry d.data d.pe_header 0)) + 36 ≤ d.data.length →
      (rva2off d (u32 d.data (rva2off d (u32 d.data (dirEntry d.data d.pe_header 0)) + 32)) = 0 ∨
        rva2off d (u32 d.data (rva2off d (u32 d.data (dirEntry d.data d.pe_header 0)) + 32)) +
          u32 d.data (rva2off d (u32 d.data (dirEntry d.data d.pe_header 0)) + 24) * 4
          > d.data_size) →
      exports ⟨obj, some d⟩ n = .ok 0) ∧
    (rva2off d (u32 d.data (dirEntry d.data d.pe_header 0)) + 36 ≤ d.data.length →
      ∀ j, j < u32 d.data (rva2off d (u32 d.data (dirEntry d.data d.pe_header 0)) + 24) →
        (exportNameOff d
            (rva2off d (u32 d.data (rva2off d (u32 d.data (dirEntry d.data d.pe_header 0)) + 32)))
            j = 0 ∨
          exportNameOff d
            (rva2off d (u32 d.data (rva2off d (u32 d.data (dirEntry d.data d.pe_header 0)) + 32)))
            j ≥ d.data_size) →
        (∀ i, i < j →
          ¬ (exportNameOff d
              (rva2off d (u32 d.data (rva2off d (u32 d.data (dirEntry d.data d.pe_header 0)) + 32)))
              i = 0 ∨
            exportNameOff d
              (rva2off d (u32 d.data (rva2off d (u32 d.data (dirEntry d.data d.pe_header 0)) + 32)))
              i ≥ d.data_size) →
          strncmp d.data
            (exportNameOff d
              (rva2off d (u32 d.data (rva2off d (u32 d.data (dirEntry d.data d.pe_header 0)) + 32)))
              i) n
            (d.data_size - exportNameOff d
              (rva2off d (u32 d.data (rva2off d (u32 d.data (dirEntry d.data d.pe_header 0)) + 32)))
              i) ≠ .ok true) →
        exports ⟨obj, some d⟩ n = .ok 0) := by
  have hds : d.data_size = d.data.length := hb.2.2.2
  generalize hva : u32 d.data (dirEntry d.data d.pe_header 0) = va
  generalize heo : rva2off d va = eoff
  generalize hno : rva2off d (u32 d.data (eoff + 32)) = noff
  have hunf : exports ⟨obj, some d⟩ n =
      if va = 0 then .ok 0
      else if eoff = 0 ∨ eoff ≥ d.data_size then .ok 0
      else (rd32 d.data (eoff + 32)).bind fun address_of_names =>
        (pe_rva_to_offset d.data d.pe_header d.pe_size address_of_names).bind fun offset =>
        if offset = 0 then .ok 0
        else (rd32 d.data (eoff + 24)).bind fun number_of_names =>
          if offset + number_of_names * sizeof_DWORD > d.data_size then .ok 0
          else exports_loop d n offset number_of_names 0 := by
    unfold exports
    simp only [IMAGE_DIRECTORY_ENTRY_EXPORT]
    rw [pe_get_directory_entry_ok hb, Res.ok_bind, rd32_eq, if_pos (by omega), Res.ok_bind, hva]
    by_cases h0 : va = 0
    · rw [if_pos h0, if_pos h0]
    · rw [if_neg h0, if_neg h0, pe_rva_to_offset_ok hb, Res.ok_bind, heo]
  rw [hunf]
  refine ⟨fun h => by rw [if_pos h], fun h => ?_, fun hin h => ?_, fun hin j hj hbad hbefore => ?_⟩
  · by_cases h0 : va = 0
    · rw [if_pos h0]
    · rw [if_neg h0, if_pos h]
  · by_cases h0 : va = 0
    · rw [if_pos h0]
    · rw [if_neg h0]
      by_cases h1 : eoff = 0 ∨ eoff ≥ d.data_size
      · rw [if_pos h1]
      · rw [if_neg h1, rd32_eq, if_pos (by omega), Res.ok_bind, pe_rva_to_offset_ok hb,
          Res.ok_bind, hno]
        by_cases hn0 : noff = 0
        · rw [if_pos hn0]
        · rw [if_neg hn0, rd32_eq, if_pos (by omega), Res.ok_bind]
          rcases h with h | h
          · exact absurd h hn0
          · rw [if_pos (by simpa [sizeof_DWORD] using h)]
  · by_cases h0 : va = 0
    · rw [if_pos h0]
    · rw [if_neg h0]
      by_cases h1 : eoff = 0 ∨ eoff ≥ d.data_size
      · rw [if_pos h1]
      · rw [if_neg h1, rd32_eq, if_pos (by omega), Res.ok_bind, pe_rva_to_offset_ok hb,
          Res.ok_bind, hno]
        by_cases hn0 : noff = 0
        · rw [if_pos hn0]
        · rw [if_neg hn0, rd32_eq, if_pos (by omega), Res.ok_bind]
          by_cases hfit : noff + u32 d.data (eoff + 24) * sizeof_DWORD > d.data_size
          · rw [if_pos hfit]
          · rw [if_neg hfit]
            simp only [sizeof_DWORD] at hfit
            exact exports_loop_bad_name hb n noff _ j (by rw [hds] at hfit; omega) hj hbad
              hbefore _ 0 (by omega) (by omega)

set_option maxRecDepth 100000 in
/-- Witness for C10 (scenario 5): the first export name RVA of `badExportImage`
maps past the end of the buffer, and `exports("anything")` is 0. -/
theorem C10_witness :
    exports ⟨PeObject.empty, some (bindAt badExportImage 64)⟩ (ascii "anything") = .ok 0 :=
  (C10_exports_zero_on_failure PeObject.empty (bindAt badExportImage 64) (ascii "anything")
    (by decide) (by decide)).2.2.2 (by decide) 0 (by decide) (by decide)
    (fun i hi => absurd hi (Nat.not_lt_zero i))

/-! ## Failures on attached bindings -/

set_option maxRecDepth 100000 in
/-- The failing input of C12: `tightImage` is bound with
`number_of_sections = 1` although no section record is published, and
`section_index` compares against the undefined name `sections[0].name`. -/
theorem C12_failing_input :
    (module_load true 0 [⟨0, tightImage⟩]).bind
      (fun r => .ok (r.1, r.2.obj.number_of_sections, r.2.obj.sections.length)) =
      .ok (ERROR_SUCCESS, 1, 0) ∧
    (module_load true 0 [⟨0, tightImage⟩]).bind
      (fun r => .ok (r.2.data.isSome, get_section_name r.2.obj 0)) = .ok (true, none) ∧
    (module_load true 0 [⟨0, tightImage⟩]).bind
      (fun r => section_index r.2 (ascii ".text")) = .oob := by
  refine ⟨by decide, by decide, by decide⟩

theorem pe_rva_to_offset_loop_overflow (B : List Nat) (pe pe_size r : Nat)
    (hin : pe + pe_size ≤ B.length) :
    ∀ n i rv ro, (∃ j, i ≤ j ∧ j < i + n ∧ sectionEnd B pe j ≥ pe_size) →
      pe_rva_to_offset_loop B pe pe_size r n (sectionAddr B pe i) rv ro = .ok 0 := by
  intro n
  induction n with
  | zero => rintro i rv ro ⟨j, h1, h2, -⟩; omega
  | succ n ih =>
    rintro i rv ro ⟨j, h1, h2, h3⟩
    have haddr : sectionAddr B pe i - pe + sizeof_IMAGE_SECTION_HEADER = sectionEnd B pe i := by
      unfold sectionAddr sectionEnd sizeof_IMAGE_SECTION_HEADER; omega
    have hnext : sectionAddr B pe i + sizeof_IMAGE_SECTION_HEADER = sectionAddr B pe (i + 1) := by
      unfold sectionAddr sizeof_IMAGE_SECTION_HEADER; omega
    unfold pe_rva_to_offset_loop
    rw [haddr, hnext]
    by_cases hg : sectionEnd B pe i < pe_size
    · have hne : i ≠ j := by
        intro h; subst h; omega
      have hb : sectionAddr B pe i + 40 < B.length := by
        unfold sectionEnd at hg; unfold sectionAddr; omega
      have hrec : ∀ rv ro, pe_rva_to_offset_loop B pe pe_size r n (sectionAddr B pe (i + 1))
          rv ro = .ok 0 := fun rv ro => ih (i + 1) rv ro ⟨j, by omega, by omega, h3⟩
      rw [if_pos hg, rd32_eq, if_pos (by omega), Res.ok_bind]
      split
      · rw [rd32_eq, if_pos (by omega), Res.ok_bind]
        exact hrec _ _
      · exact hrec _ _
    · rw [if_neg hg]

/-- C13 (as amended): when one of the first `min(NumberOfSections, 96)` section
headers (40 bytes each, starting right after the optional header) does not end
strictly before `pe_size`, `pe_rva_to_offset` returns 0 for every RVA. -/
theorem C13_rva_zero_on_overflow (B : List Nat) (pe pe_size r : Nat)
    (hin : pe + pe_size ≤ B.length) (hhdr : pe + 24 ≤ B.length)
    (hover : ∃ j, j < sectionCap B pe ∧ sectionEnd B pe j ≥ pe_size) :
    pe_rva_to_offset B pe pe_size r = .ok 0 := by
  obtain ⟨j, hj, hend⟩ := hover
  rw [pe_rva_to_offset_unfold B pe pe_size r hhdr]
  exact pe_rva_to_offset_loop_overflow B pe pe_size r hin _ 0 0 0 ⟨j, Nat.zero_le _, by omega, hend⟩

set_option maxRecDepth 100000 in
/-- Witness for C13: in `tightImage` the only section header ends at `pe_size`. -/
theorem C13_witness : pe_rva_to_offset tightImage 64 (tightImage.length - 64) 0x1234 = .ok 0 :=
  C13_rva_zero_on_overflow tightImage 64 (tightImage.length - 64) 0x1234 (by decide) (by decide)
    ⟨0, by decide, by decide⟩

theorem u8_append_left (a b : List Nat) (off : Nat) (h : off < a.length) :
    u8 (a ++ b) off = u8 a off := by
  unfold u8
  simp [List.getD, List.getElem?_append_left h]

theorem u8_append_zeros (a : List Nat) (n off : Nat) (h : a.length ≤ off) :
    u8 (a ++ zeros n) off = 0 := by
  unfold u8 zeros
  rw [List.getD_eq_getElem?_getD, List.getElem?_append_right h]
  by_cases hlt : off - a.length < n
  · rw [List.getElem?_replicate_of_lt hlt]; rfl
  · rw [List.getElem?_eq_none (by simp; omega)]; rfl

theorem u16_append_left (a b : List Nat) (off : Nat) (h : off + 2 ≤ a.length) :
    u16 (a ++ b) off = u16 a off := by
  unfold u16
  rw [u8_append_left a b off (by omega), u8_append_left a b (off + 1) (by omega)]

theorem u32_append_left (a b : List Nat) (off : Nat) (h : off + 4 ≤ a.length) :
    u32 (a ++ b) off = u32 a off := by
  unfold u32
  rw [u16_append_left a b off (by omega), u16_append_left a b (off + 2) (by omega)]

theorem u32_append_zeros (a : List Nat) (n off : Nat) (h : a.length ≤ off) :
    u32 (a ++ zeros n) off = 0 := by
  unfold u32 u16
  rw [u8_append_zeros a n off h, u8_append_zeros a n (off + 1) (by omega),
    u8_append_zeros a n (off + 2) (by omega), u8_append_zeros a n (off + 2 + 1) (by omega)]

theorem bound_bindAt {B : List Nat} {pe : Nat} (h : pe_get_header B = .ok (some pe)) :
    Bound (bindAt B pe) := ⟨h, rfl, rfl, rfl⟩

theorem manySectionsHeader_length : manySectionsHeader.length = 88 := by decide

theorem manySectionsImage_length : manySectionsImage.length = 3936 := by
  unfold manySectionsImage zeros
  rw [List.length_append, List.length_replicate, manySectionsHeader_length]

theorem manySectionsImage_accepted : pe_get_header manySectionsImage = .ok (some 64) := by
  have hl := manySectionsHeader_length
  have h0 : u16 manySectionsImage 0 = 0x5A4D := by
    unfold manySectionsImage
    rw [u16_append_left _ _ _ (by omega)]; decide
  have h60 : u32 manySectionsImage 60 = 64 := by
    unfold manySectionsImage
    rw [u32_append_left _ _ _ (by omega)]; decide
  have he : e_lfanew manySectionsImage = 64 := by
    unfold e_lfanew; rw [h60]; decide
  have hsig : u32 manySectionsImage 64 = 0x00004550 := by
    unfold manySectionsImage
    rw [u32_append_left _ _ _ (by omega)]; decide
  have hm : u16 manySectionsImage (64 + 4) = 0x014c := by
    unfold manySectionsImage
    rw [u16_append_left _ _ _ (by omega)]; decide
  have hsoh : u16 manySectionsImage (64 + 20) = 0 := by
    unfold manySectionsImage
    rw [u16_append_left _ _ _ (by omega)]; decide
  rw [pe_get_header_eq, if_pos, he]
  refine ⟨?_, h0, ?_, ?_, ?_, ?_⟩
  · rw [manySectionsImage_length]; omega
  · rw [h60]; decide
  · rw [he]; exact hsig
  · rw [he]; exact Or.inl hm
  · rw [he, hsoh, manySectionsImage_length]; omega

/-- Counterexample to C13 as stated: `manySectionsImage` is bound and the 97
section headers its file header declares would overflow the buffer (the 97th
ends past `pe_size`), yet `pe_rva_to_offset` does not return 0: only the first
96 headers are walked. -/
theorem C13_counterexample :
    Bound (bindAt manySectionsImage 64) ∧
    u16 manySectionsImage (64 + 6) = 97 ∧
    sectionEnd manySectionsImage 64 96 > manySectionsImage.length - 64 ∧
    pe_rva_to_offset manySectionsImage 64 (manySectionsImage.length - 64) 0x1234 = .ok 0x1234 := by
  have hl := manySectionsHeader_length
  have hlen := manySectionsImage_length
  have hnos : u16 manySectionsImage (64 + 6) = 97 := by
    unfold manySectionsImage
    rw [u16_append_left _ _ _ (by omega)]; decide
  have hsoh : u16 manySectionsImage (64 + 20) = 0 := by
    unfold manySectionsImage
    rw [u16_append_left _ _ _ (by omega)]; decide
  have hcap : sectionCap manySectionsImage 64 = 96 := by
    unfold sectionCap MAX_PE_SECTIONS; rw [hnos]; rfl
  have hva : ∀ j, sectionVA manySectionsImage 64 j = 0 := by
    intro j
    unfold sectionVA sectionAddr manySectionsImage
    exact u32_append_zeros _ _ _ (by omega)
  have hraw : ∀ j, sectionRaw manySectionsImage 64 j = 0 := by
    intro j
    unfold sectionRaw sectionAddr manySectionsImage
    exact u32_append_zeros _ _ _ (by omega)
  have hbound : Bound (bindAt manySectionsImage 64) :=
    bound_bindAt manySectionsImage_accepted
  refine ⟨hbound, hnos, ?_, ?_⟩
  · unfold sectionEnd; rw [hsoh, hlen]; omega
  · obtain ⟨rv, ro, hinv, hres⟩ := pe_rva_to_offset_loop_fits manySectionsImage 64
      (manySectionsImage.length - 64) 0x1234 (sectionCap manySectionsImage 64)
      (by omega) (by
        intro i hi
        rw [hcap] at hi
        unfold sectionEnd
        rw [hsoh, hlen]; omega)
      (sectionCap manySectionsImage 64) 0 0 0 (by omega)
      (Or.inl ⟨rfl, rfl, fun j hj => absurd hj (by omega)⟩)
    rw [pe_rva_to_offset_unfold _ _ _ _ (by omega), hres]
    have hz : rv = 0 ∧ ro = 0 := by
      rcases hinv with ⟨h0, h1, -⟩ | ⟨s, -, h0, h1⟩
      · exact ⟨h0, h1⟩
      · exact ⟨by rw [h0, hva], by rw [h1, hraw]⟩
    rw [hz.1, hz.2]

theorem thunks_ordinal_only {d : DATA} (hb : Bound d) (f : List Nat) (th0 : Nat)
    (H : ∀ j, (∀ i, i ≤ j → th0 + thunkSize d * i + thunkSize d ≤ d.data.length ∧
        thunkVal d (th0 + thunkSize d * i) ≠ 0) →
      thunkVal d (th0 + thunkSize d * j) &&& ordinalFlag d ≠ 0) :
    ∀ fuel j, (∀ i, i < j → th0 + thunkSize d * i + thunkSize d ≤ d.data.length ∧
        thunkVal d (th0 + thunkSize d * i) ≠ 0) →
      d.data.length < th0 + thunkSize d * j + thunkSize d * fuel → fuel ≠ 0 →
      imports_thunks_gen d f (thunkSize d) (thunkRead d) (ordinalFlag d) fuel
        (th0 + thunkSize d * j) = .ok false := by
  have hds : d.data_size = d.data.length := hb.2.2.2
  intro fuel
  induction fuel with
  | zero => intro j _ _ h; exact absurd rfl h
  | succ n ih =>
    intro j hprev hfuel _
    unfold imports_thunks_gen
    rw [hds]
    by_cases hg : th0 + thunkSize d * j + thunkSize d ≤ d.data.length
    · rw [if_pos hg, thunkRead_eq, if_pos hg, Res.ok_bind]
      by_cases hz : thunkVal d (th0 + thunkSize d * j) ≠ 0
      · rw [if_pos hz]
        have hall : ∀ i, i ≤ j → th0 + thunkSize d * i + thunkSize d ≤ d.data.length ∧
            thunkVal d (th0 + thunkSize d * i) ≠ 0 := by
          intro i hi
          rcases Nat.lt_or_ge i j with h | h
          · exact hprev i h
          · have : i = j := by omega
            subst this
            exact ⟨hg, hz⟩
        have hflag := H j hall
        rw [if_neg hflag, Res.ok_bind]
        have hn : n ≠ 0 := by
          intro h0; subst h0; omega
        have hnext : th0 + thunkSize d * j + thunkSize d = th0 + thunkSize d * (j + 1) := by
          rw [Nat.mul_succ]; omega
        rw [hnext]
        have := ih (j + 1) (fun i hi => hall i (by omega))
          (by rw [← hnext]; rw [Nat.mul_succ] at hfuel; omega) hn
        simpa using this
      · rw [if_neg hz]
    · rw [if_neg hg]

theorem imports_descriptor_ordinal_only {d : DATA} (hb : Bound d) (dll f : List Nat) (k : Nat)
    (hk : IsDescriptor d k) (H : OrdinalOnly d dll) :
    imports_descriptor d dll f (descAddr d k) (u32 d.data (descAddr d k + 12)) = .ok false := by
  have hds : d.data_size = d.data.length := hb.2.2.2
  have hf := hb.headers_fit
  have hin := (hk k (le_refl _)).1
  unfold imports_descriptor
  rw [pe_rva_to_offset_ok hb, Res.ok_bind]
  have htest : (if rva2off d (u32 d.data (descAddr d k + 12)) > 0 ∧
      rva2off d (u32 d.data (descAddr d k + 12)) ≤ d.data_size then
      strncasecmp dll d.data (rva2off d (u32 d.data (descAddr d k + 12)))
        (d.data_size - rva2off d (u32 d.data (descAddr d k + 12)))
      else .ok false) = dllNameTest d dll (descAddr d k) := rfl
  rw [htest]
  have hex : ∃ b, dllNameTest d dll (descAddr d k) = .ok b := by
    unfold dllNameTest
    split
    · rename_i h
      exact strncasecmp_ok d.data _ _ dll (by rw [hds] at h ⊢; omega)
    · exact ⟨_, rfl⟩
  obtain ⟨b, hbm⟩ := hex
  rw [hbm, Res.ok_bind]
  cases b with
  | false => simp
  | true =>
    simp only [if_true]
    rw [rd32_eq, if_pos (by omega), Res.ok_bind, pe_rva_to_offset_ok hb, Res.ok_bind]
    split
    · rw [rd16_eq, if_pos (by omega), Res.ok_bind, thunks_by_machine]
      have hpos := thunkSize_pos d
      have hth := thunks_ordinal_only hb f (rva2off d (u32 d.data (descAddr d k)))
        (fun j hj => H k hk hbm j (fun i hi => by
          have := hj i hi
          unfold thunkAddr
          exact this))
        (d.data_size + 1) 0 (fun i hi => absurd hi (Nat.not_lt_zero i))
        (by
          have : d.data.length + 1 ≤ thunkSize d * (d.data.length + 1) :=
            Nat.le_mul_of_pos_left _ hpos
          rw [hds]; omega) (by omega)
      simpa using hth
    · rfl

theorem imports_loop_ordinal_only {d : DATA} (hb : Bound d) (dll f : List Nat)
    (H : OrdinalOnly d dll) :
    ∀ fuel k, (∀ i, i < k → descAddr d i + 20 ≤ d.data.length ∧
        u32 d.data (descAddr d i + 12) ≠ 0) →
      d.data.length < descAddr d k + 20 * fuel → fuel ≠ 0 →
      imports_loop d dll f fuel (descAddr d k) = .ok 0 := by
  have hds : d.data_size = d.data.length := hb.2.2.2
  intro fuel
  induction fuel with
  | zero => intro k _ _ h; exact absurd rfl h
  | succ n ih =>
    intro k hprev hfuel _
    unfold imports_loop
    simp only [sizeof_IMAGE_IMPORT_DESCRIPTOR]
    rw [hds]
    by_cases hg : descAddr d k + 20 ≤ d.data.length
    · rw [if_pos hg, rd32_eq, if_pos (by omega), Res.ok_bind]
      by_cases hz : u32 d.data (descAddr d k + 12) ≠ 0
      · rw [if_pos hz]
        have hall : IsDescriptor d k := by
          intro i hi
          rcases Nat.lt_or_ge i k with h | h
          · exact hprev i h
          · have : i = k := by omega
            subst this
            exact ⟨hg, hz⟩
        rw [imports_descriptor_ordinal_only hb dll f k hall H, Res.ok_bind]
        have hn : n ≠ 0 := by
          intro h0; subst h0; omega
        have hnext : descAddr d k + 20 = descAddr d (k + 1) := by
          unfold descAddr; omega
        rw [hnext]
        have := ih (k + 1) (fun i hi => hall i (by omega)) (by rw [← hnext]; omega) hn
        simpa using this
      · rw [if_neg hz]
    · rw [if_neg hg]

theorem ordinal_imports_not_found (obj : PeObject) (d : DATA) (dll : List Nat)
    (hb : Bound d) (hdir : dirEntry d.data d.pe_header 1 + 8 ≤ d.data.length)
    (H : OrdinalOnly d dll) :
    ∀ f, imports ⟨obj, some d⟩ dll f = .ok 0 := by
  intro f
  have hds : d.data_size = d.data.length := hb.2.2.2
  unfold imports
  simp only [IMAGE_DIRECTORY_ENTRY_IMPORT, sizeof_IMAGE_IMPORT_DESCRIPTOR]
  rw [pe_get_directory_entry_ok hb, Res.ok_bind, rd32_eq, if_pos (by omega), Res.ok_bind]
  split
  · rfl
  · rw [pe_rva_to_offset_ok hb, Res.ok_bind]
    split
    · rfl
    · have h0 : rva2off d (u32 d.data (dirEntry d.data d.pe_header 1)) = descAddr d 0 := by
        unfold descAddr; omega
      rw [h0]
      exact imports_loop_ordinal_only hb dll f H _ 0 (fun i hi => absurd hi (Nat.not_lt_zero i))
        (by rw [hds]; omega) (by omega)

set_option maxRecDepth 100000 in
/-- The failing input of C14: `endNameImportImage` is bound; its import table
has one descriptor (at `0x200`, the next one is the terminator) whose `Name`
maps to offset `0x300`, the end of the buffer, so that no byte of a DLL name is
stored and no descriptor has the DLL name `no-such.dll`; its single thunk has
the ordinal flag clear and imports `F` by name.  `imports("no-such.dll", "F")`
is 1. -/
theorem C14_failing_input :
    Bound (bindAt endNameImportImage 64) ∧
    endNameImportImage.length = 0x300 ∧
    descAddr (bindAt endNameImportImage 64) 0 = 0x200 ∧
    rva2off (bindAt endNameImportImage 64) (u32 endNameImportImage (0x200 + 12)) = 0x300 ∧
    u32 endNameImportImage (descAddr (bindAt endNameImportImage 64) 1 + 12) = 0 ∧
    dllNameTest (bindAt endNameImportImage 64) (ascii "no-such.dll") 0x200 = .ok true ∧
    imports ⟨PeObject.empty, some (bindAt endNameImportImage 64)⟩ (ascii "no-such.dll")
      (ascii "F") = .ok 1 := by
  refine ⟨by decide, by decide, by decide, by decide, by decide, by decide, by decide⟩

/-! ## `module_load` -/

theorem module_load_blocks_skip (alloc_ok : Bool) (flags : Nat) (x : Block) (rest : List Block)
    (hx : ∀ p, ¬ Qualifies flags x p) :
    module_load_blocks alloc_ok flags (x :: rest) = module_load_blocks alloc_ok flags rest := by
  rw [module_load_blocks]
  by_cases ha : HeaderAccepted x.data
  · have hget : pe_get_header x.data = .ok (some (e_lfanew x.data)) := by
      rw [pe_get_header_eq, if_pos ha]
    have hfit := header_accepted_bounds hget
    have hnq := hx (e_lfanew x.data)
    unfold Qualifies at hnq
    rw [hget, Res.ok_bind]
    simp only
    have hpm : ¬ (flags &&& SCAN_FLAGS_PROCESS_MEMORY = 0) := by
      intro h0
      exact hnq ⟨hget, fun h => h.1 h0⟩
    rw [if_neg hpm, rd16_eq, if_pos (by omega), Res.ok_bind, Res.ok_bind]
    have hdll : ¬ (u16 x.data (e_lfanew x.data + 22) &&& IMAGE_FILE_DLL = 0) := by
      intro h0
      exact hnq ⟨hget, fun h => h.2 h0⟩
    simp [hdll]
  · have hget : pe_get_header x.data = .ok none := by
      rw [pe_get_header_eq, if_neg ha]
    rw [hget, Res.ok_bind]

theorem module_load_blocks_take (alloc_ok : Bool) (flags : Nat) (b : Block) (post : List Block)
    (pe : Nat) (hq : Qualifies flags b pe) :
    module_load_blocks alloc_ok flags (b :: post) =
      (pe_parse_header b.data pe b.base (b.data.length - pe) flags).bind fun obj =>
        if alloc_ok then
          .ok (ERROR_SUCCESS, ⟨obj, some ⟨pe, b.data.length - pe, pe, b.data, b.data.length⟩⟩)
        else .ok (ERROR_INSUFICIENT_MEMORY, ⟨obj, none⟩) := by
  obtain ⟨hget, hnot⟩ := hq
  have hfit := header_accepted_bounds hget
  rw [module_load_blocks]
  rw [hget, Res.ok_bind]
  simp only
  by_cases hpm : flags &&& SCAN_FLAGS_PROCESS_MEMORY = 0
  · rw [if_pos hpm, Res.ok_bind]
    simp
  · rw [if_neg hpm, rd16_eq, if_pos (by omega), Res.ok_bind, Res.ok_bind]
    have hdll : u16 b.data (pe + 22) &&& IMAGE_FILE_DLL = 0 := by
      by_contra h
      exact hnot ⟨hpm, h⟩
    simp [hdll]

theorem module_load_blocks_none (alloc_ok : Bool) (flags : Nat) :
    ∀ blocks : List Block, (∀ x, x ∈ blocks → ∀ p, ¬ Qualifies flags x p) →
      module_load_blocks alloc_ok flags blocks = .ok (ERROR_SUCCESS, ⟨PeObject.empty, none⟩) := by
  intro blocks
  induction blocks with
  | nil => intro _; rfl
  | cons x rest ih =>
    intro h
    rw [module_load_blocks_skip alloc_ok flags x rest (h x (List.mem_cons_self _ _))]
    exact ih (fun y hy => h y (List.mem_cons_of_mem _ hy))

theorem module_load_blocks_skip_all (alloc_ok : Bool) (flags : Nat) (rest : List Block) :
    ∀ pre : List Block, (∀ x, x ∈ pre → ∀ p, ¬ Qualifies flags x p) →
      module_load_blocks alloc_ok flags (pre ++ rest) = module_load_blocks alloc_ok flags rest := by
  intro pre
  induction pre with
  | nil => intro _; rfl
  | cons x pre ih =>
    intro h
    rw [List.cons_append, module_load_blocks_skip alloc_ok flags x _ (h x (List.mem_cons_self _ _))]
    exact ih (fun y hy => h y (List.mem_cons_of_mem _ hy))

theorem module_load_first_qualifying (flags : Nat) (pre : List Block) (b : Block)
    (post : List Block) (pe : Nat)
    (hpre : ∀ x, x ∈ pre → ∀ p, ¬ Qualifies flags x p) (hq : Qualifies flags b pe) :
    module_load true flags (pre ++ b :: post) =
      ((pe_parse_header b.data pe b.base (b.data.length - pe) flags).bind fun obj =>
        .ok (ERROR_SUCCESS,
          ⟨obj, some ⟨pe, b.data.length - pe, pe, b.data, b.data.length⟩⟩)) ∧
    (pe + 24 + 70 ≤ b.data.length → SectionNamesTerminated b.data pe (b.data.length - pe) →
      ∃ obj, module_load true flags (pre ++ b :: post) =
        .ok (ERROR_SUCCESS,
          ⟨obj, some ⟨pe, b.data.length - pe, pe, b.data, b.data.length⟩⟩)) ∧
    (∀ blocks : List Block, (∀ x, x ∈ blocks → ∀ p, ¬ Qualifies flags x p) →
      module_load true flags blocks = .ok (ERROR_SUCCESS, ⟨PeObject.empty, none⟩)) := by
  have hmain : module_load true flags (pre ++ b :: post) =
      ((pe_parse_header b.data pe b.base (b.data.length - pe) flags).bind fun obj =>
        .ok (ERROR_SUCCESS,
          ⟨obj, some ⟨pe, b.data.length - pe, pe, b.data, b.data.length⟩⟩)) := by
    unfold module_load
    rw [module_load_blocks_skip_all true flags _ pre hpre,
      module_load_blocks_take true flags b post pe hq]
    simp
  refine ⟨hmain, ?_, ?_⟩
  · intro hfix hnames
    have hfit := header_accepted_bounds hq.1
    obtain ⟨obj, hobj⟩ := pe_parse_header_ok b.data pe b.base (b.data.length - pe) flags hfix
      (by omega) hnames
    exact ⟨obj, by rw [hmain, hobj, Res.ok_bind]⟩
  · intro blocks h
    exact module_load_blocks_none true flags blocks h

set_option maxRecDepth 100000 in
/-- The failing input of C15: `shortHeaderBlock` is the only block and it
qualifies (`pe_get_header` succeeds, the scan is not a process-memory scan),
but `module_load` does not bind it: `pe_parse_header` reads
`AddressOfEntryPoint` at offset `64 + 24 + 16 = 104`, outside the 89 bytes of
the block. -/
theorem C15_failing_input :
    Qualifies 0 ⟨0, shortHeaderBlock⟩ 64 ∧
    shortHeaderBlock.length = 89 ∧
    rd32 shortHeaderBlock (64 + 24 + 16) = .oob ∧
    (module_load true 0 [⟨0, shortHeaderBlock⟩]).bind (fun r => .ok r.1) = .oob := by
  refine ⟨by decide, by decide, by decide, by decide⟩

/-! ## Defects: unbounded recursion and unchecked reads -/

set_option maxRecDepth 100000 in
theorem cyclic_walk_never_ends {σ : Type} (cb : Int → Int → Int → σ → Nat × σ) :
    ∀ (fuel level : Nat) (w : Walk σ),
      pe_iterate_resources_rec cyclicResourceImage cb 0x200 fuel 0x200 level w = .nofuel := by
  have h12 : rd16 cyclicResourceImage (0x200 + 12) = .ok 0 := by decide
  have h14 : rd16 cyclicResourceImage (0x200 + 14) = .ok 1 := by decide
  have h16 : rd32 cyclicResourceImage (0x200 + 16) = .ok 16 := by decide
  have h20 : rd32 cyclicResourceImage (0x200 + 16 + 4) = .ok 0x80000000 := by decide
  intro fuel
  induction fuel with
  | zero => intro level w; rfl
  | succ n ih =>
    intro level w
    unfold pe_iterate_resources_rec
    rw [h12, Res.ok_bind, h14, Res.ok_bind]
    have hn : (0 : Nat) + 1 = 0 + 1 := rfl
    unfold pe_iterate_entries
    rw [h16, h20]
    have hstep : ∀ w1 : Walk σ,
        ((Res.ok 0x80000000 : Res Nat).bind fun offset_to_data =>
          if offset_to_data &&& 0x80000000 ≠ 0 then
            (pe_iterate_resources_rec cyclicResourceImage cb 0x200 n
              (0x200 + (offset_to_data &&& 0x7FFFFFFF)) (level + 1) w1).bind fun r =>
              if r.1 = RESOURCE_ITERATOR_ABORTED then .ok (RESOURCE_ITERATOR_ABORTED, r.2)
              else pe_iterate_entries cyclicResourceImage cb
                (pe_iterate_resources_rec cyclicResourceImage cb 0x200 n) 0x200 level 0
                (0x200 + 16 + 8) r.2
          else
            let r := cb w1.type w1.id w1.language w1.cb_data
            if r.1 = RESOURCE_CALLBACK_ABORT then
              .ok (RESOURCE_ITERATOR_ABORTED, { w1 with cb_data := r.2 })
            else
              pe_iterate_entries cyclicResourceImage cb
                (pe_iterate_resources_rec cyclicResourceImage cb 0x200 n) 0x200 level 0
                (0x200 + 16 + 8) { w1 with cb_data := r.2 }) = .nofuel := by
      intro w1
      rw [Res.ok_bind, if_pos (by decide)]
      have h0 : 0x200 + (0x80000000 &&& 0x7FFFFFFF) = 0x200 := by decide
      rw [h0, ih]
      rfl
    by_cases l0 : level = 0
    · simp only [l0, if_true, Res.ok_bind]
      have := hstep { w with type := toInt32 16 }
      simpa [l0] using this
    · by_cases l1 : level = 1
      · simp only [l1, if_true, Res.ok_bind]
        have := hstep { w with id := toInt32 16 }
        simpa [l1] using this
      · by_cases l2 : level = 2
        · simp only [l2, if_true, Res.ok_bind]
          have := hstep { w with language := toInt32 16 }
          simpa [l2] using this
        · simp only [l0, l1, l2, if_false, Res.ok_bind]
          exact hstep w

theorem language_enters_walk (fuel : Nat) (obj : PeObject) (d : DATA) (lang : Int)
    (hb : Bound d)
    (h1 : dirEntry d.data d.pe_header 2 + 8 ≤ d.data.length)
    (h2 : u32 d.data (dirEntry d.data d.pe_header 2) ≠ 0)
    (h3 : rva2off d (u32 d.data (dirEntry d.data d.pe_header 2)) ≠ 0)
    (h4 : rva2off d (u32 d.data (dirEntry d.data d.pe_header 2)) < d.pe_size)
    (h5 : u32 d.data (dirEntry d.data d.pe_header 2 + 4) <
      d.pe_size - rva2off d (u32 d.data (dirEntry d.data d.pe_header 2))) :
    language fuel ⟨obj, some d⟩ lang =
      ((pe_iterate_resources_rec d.data pe_find_language_cb
          (rva2off d (u32 d.data (dirEntry d.data d.pe_header 2))) fuel
          (rva2off d (u32 d.data (dirEntry d.data d.pe_header 2))) 0
          ⟨-1, -1, -1, ⟨(lang % 18446744073709551616).toNat, 0⟩⟩).bind fun r =>
        .ok ((r.2.cb_data.found : Nat) : Int)) := by
  have hpo : d.pe_header - d.pe_offset +
      rva2off d (u32 d.data (dirEntry d.data d.pe_header 2)) =
      rva2off d (u32 d.data (dirEntry d.data d.pe_header 2)) := by
    have := hb.2.2.1
    omega
  unfold language pe_iterate_resources
  simp only [IMAGE_DIRECTORY_ENTRY_RESOURCE]
  rw [pe_get_directory_entry_ok hb, Res.ok_bind, rd32_eq, if_pos (by omega), Res.ok_bind,
    if_pos h2, pe_rva_to_offset_ok hb, Res.ok_bind, if_pos ⟨h3, h4⟩, rd32_eq,
    if_pos (by omega), Res.ok_bind, if_pos h5, hpo]
  cases pe_iterate_resources_rec d.data pe_find_language_cb
      (rva2off d (u32 d.data (dirEntry d.data d.pe_header 2))) fuel
      (rva2off d (u32 d.data (dirEntry d.data d.pe_header 2))) 0
      ⟨-1, -1, -1, ⟨(lang % 18446744073709551616).toNat, 0⟩⟩ with
  | ok r => simp
  | oob => rfl
  | nofuel => rfl

set_option maxRecDepth 100000 in
/-- The failing input of C16: `cyclicResourceImage` is bound, its resource
directory passes every check of `pe_iterate_resources`, and the walk made by
`language` exhausts every recursion budget: the recursion never returns and
descends below any depth. -/
theorem C16_failing_input :
    Bound (bindAt cyclicResourceImage 64) ∧
    ∀ (fuel : Nat) (L : Int),
      language fuel ⟨PeObject.empty, some (bindAt cyclicResourceImage 64)⟩ L = .nofuel := by
  have hb : Bound (bindAt cyclicResourceImage 64) := by decide
  refine ⟨hb, fun fuel L => ?_⟩
  have hoff : rva2off (bindAt cyclicResourceImage 64)
      (u32 (bindAt cyclicResourceImage 64).data
        (dirEntry (bindAt cyclicResourceImage 64).data (bindAt cyclicResourceImage 64).pe_header 2))
      = 0x200 := by decide
  rw [language_enters_walk fuel PeObject.empty (bindAt cyclicResourceImage 64) L hb
    (by decide) (by decide) (by decide) (by decide) (by decide), hoff]
  have := cyclic_walk_never_ends pe_find_language_cb fuel 0
    ⟨-1, -1, -1, ⟨(L % 18446744073709551616).toNat, 0⟩⟩
  have hd : (bindAt cyclicResourceImage 64).data = cyclicResourceImage := rfl
  rw [hd, this]
  rfl

/-- C17: `exports` and `imports` terminate on every module and every
argument: no loop exhausts its budget.  The name loop of `exports` is bounded
by `NumberOfNames`; the descriptor loop and the thunk loops of `imports`
advance by one record of 20, 4 or 8 bytes per iteration and need no more
iterations than the number of records that fit below `data_size`. -/
theorem C17_exports_imports_terminate :
    (∀ (m : Module) (n : List Nat), exports m n ≠ .nofuel) ∧
    (∀ (d : DATA) (n : List Nat) (names number_of_names : Nat),
      exports_loop d n names number_of_names 0 ≠ .nofuel) ∧
    (∀ (m : Module) (dll f : List Nat), imports m dll f ≠ .nofuel) ∧
    (∀ (d : DATA) (dll f : List Nat) (fuel imp : Nat),
      d.data_size < imp + sizeof_IMAGE_IMPORT_DESCRIPTOR * fuel → fuel ≠ 0 →
      imports_loop d dll f fuel imp ≠ .nofuel) ∧
    (∀ (d : DATA) (f : List Nat) (fuel th : Nat),
      d.data_size < th + sizeof_IMAGE_THUNK_DATA32 * fuel → fuel ≠ 0 →
      imports_thunks32 d f fuel th ≠ .nofuel) ∧
    (∀ (d : DATA) (f : List Nat) (fuel th : Nat),
      d.data_size < th + sizeof_IMAGE_THUNK_DATA64 * fuel → fuel ≠ 0 →
      imports_thunks64 d f fuel th ≠ .nofuel) := by
  refine ⟨exports_ne_nofuel, fun d n names k => exports_loop_ne_nofuel d n names k 0,
    imports_ne_nofuel, fun d dll f fuel imp h1 h2 => imports_loop_ne_nofuel d dll f fuel imp h1 h2,
    fun d f fuel th h1 h2 => ?_, fun d f fuel th h1 h2 => ?_⟩
  · rw [imports_thunks32_eq_gen]
    exact imports_thunks_gen_ne_nofuel d f _ rd32 _ (fun th => rd32_ne_nofuel _ _) _ _ h1 h2
  · rw [imports_thunks64_eq_gen]
    exact imports_thunks_gen_ne_nofuel d f _ rd64 _ (fun th => rd64_ne_nofuel _ _) _ _ h1 h2

set_option maxRecDepth 100000 in
/-- Witness for C17: on the PE32 import image, a descriptor loop started at the
first descriptor with a budget of 39 iterations (more than the 28 descriptors
that fit in the 768 bytes) does not exhaust it. -/
theorem C17_witness :
    imports_loop (bindAt (importImage false) 64) (ascii "user32.dll") (ascii "f") 39 0x200
      ≠ .nofuel :=
  C17_exports_imports_terminate.2.2.2.1 (bindAt (importImage false) 64) (ascii "user32.dll")
    (ascii "f") 39 0x200 (by decide) (by decide)

set_option maxRecDepth 100000 in
/-- The failing input of C18: `truncatedExportImage` is accepted and bound, its
export directory RVA maps to offset `0x2F8 < data_size = 0x300`, and `exports`
reads `AddressOfNames` at `0x2F8 + 32`, outside the buffer. -/
theorem C18_failing_input :
    Bound (bindAt truncatedExportImage 64) ∧
    rva2off (bindAt truncatedExportImage 64)
      (u32 truncatedExportImage (dirEntry truncatedExportImage 64 0)) = 0x2F8 ∧
    truncatedExportImage.length = 0x300 ∧
    exports ⟨PeObject.empty, some (bindAt truncatedExportImage 64)⟩ (ascii "f") = .oob := by
  refine ⟨by decide, by decide, by decide, by decide⟩

/-! ## Matching of import and export names -/

theorem imports_of_table {d : DATA} (hb : Bound d) (obj : PeObject) (dll f : List Nat)
    (h1 : dirEntry d.data d.pe_header 1 + 8 ≤ d.data.length)
    (h2 : u32 d.data (dirEntry d.data d.pe_header 1) ≠ 0)
    (h3 : rva2off d (u32 d.data (dirEntry d.data d.pe_header 1)) ≠ 0) :
    imports ⟨obj, some d⟩ dll f =
      if rva2off d (u32 d.data (dirEntry d.data d.pe_header 1)) + 20 > d.data.length then .ok 0
      else imports_loop d dll f (d.data.length + 1)
        (rva2off d (u32 d.data (dirEntry d.data d.pe_header 1))) := by
  have hds : d.data_size = d.data.length := hb.2.2.2
  unfold imports
  simp only [IMAGE_DIRECTORY_ENTRY_IMPORT, sizeof_IMAGE_IMPORT_DESCRIPTOR]
  rw [pe_get_directory_entry_ok hb, Res.ok_bind, rd32_eq, if_pos (by omega), Res.ok_bind,
    if_neg h2, pe_rva_to_offset_ok hb, Res.ok_bind, hds]
  by_cases hgt : rva2off d (u32 d.data (dirEntry d.data d.pe_header 1)) + 20 > d.data.length
  · rw [if_pos (Or.inr hgt), if_pos hgt]
  · rw [if_neg (by rintro (h | h); exact h3 h; exact hgt h), if_neg hgt]

theorem imports_found_in_table {d : DATA} (hb : Bound d)
    (hsz : d.data.length < 18446744073709551616) (obj : PeObject)
    (descs : List (List Nat × List (Option (List Nat)))) (dll q g : List Nat)
    (ht : ImportTable d descs) (hdll : IsCStr dll) (hp : q <+: g)
    (hex : ∃ e, e ∈ descs ∧ dll.map tolower = e.1.map tolower ∧ some g ∈ e.2) :
    imports ⟨obj, some d⟩ dll q = .ok 1 := by
  obtain ⟨h1, h2, h3, h4⟩ := ht
  rw [imports_of_table hb obj dll q h1 h2 h3]
  cases descs with
  | nil =>
    obtain ⟨e, he, -⟩ := hex
    simp at he
  | cons e0 rest =>
    have hin := h4.1
    rw [if_neg (by omega)]
    exact imports_loop_found hb hsz dll q g hdll hp _ _ _ h4 hex (by omega)

/-- C20: on a bound image with a well-formed import table, `imports(d, f)` is 1
as soon as a descriptor whose DLL name matches `d` names `f` in a by-name
thunk, wherever that descriptor stands in the table: the descriptors before it,
whether or not their DLL names match `d` too, do not end the scan. -/
theorem C20_later_descriptor_found (obj : PeObject) (d : DATA)
    (pre post : List (List Nat × List (Option (List Nat))))
    (e : List Nat × List (Option (List Nat))) (dll f : List Nat)
    (hb : Bound d) (hsz : d.data.length < 18446744073709551616)
    (ht : ImportTable d (pre ++ e :: post)) (hdll : IsCStr dll)
    (hm : dll.map tolower = e.1.map tolower) (hf : some f ∈ e.2) :
    imports ⟨obj, some d⟩ dll f = .ok 1 :=
  imports_found_in_table hb hsz obj (pre ++ e :: post) dll f f ht hdll (List.prefix_refl f)
    ⟨e, by simp, hm, hf⟩

set_option maxRecDepth 100000 in
/-- Witness for C20 on the PE32+ import image: the first descriptor
(`KERNEL32.dll`) matches `kernel32.dll` and does not name `CreateFileA`; the
second one does, and the function is found. -/
theorem C20_witness :
    imports ⟨PeObject.empty, some (bindAt (importImage true) 64)⟩ (ascii "kernel32.dll")
      (ascii "CreateFileA") = .ok 1 :=
  C20_later_descriptor_found PeObject.empty (bindAt (importImage true) 64)
    [(ascii "KERNEL32.dll", [none, some (ascii "ExitProcess")])]
    [(ascii "user32.dll", [none])]
    (ascii "kernel32.dll", [some (ascii "CreateFileA")])
    (ascii "kernel32.dll") (ascii "CreateFileA") (by decide) (by decide) (by decide) (by decide)
    (by decide) (by decide)

/-- C21: on a bound image with a well-formed import table in which a
descriptor's DLL name matches `d` and one of its by-name thunks names the import
`g`, `imports(d, q)` is 1 for every prefix `q` of `g`, be it strictly
shorter than `g` or empty. -/
theorem C21_imports_prefix_accepted (obj : PeObject) (d : DATA)
    (descs : List (List Nat × List (Option (List Nat))))
    (e : List Nat × List (Option (List Nat))) (dll g q : List Nat)
    (hb : Bound d) (hsz : d.data.length < 18446744073709551616)
    (ht : ImportTable d descs) (hdll : IsCStr dll) (he : e ∈ descs)
    (hm : dll.map tolower = e.1.map tolower) (hg : some g ∈ e.2) (hq : q <+: g) :
    imports ⟨obj, some d⟩ dll q = .ok 1 :=
  imports_found_in_table hb hsz obj descs dll q g ht hdll hq ⟨e, he, hm, hg⟩

set_option maxRecDepth 100000 in
/-- Witness for C21 on the PE32 import image: `Create` and the empty string
are prefixes of `CreateFileA`, imported from `kernel32.dll`. -/
theorem C21_witness :
    imports ⟨PeObject.empty, some (bindAt (importImage false) 64)⟩ (ascii "kernel32.dll")
      (ascii "Create") = .ok 1 ∧
    imports ⟨PeObject.empty, some (bindAt (importImage false) 64)⟩ (ascii "kernel32.dll")
      [] = .ok 1 :=
  ⟨C21_imports_prefix_accepted PeObject.empty (bindAt (importImage false) 64) importDescs
      (ascii "kernel32.dll", [some (ascii "CreateFileA")]) (ascii "kernel32.dll")
      (ascii "CreateFileA") (ascii "Create") (by decide) (by decide) (by decide) (by decide)
      (by decide) (by decide) (by decide) (by decide),
   C21_imports_prefix_accepted PeObject.empty (bindAt (importImage false) 64) importDescs
      (ascii "kernel32.dll", [some (ascii "CreateFileA")]) (ascii "kernel32.dll")
      (ascii "CreateFileA") [] (by decide) (by decide) (by decide) (by decide)
      (by decide) (by decide) (by decide) (by decide)⟩

theorem exports_loop_not_accepted (d : DATA) (q g : List Nat) (names n i : Nat)
    (hb : Bound d) (hq : IsCStr q) (htab : names + 4 * i + 4 ≤ d.data.length)
    (hg : CStrAt d.data (exportNameOff d names i) g) (hne : g ≠ q) :
    strncmp d.data (exportNameOff d names i) q (d.data_size - exportNameOff d names i) =
      .ok false ∧
    exports_loop d q names (n + 1) i =
      if exportNameOff d names i = 0 then .ok 0 else exports_loop d q names n (i + 1) := by
  have hds : d.data_size = d.data.length := hb.2.2.2
  have hlt := hg.2.1
  have hcmp : strncmp d.data (exportNameOff d names i) q
      (d.data_size - exportNameOff d names i) = .ok false := by
    rw [strncmp_cstr d.data g _ q _ hg hq (by rw [hds]; omega)]
    simp [hne]
  refine ⟨hcmp, ?_⟩
  rw [exports_loop]
  simp only [sizeof_DWORD]
  rw [rd32_eq, if_pos (by omega), Res.ok_bind, pe_rva_to_offset_ok hb, Res.ok_bind]
  have hoff : rva2off d (u32 d.data (names + 4 * i)) = exportNameOff d names i := rfl
  rw [hoff]
  by_cases h0 : exportNameOff d names i = 0
  · rw [if_pos (Or.inl h0), if_pos h0]
  · have hin : ¬ (exportNameOff d names i = 0 ∨ exportNameOff d names i ≥ d.data_size) := by
      rw [hds]; omega
    rw [if_neg hin, if_neg h0, hcmp, Res.ok_bind]
    simp

/-- C22 (as amended): on a bound image, for an entry of the export name table
(inside the buffer) whose stored name `g` is NUL-terminated inside the buffer
and for every query `q`: if `g` is a proper prefix of `q` the entry is not
accepted as a match, and if `q` is a proper prefix of `g` the entry is not
accepted either.  Not accepted: the comparison fails, and the search goes on
to the next entry (or stops with 0 when the name offset is 0). -/
theorem C22_exports_entry_exact (d : DATA) (q g : List Nat) (names n i : Nat)
    (hb : Bound d) (hq : IsCStr q) (htab : names + 4 * i + 4 ≤ d.data.length)
    (hg : CStrAt d.data (exportNameOff d names i) g) :
    (g <+: q ∧ g ≠ q →
      strncmp d.data (exportNameOff d names i) q (d.data_size - exportNameOff d names i) =
        .ok false ∧
      exports_loop d q names (n + 1) i =
        if exportNameOff d names i = 0 then .ok 0 else exports_loop d q names n (i + 1)) ∧
    (q <+: g ∧ q ≠ g →
      strncmp d.data (exportNameOff d names i) q (d.data_size - exportNameOff d names i) =
        .ok false ∧
      exports_loop d q names (n + 1) i =
        if exportNameOff d names i = 0 then .ok 0 else exports_loop d q names n (i + 1)) :=
  ⟨fun h => exports_loop_not_accepted d q g names n i hb hq htab hg h.2,
   fun h => exports_loop_not_accepted d q g names n i hb hq htab hg (fun e => h.2 e.symm)⟩

set_option maxRecDepth 100000 in
/-- Witness for C22 on `exportImage`: the query `Alph` against the first entry
of the name table (at `0x228`), whose stored name is `Alpha`. -/
theorem C22_witness :
    strncmp (bindAt exportImage 64).data (exportNameOff (bindAt exportImage 64) 0x228 0)
        (ascii "Alph")
        ((bindAt exportImage 64).data_size - exportNameOff (bindAt exportImage 64) 0x228 0) =
      .ok false ∧
    exports_loop (bindAt exportImage 64) (ascii "Alph") 0x228 (1 + 1) 0 =
      if exportNameOff (bindAt exportImage 64) 0x228 0 = 0 then .ok 0
      else exports_loop (bindAt exportImage 64) (ascii "Alph") 0x228 1 (0 + 1) :=
  (C22_exports_entry_exact (bindAt exportImage 64) (ascii "Alph") (ascii "Alpha") 0x228 1 0
    (by decide) (by decide) (by decide) (by decide)).2 ⟨by decide, by decide⟩

set_option maxRecDepth 100000 in
/-- Counterexample to C22 as stated: in `exportImage` the stored name `Alpha`
is NUL-terminated inside the buffer and the query `Alph` is a proper prefix of
it, yet the entry is not accepted and `exports("Alph")` is 0. -/
theorem C22_counterexample :
    Bound (bindAt exportImage 64) ∧
    CStrAt exportImage 0x230 (ascii "Alpha") ∧
    exportNameOff (bindAt exportImage 64) 0x228 0 = 0x230 ∧
    ascii "Alph" <+: ascii "Alpha" ∧ ascii "Alph" ≠ ascii "Alpha" ∧
    strncmp exportImage 0x230 (ascii "Alph") (exportImage.length - 0x230) = .ok false ∧
    exports ⟨PeObject.empty, some (bindAt exportImage 64)⟩ (ascii "Alph") = .ok 0 := by
  refine ⟨by decide, by decide, by decide, by decide, by decide, by decide, by decide⟩

end PE
